import Mathlib

/-!
ksonnet: prototype values (`pkg/prototype/values.go`) and the actions
`param set` (`actions/param_set.go`) and `prototype use`
(`pkg/actions/prototype_use.go`).

A shallow embedding of the value resolver of `pkg/prototype/values.go` (the
values-file parser, the File Extractor, the Flag Extractor, `BindFlags` and
the resolver `Values`), of `NewParamSet` and `ParamSet.Run`, and of
`detectTemplate` and `PrototypeUse.Run`.

Conventions of the embedding.

* A Go `string` is a list of characters (`Str`); the text is taken to be
  valid UTF-8, so that splitting on the ASCII byte `=` or `\n` and splitting
  on the character coincide.
* A Go `(value, error)` result is an `Except Err value`.
* A Go `map[string]string` is an association list (`GoMap`) with at most one
  entry per key; reading an absent key yields the empty string, as in Go.
* `io.Reader` / `bufio.Scanner`: a `Reader` carries the text it delivers and
  whether its last read ends in an error instead of the end of input. The
  scanner (`bufio`, not among the given sources) is modelled with its buffer
  of `MaxScanTokenSize` bytes: it delivers the lines before the first one that
  does not fit the buffer, and `scanner.Err()` reports an error when there is
  such a line or when the read failed. The end of input is taken to be
  reported by a read of its own, as `strings.Reader`, `os.File` and the files
  of `afero` do.
* `afero.Fs`: a function from a path to the result of `Open`; the paths
  handed to `Open` are logged next to the result.
* `pflag.FlagSet`: the list of defined string flags with their current
  values; a panic of `FlagSet.String` is an error result.
* `ParamSchema.Quote` is declared outside `values.go`: the functions that
  call it take it as the parameter `Q`.
* The actions return their error (`none` for nil) next to the log of the
  calls they make to their collaborators; the collaborators themselves are
  parameters (`Manager`, `UseDeps`, the function fields of the structs).
-/

namespace Ksonnet

/-- A Go string, as its sequence of characters. -/
abbrev Str := List Char

/-- Modelled from the spec: the `ParamType` enumeration is declared outside the
given sources; the spec lists `String, Number, Boolean, Object, Array,
NumberOrString`. -/
inductive ParamType where
  | String
  | Number
  | Boolean
  | Object
  | Array
  | NumberOrString
deriving DecidableEq, Repr

/-- Modelled from the spec: the `ParamSchema` struct is declared outside the
given sources; `{name, type, description, default: optional<string>}`.
`Default = none` is Go's nil `*string`; the field `Typ` is the source's
`Type`. -/
structure ParamSchema where
  Name : Str
  Typ : ParamType
  Description : Str
  Default : Option Str
deriving DecidableEq, Repr

/-- Modelled from the spec: the `Prototype` struct is declared outside the
given sources; `{name, params: ordered sequence<ParameterSchema>}` (the opaque
body plays no part in value resolution). -/
structure Prototype where
  Name : Str
  Params : List ParamSchema
deriving DecidableEq, Repr

/-- Errors returned by the functions of `values.go`, one constructor per
`errors.New` / `errors.Errorf` / `errors.Wrap` site, plus the errors of the
collaborators. -/
inductive Err where
  /-- "prototype is required" -/
  | prototypeRequired
  /-- "flags is required" -/
  | flagsRequired
  /-- The error of `pflag.FlagSet.GetString` for a flag that is not defined. -/
  | flagAccess (name : Str)
  /-- "name for prototype is required" -/
  | nameForPrototypeRequired
  /-- "fs is required" -/
  | fsRequired
  /-- "name is required" -/
  | nameRequired
  /-- "path to values file is required" -/
  | pathRequired
  /-- The error of `fs.Open` for a path that cannot be opened. -/
  | openFailed (path : Str)
  /-- The error of `errors.Wrap(err, "reading values file")`. -/
  | readingValuesFile (cause : Err)
  /-- "%q is invalid. value format is key=value", with the raw line. -/
  | invalidLine (line : Str)
  /-- The error a `bufio.Scanner` ends with (failed read, token too long). -/
  | scanner
  /-- The error of `errors.Wrap(err, "scanning error")`. -/
  | scanningError (cause : Err)
  /-- File Extractor: "failed to instantiate prototype '%s'. The following
  required parameters are missing:\n%s". -/
  | missingRequired (proto : Str) (missing : List ParamSchema)
  /-- Flag Extractor: "failed to instantiate prototype %q. The following
  required parameters are missing:\n%s". -/
  | missingRequiredFlags (proto : Str) (missing : List ParamSchema)
  /-- "prototype %q has multiple parameters with name %q" -/
  | duplicateParam (proto : Str) (name : Str)
  /-- The error of `ParamSchema.QuotedValue` for an empty value of a required
  parameter. -/
  | emptyRequired (name : Str)
  /-- An error of `ParamSchema.Quote`, with its message. -/
  | quoteFailed (message : Str)
  /-- The panic of `pflag.FlagSet.String` for a name that is already defined
  ("flag redefined"). -/
  | flagRedefined (name : Str)
  /-- The error of `pflag.FlagSet.Set` for a flag that is not defined. -/
  | noSuchFlag (name : Str)
deriving DecidableEq, Repr

deriving instance DecidableEq for Except

/-! ## Go maps -/

/-- A Go `map[string]string`. -/
abbrev GoMap := List (Str × Str)

/-- The two-valued map read `v, ok := m[k]`. -/
def GoMap.find : GoMap → Str → Option Str
  | [], _ => none
  | (k, v) :: rest, key => if k = key then some v else GoMap.find rest key

/-- The map read `m[k]`: the zero value `""` when the key is absent. -/
def GoMap.get (m : GoMap) (key : Str) : Str :=
  (m.find key).getD []

/-- Erasing a key. -/
def GoMap.erase : GoMap → Str → GoMap
  | [], _ => []
  | (k, v) :: rest, key => if k = key then GoMap.erase rest key else (k, v) :: GoMap.erase rest key

/-- The map write `m[k] = v`. -/
def GoMap.set (m : GoMap) (key value : Str) : GoMap :=
  (key, value) :: m.erase key

/-! ## Library functions used by the parser -/

/-- Go's `unicode.IsSpace`. -/
def isSpace (c : Char) : Bool :=
  let n := c.toNat
  (9 ≤ n && n ≤ 13) || n = 32 || n = 0x85 || n = 0xA0 || n = 0x1680 ||
  (0x2000 ≤ n && n ≤ 0x200A) || n = 0x2028 || n = 0x2029 || n = 0x202F ||
  n = 0x205F || n = 0x3000

/-- Go's `strings.TrimSpace`: leading and trailing white space removed. -/
def TrimSpace (s : Str) : Str :=
  ((s.dropWhile isSpace).reverse.dropWhile isSpace).reverse

/-- The pieces of `s` around the first occurrence of `sep`, if there is one. -/
def cut (sep : Char) : Str → Option (Str × Str)
  | [] => none
  | c :: cs =>
    if c = sep then some ([], cs)
    else match cut sep cs with
      | none => none
      | some (before, after) => some (c :: before, after)

/-- Go's `strings.SplitN(s, sep, 2)` for a one-character separator: `[s]`
when `sep` does not occur, else the text before and after its first
occurrence. -/
def SplitN2 (s : Str) (sep : Char) : List Str :=
  match cut sep s with
  | none => [s]
  | some (before, after) => [before, after]

/-- The function `dropCR` of `bufio`: a terminal carriage return removed. -/
def dropCR : Str → Str
  | [] => []
  | [c] => if c = '\r' then [] else [c]
  | c :: d :: rest => c :: dropCR (d :: rest)

/-- The text cut at every `\n`; a final piece is kept only when it is not
empty (`bufio.ScanLines` yields no token for empty data at end of input). -/
def rawLines : Str → List Str
  | [] => []
  | c :: cs =>
    if c = '\n' then [] :: rawLines cs
    else match rawLines cs with
      | [] => [[c]]
      | line :: rest => (c :: line) :: rest

/-- The constant `bufio.MaxScanTokenSize`: the size the buffer of a scanner
grows to, and no further. -/
def MaxScanTokenSize : Nat :=
  64 * 1024

/-- Go's `utf8.RuneLen` on a character: the number of bytes of its UTF-8
encoding. -/
def RuneLen (c : Char) : Nat :=
  if c.toNat < 0x80 then 1
  else if c.toNat < 0x800 then 2
  else if c.toNat < 0x10000 then 3
  else 4

/-- Go's `len(s)`: the number of bytes of a text. -/
def byteLen : Str → Nat
  | [] => 0
  | c :: cs => RuneLen c + byteLen cs

/-- Whether `bufio.ScanLines` gets to see a piece of the text as a token. The
scanner asks for a token on what its buffer holds, and gives up with
`ErrTooLong` when the buffer is full, at `MaxScanTokenSize` bytes, and holds
no token: a piece followed by `\n` is found when the `\n` lies within the
first `MaxScanTokenSize` bytes, a final piece when the buffer is not full
before the end of input is read. Both say that the piece has fewer than
`MaxScanTokenSize` bytes. -/
def fits (piece : Str) : Bool :=
  decide (byteLen piece < MaxScanTokenSize)

/-- The lines of a text, each without its end-of-line marker (`\n` or
`\r\n`), whether the scanner delivers them or not. -/
def textLines (data : Str) : List Str :=
  (rawLines data).map dropCR

/-- The tokens of a `bufio.Scanner` with the default split function
`bufio.ScanLines`: the lines of the text before the first one that does not
fit the buffer, each without its end-of-line marker (`\n` or `\r\n`). -/
def scanLines (data : Str) : List Str :=
  ((rawLines data).takeWhile fits).map dropCR

/-- An `io.Reader`: the text it delivers and whether its last read ends in an
error instead of the end of input. -/
structure Reader where
  data : Str
  readErr : Bool
deriving DecidableEq, Repr

/-- Whether a scanner with the default split function ends with an error
(`scanner.Err() != nil`) on a reader: `ErrTooLong` for a line that does not
fit the buffer, or the error of the read. After a failed read the scanner
still delivers what it holds, as at the end of input. -/
def Reader.failed (r : Reader) : Bool :=
  !(rawLines r.data).all fits || r.readErr

/-- An `afero.Fs`, as far as `values.go` uses it: the result of `Open`, `none`
when the path cannot be opened. -/
abbrev Fs := Str → Option Reader

/-! ## Parameter schema -/

/-- The method `ParamSchema.Quote` is declared outside the given sources: it
is a parameter of the embedding. It renders a raw value as a literal of the
parameter's type, or fails with a message. -/
abbrev Quoter := ParamSchema → Str → Except Str Str

/-- Modelled from the spec: `ParamSchema.IsRequired` is declared outside the
given sources; "true iff no default recorded". -/
def ParamSchema.IsRequired (ps : ParamSchema) : Bool :=
  ps.Default.isNone

/-- Modelled from the spec: `ParamSchema.QuotedValue` is declared outside the
given sources; "same as Quote but additionally falls back to the parameter's
own default when raw is empty; fails if empty and required". -/
def ParamSchema.QuotedValue (Q : Quoter) (ps : ParamSchema) (raw : Str) : Except Err Str :=
  if raw = [] then
    match ps.Default with
    | none => .error (.emptyRequired ps.Name)
    | some d => (Q ps d).mapError Err.quoteFailed
  else (Q ps raw).mapError Err.quoteFailed

/-- Modelled from the spec: `Prototype.RequiredParams` is declared outside the
given sources; the parameters that are required (no default), in schema
order. -/
def Prototype.RequiredParams (p : Prototype) : List ParamSchema :=
  p.Params.filter (fun ps => ps.Default.isNone)

/-- Modelled from the spec: `Prototype.OptionalParams` is declared outside the
given sources; the parameters that have a default, in schema order. -/
def Prototype.OptionalParams (p : Prototype) : List ParamSchema :=
  p.Params.filter (fun ps => ps.Default.isSome)

/-- The double-quote character. -/
def dquote : Char := Char.ofNat 34

/-- The backslash character. -/
def bslash : Char := Char.ofNat 92

/-- A backslash put before every double quote. -/
def escapeQuotes : Str → Str
  | [] => []
  | c :: cs => if c = dquote then bslash :: c :: escapeQuotes cs else c :: escapeQuotes cs

/-- Modelled from the spec: `ParamSchema.Quote` is declared outside the given
sources; "For type String: wraps in quotes, escaping embedded quote
characters. For other declared types the raw text is emitted verbatim if it
already parses as that type's literal syntax, else fails with a type-mismatch
error naming the parameter". The literal syntax of the other types is the
parameter `lit`. The test "from flags" of `values_test.go` fixes the quoted
form of an empty value of a required String parameter to `""`. -/
def specQuote (lit : ParamType → Str → Bool) : Quoter := fun ps raw =>
  match ps.Typ with
  | .String => .ok (dquote :: (escapeQuotes raw ++ [dquote]))
  | t => if lit t raw then .ok raw else .error ps.Name

/-! ## The values-file parser and the File Extractor -/

/-- The struct `valuesFromFile`. -/
structure valuesFromFile where
  p : Prototype
  name : Str
  r : Reader
deriving DecidableEq, Repr

/-- The body of the loop `for scanner.Scan()` of `valuesFromFile.values`, run
over the scanner's tokens; `m` is the map built so far. -/
def valuesLoop : List Str → GoMap → Except Err GoMap
  | [], m => .ok m
  | s :: rest, m =>
    match SplitN2 s '=' with
    | [key, value] =>
      if value = [] then .error (.invalidLine s)
      else valuesLoop rest (m.set (TrimSpace key) (TrimSpace value))
    | _ => .error (.invalidLine s)

/-- The method `valuesFromFile.values`: the key/value pairs of the values
file. -/
def valuesFromFile.values (vff : valuesFromFile) : Except Err GoMap :=
  match valuesLoop (scanLines vff.r.data) [] with
  | .error e => .error e
  | .ok m =>
    if vff.r.failed then .error (.scanningError .scanner)
    else .ok m

/-- The loop over `vff.p.Params` of `valuesFromFile.Extract`; `m` and
`missingRequired` are the map and the list built so far. -/
def extractFileLoop (Q : Quoter) (values : GoMap) :
    List ParamSchema → GoMap → List ParamSchema → Except Err (GoMap × List ParamSchema)
  | [], m, missingRequired => .ok (m, missingRequired)
  | param :: rest, m, missingRequired =>
    let v := values.get param.Name
    let missingRequired :=
      if v = [] && param.IsRequired then missingRequired ++ [param] else missingRequired
    match param.QuotedValue Q (values.get param.Name) with
    | .error e => .error e
    | .ok quoted => extractFileLoop Q values rest (m.set param.Name quoted) missingRequired

/-- The method `valuesFromFile.Extract`. -/
def valuesFromFile.Extract (Q : Quoter) (vff : valuesFromFile) : Except Err GoMap :=
  if vff.name = [] then .error .nameForPrototypeRequired
  else match vff.values with
    | .error e => .error (.readingValuesFile e)
    | .ok values =>
      let values := values.set "name".toList vff.name
      match extractFileLoop Q values vff.p.Params [] [] with
      | .error e => .error e
      | .ok (m, missingRequired) =>
        if missingRequired.length > 0 then .error (.missingRequired vff.p.Name missingRequired)
        else .ok m

/-! ## Flags and the Flag Extractor -/

/-- A `pflag.FlagSet` holding string flags: the defined flags with their
current values (`nil` is `none` of `Option FlagSet`). -/
structure FlagSet where
  formal : GoMap
deriving DecidableEq, Repr

/-- The function `pflag.NewFlagSet`: no flag defined. -/
def NewFlagSet : FlagSet :=
  ⟨[]⟩

/-- The method `FlagSet.GetString`: the current value of a defined flag, an
error for an undefined one. -/
def FlagSet.GetString (fs : FlagSet) (name : Str) : Except Err Str :=
  match fs.formal.find name with
  | none => .error (.flagAccess name)
  | some v => .ok v

/-- The method `FlagSet.String(name, value, usage)`: defines a string flag
with a default value; panics when the name is already defined. -/
def FlagSet.String (fs : FlagSet) (name value : Str) : Except Err FlagSet :=
  match fs.formal.find name with
  | some _ => .error (.flagRedefined name)
  | none => .ok ⟨fs.formal.set name value⟩

/-- The method `FlagSet.Set(name, value)`: sets the value of a defined flag;
`Parse` of the command line `--name X` performs `Set("name", X)`. -/
def FlagSet.Set (fs : FlagSet) (name value : Str) : Except Err FlagSet :=
  match fs.formal.find name with
  | none => .error (.noSuchFlag name)
  | some _ => .ok ⟨fs.formal.set name value⟩

/-- The struct `valuesFromFlags`. -/
structure valuesFromFlags where
  p : Prototype
  flags : FlagSet
deriving DecidableEq, Repr

/-- The function `newValuesFromFlags`. -/
def newValuesFromFlags (p : Prototype) (flags : FlagSet) : valuesFromFlags :=
  ⟨p, flags⟩

/-- The loop over `vff.p.Params` of `valuesFromFlags.Extract`; `values` and
`missingRequired` are the map and the list built so far. -/
def extractFlagsLoop (Q : Quoter) (protoName : Str) (flags : FlagSet) :
    List ParamSchema → GoMap → List ParamSchema → Except Err (GoMap × List ParamSchema)
  | [], values, missingRequired => .ok (values, missingRequired)
  | param :: rest, values, missingRequired =>
    match flags.GetString param.Name with
    | .error e => .error e
    | .ok val =>
      if param.Default.isSome && val.isEmpty then
        extractFlagsLoop Q protoName flags rest values (missingRequired ++ [param])
      else if (values.find param.Name).isSome then
        .error (.duplicateParam protoName param.Name)
      else match Q param val with
        | .error e => .error (.quoteFailed e)
        | .ok quoted =>
          extractFlagsLoop Q protoName flags rest (values.set param.Name quoted) missingRequired

/-- The method `valuesFromFlags.Extract`. -/
def valuesFromFlags.Extract (Q : Quoter) (vff : valuesFromFlags) : Except Err GoMap :=
  match extractFlagsLoop Q vff.p.Name vff.flags vff.p.Params [] [] with
  | .error e => .error e
  | .ok (values, missingRequired) =>
    if missingRequired.length > 0 then
      .error (.missingRequiredFlags vff.p.Name missingRequired)
    else .ok values

/-- The constant `OptionValuesFile`. -/
def OptionValuesFile : Str :=
  "values-file".toList

/-- The loops `for _, param := range ...` of `BindFlags`: one string flag per
parameter, whose default is `dflt param`. -/
def bindParams (dflt : ParamSchema → Str) : List ParamSchema → FlagSet → Except Err FlagSet
  | [], fs => .ok fs
  | param :: rest, fs =>
    match fs.String param.Name (dflt param) with
    | .error e => .error e
    | .ok fs1 => bindParams dflt rest fs1

/-- The function `BindFlags`: the `values-file` flag, then one flag per
required parameter with default `""`, then one flag per optional parameter
with the parameter's default (`*param.Default`, never nil among the optional
parameters). A panic of `fs.String` is the error result. -/
def BindFlags (p : Prototype) : Except Err FlagSet :=
  match NewFlagSet.String OptionValuesFile [] with
  | .error e => .error e
  | .ok fs =>
    match bindParams (fun _ => []) p.RequiredParams fs with
    | .error e => .error e
    | .ok fs1 => bindParams (fun param => param.Default.getD []) p.OptionalParams fs1

/-! ## The resolver -/

/-- The function `newValuesFromFile`, with the log of the paths handed to
`fs.Open`. -/
def newValuesFromFile (fs : Option Fs) (p : Prototype) (name path : Str) :
    Except Err valuesFromFile × List Str :=
  match fs with
  | none => (.error .fsRequired, [])
  | some fs =>
    if name = [] then (.error .nameRequired, [])
    else if path = [] then (.error .pathRequired, [])
    else match fs path with
      | none => (.error (.openFailed path), [path])
      | some f => (.ok ⟨p, name, f⟩, [path])

/-- The function `Values`, with the log of the paths handed to `fs.Open`. -/
def Values (Q : Quoter) (fs : Option Fs) (p : Option Prototype) (flags : Option FlagSet) :
    Except Err GoMap × List Str :=
  match p with
  | none => (.error .prototypeRequired, [])
  | some p =>
    match flags with
    | none => (.error .flagsRequired, [])
    | some flags =>
      match flags.GetString OptionValuesFile with
      | .error e => (.error e, [])
      | .ok valuesFile =>
        match flags.GetString "name".toList with
        | .error _ => (.error .nameForPrototypeRequired, [])
        | .ok name =>
          if valuesFile ≠ [] then
            match newValuesFromFile fs p name valuesFile with
            | (.error e, opened) => (.error e, opened)
            | (.ok vff, opened) => (vff.Extract Q, opened)
          else
            ((newValuesFromFlags p flags).Extract Q, [])

/-! ## Predicates used in the statements -/

/-- Whether the Flag Extractor passes over a parameter (the `continue` of its
loop): the parameter has a default and its flag value is empty. -/
def skipped (flags : FlagSet) (param : ParamSchema) : Bool :=
  match flags.GetString param.Name with
  | .ok val => param.Default.isSome && val.isEmpty
  | .error _ => false

/-- A `name=` line of a values file: a line key=value whose value part is not
empty and whose trimmed key is `name`. -/
def isNameLine (s : Str) : Bool :=
  match cut '=' s with
  | some (key, value) => !value.isEmpty && decide (TrimSpace key = "name".toList)
  | none => false

/-! ## Fixtures of `values_test.go` -/

/-! The test prototype and staged files of `TestValues`, and prototypes for
the cases the tests do not cover. -/

/-- The quoting used on the fixtures: every non-String text counts as a
literal of its type. -/
def testQuote : Quoter :=
  specQuote (fun _ _ => true)

/-- The prototype of `TestValues`: `name` and `key1` without a default, `key2`
with the default `default`, all of type String. -/
def testProto : Prototype :=
  ⟨[], [⟨"name".toList, .String, [], none⟩, ⟨"key1".toList, .String, [], none⟩,
    ⟨"key2".toList, .String, [], some "default".toList⟩]⟩

/-- A File Extractor over the test prototype, for the component name `name`
and the given file content. -/
def testFile (content : String) : valuesFromFile :=
  ⟨testProto, "name".toList, ⟨content.toList, false⟩⟩

/-- The staged directory of `TestValues`, reduced to one file: `/files/valid`
holds the line `key1=value1`. -/
def testFs : Fs := fun path =>
  if path = "/files/valid".toList then some ⟨"key1=value1\n".toList, false⟩
  else none

/-- A flag set over the test prototype with the four flags at the given
values. -/
def testFlags (valuesFile name key1 key2 : String) : FlagSet :=
  ⟨[("values-file".toList, valuesFile.toList), ("name".toList, name.toList),
    ("key1".toList, key1.toList), ("key2".toList, key2.toList)]⟩

/-- A prototype `dup` that declares the parameter `a` twice, with the defaults
`x` and `y`. -/
def dupProto : Prototype :=
  ⟨"dup".toList, [⟨"a".toList, .String, [], some "x".toList⟩,
    ⟨"a".toList, .String, [], some "y".toList⟩]⟩

/-- A prototype `two` with the required parameters `name`, `a` and `b`. -/
def twoRequiredProto : Prototype :=
  ⟨"two".toList, [⟨"name".toList, .String, [], none⟩, ⟨"a".toList, .String, [], none⟩,
    ⟨"b".toList, .String, [], none⟩]⟩

/-- A prototype `e` whose parameter `k` has the empty string as its
default. -/
def emptyDefaultProto : Prototype :=
  ⟨"e".toList, [⟨"name".toList, .String, [], none⟩, ⟨"k".toList, .String, [], some []⟩]⟩

/-! ## Line endings and trimming -/

/-- The text with every `\n` replaced by `\r\n`
(`strings.Replace(s, "\n", "\r\n", -1)`): the Windows form of a Unix text. -/
def toCRLF : Str → Str
  | [] => []
  | c :: cs => if c = '\n' then '\r' :: '\n' :: toCRLF cs else c :: toCRLF cs

/-- A text without leading and without trailing white space. -/
def isTrimmed (s : Str) : Bool :=
  match s.head?, s.getLast? with
  | some a, some b => !isSpace a && !isSpace b
  | _, _ => true

/-! ## Prototypes for the order of the missing list -/

/-- A prototype `ba` that declares the defaulted parameters `b` and `a`, in
this order. -/
def unsortedProto : Prototype :=
  ⟨"ba".toList, [⟨"b".toList, .String, [], some "x".toList⟩,
    ⟨"a".toList, .String, [], some "y".toList⟩]⟩

/-- The prototype `ab`: the parameters of `ba` declared in the other order. -/
def sortedProto : Prototype :=
  ⟨"ab".toList, [⟨"a".toList, .String, [], some "y".toList⟩,
    ⟨"b".toList, .String, [], some "x".toList⟩]⟩

/-! ## The action `param set` (`actions/param_set.go`) -/

/-- An `app.App`, by its handle. -/
structure App where
  id : Nat
deriving DecidableEq, Repr

/-- Modelled from the spec: the value `params.DecodeValue` returns, "one of:
string, number, boolean, null, or parsed-structured-literal"; the type is
declared outside the given sources. `Run` only asks whether the value is a
string. -/
inductive Value where
  | string (s : Str)
  | number (literal : Str)
  | boolean (b : Bool)
  | null
  | structured (literal : Str)
deriving DecidableEq, Repr

/-- The type assertion `_, ok := value.(string)`. -/
def Value.isString : Value → Bool
  | .string _ => true
  | _ => false

/-- The struct `component.ParamOptions`, with the field `setLocal` fills. -/
structure ParamOptions where
  Index : Int
deriving DecidableEq, Repr

/-- The namespace returned by `cm.Namespace`, as `setGlobal` uses it: its
method `SetParam` returns an error message or nothing. The method is declared
outside the given sources. -/
structure Namespace where
  id : Str
  SetParam : List Str → Value → Option Str

/-- The component returned by `cm.ResolvePath`, as `setLocal` uses it: its
method `SetParam` returns an error message or nothing. The method is declared
outside the given sources. -/
structure Component where
  id : Str
  SetParam : List Str → Value → ParamOptions → Option Str

/-- The interface `component.Manager`, with the two methods `param_set.go`
calls; `ResolvePath` returns a module (by name) and a component. -/
structure Manager where
  Namespace : App → Str → Except Str Namespace
  ResolvePath : App → Str → Except Str (Str × Component)

/-- Errors returned by the actions, one constructor per `errors.New`,
`errors.Errorf` and `errors.Wrap` site of `param_set.go` and
`prototype_use.go`, plus the errors passed on unchanged. -/
inductive ActionErr where
  /-- The error recorded by the option loader (`ol.err`). -/
  | option (message : Str)
  /-- "unable to set global param for environments" -/
  | globalForEnv
  /-- The error of `errors.Wrap(err, "value is invalid")`. -/
  | valueInvalid (cause : Str)
  /-- The error of `errors.Wrap(err, "retrieve namespace")`. -/
  | retrieveNamespace (cause : Str)
  /-- The error of `errors.Wrap(err, "set global param")`. -/
  | setGlobalParam (cause : Str)
  /-- The error of `errors.Wrap(err, "could not find component")`. -/
  | couldNotFindComponent (cause : Str)
  /-- The error of `errors.Wrap(err, "set param")`. -/
  | setParam (cause : Str)
  /-- An error of a collaborator, returned as it is. -/
  | collaborator (cause : Str)
  /-- "prototype name was not supplied as an argument" -/
  | noPrototypeName
  /-- The error of `errors.Wrap(err, "parse preview args")`. -/
  | parsePreviewArgs (cause : Str)
  /-- "command is missing argument 'componentName'" -/
  | missingComponentName
  /-- "command has too many arguments (takes a prototype name and a component
  name)" -/
  | tooManyArguments
  /-- The error of `errors.Wrap(err, "create component")`. -/
  | createComponent (cause : Str)
  /-- An error of `flags.GetString` or of the value resolver, returned as it
  is. -/
  | values (cause : Err)
  /-- A panic of `prototype.BindFlags`. -/
  | panicked (cause : Err)
deriving DecidableEq, Repr

/-- A call of a collaborator of `ParamSet`, with its arguments; a namespace or
component is named by its `id`. -/
inductive Call where
  | DecodeValue (raw : Str)
  | setEnv (app : App) (envName name pName value : Str)
  | Namespace (app : App) (name : Str)
  | ResolvePath (app : App) (name : Str)
  | NamespaceSetParam (ns : Str) (path : List Str) (value : Value)
  | ComponentSetParam (c : Str) (path : List Str) (value : Value) (options : ParamOptions)
deriving DecidableEq, Repr

/-- The struct `ParamSet`. -/
structure ParamSet where
  app : App
  name : Str
  rawPath : Str
  rawValue : Str
  index : Int
  global : Bool
  envName : Str
  setEnv : App → Str → Str → Str → Str → Option Str
  cm : Manager

/-- The option loader (`newOptionLoader` and its `load...` methods) is
declared outside the given sources: what its methods return for the option
bag, and the error it has recorded after them, are the fields. -/
structure optionLoader where
  app : App
  name : Str
  path : Str
  value : Str
  global : Bool
  envName : Str
  index : Int
  err : Option Str

/-- Go's `strings.Split(s, sep)` for a one-character separator. -/
def Split (sep : Char) : Str → List Str
  | [] => [[]]
  | c :: cs =>
    if c = sep then [] :: Split sep cs
    else match Split sep cs with
      | [] => [[c]]
      | piece :: rest => (c :: piece) :: rest

/-- The function `NewParamSet`; `cm` and `setEnv` are the defaults it
installs (`component.DefaultManager`, `setEnv`). -/
def NewParamSet (ol : optionLoader) (cm : Manager)
    (setEnv : App → Str → Str → Str → Str → Option Str) : Except ActionErr ParamSet :=
  let ps : ParamSet :=
    { app := ol.app, name := ol.name, rawPath := ol.path, rawValue := ol.value,
      global := ol.global, envName := ol.envName, index := ol.index,
      cm := cm, setEnv := setEnv }
  match ol.err with
  | some e => .error (.option e)
  | none =>
    if ps.envName ≠ [] && ps.global then .error .globalForEnv
    else .ok ps

/-- The method `ParamSet.setGlobal`, with the calls it makes. -/
def ParamSet.setGlobal (ps : ParamSet) (path : List Str) (value : Value) :
    Option ActionErr × List Call :=
  match ps.cm.Namespace ps.app ps.name with
  | .error e => (some (.retrieveNamespace e), [.Namespace ps.app ps.name])
  | .ok ns =>
    match ns.SetParam path value with
    | some e =>
      (some (.setGlobalParam e), [.Namespace ps.app ps.name, .NamespaceSetParam ns.id path value])
    | none => (none, [.Namespace ps.app ps.name, .NamespaceSetParam ns.id path value])

/-- The method `ParamSet.setLocal`, with the calls it makes. -/
def ParamSet.setLocal (ps : ParamSet) (path : List Str) (value : Value) :
    Option ActionErr × List Call :=
  match ps.cm.ResolvePath ps.app ps.name with
  | .error e => (some (.couldNotFindComponent e), [.ResolvePath ps.app ps.name])
  | .ok (_, c) =>
    let options : ParamOptions := { Index := ps.index }
    match c.SetParam path value options with
    | some e =>
      (some (.setParam e),
        [.ResolvePath ps.app ps.name, .ComponentSetParam c.id path value options])
    | none =>
      (none, [.ResolvePath ps.app ps.name, .ComponentSetParam c.id path value options])

/-- The method `ParamSet.Run`, with the calls it makes. `DecodeValue` is
`params.DecodeValue` and `Quote` is `strconv.Quote`, both declared outside the
given sources. The result is the returned error, `none` for nil. -/
def ParamSet.Run (DecodeValue : Str → Except Str Value) (Quote : Str → Str) (ps : ParamSet) :
    Option ActionErr × List Call :=
  match DecodeValue ps.rawValue with
  | .error e => (some (.valueInvalid e), [.DecodeValue ps.rawValue])
  | .ok value =>
    let evaluatedValue := if value.isString then Quote ps.rawValue else ps.rawValue
    if ps.envName ≠ [] then
      ((ps.setEnv ps.app ps.envName ps.name ps.rawPath evaluatedValue).map .collaborator,
        [.DecodeValue ps.rawValue,
          .setEnv ps.app ps.envName ps.name ps.rawPath evaluatedValue])
    else
      let path := Split '.' ps.rawPath
      if ps.global then
        let r := ps.setGlobal path value
        (r.1, .DecodeValue ps.rawValue :: r.2)
      else
        let r := ps.setLocal path value
        (r.1, .DecodeValue ps.rawValue :: r.2)

/-- The function `RunParamSet`, with the calls it makes. -/
def RunParamSet (DecodeValue : Str → Except Str Value) (Quote : Str → Str)
    (ol : optionLoader) (cm : Manager) (setEnv : App → Str → Str → Str → Str → Option Str) :
    Option ActionErr × List Call :=
  match NewParamSet ol cm setEnv with
  | .error e => (some e, [])
  | .ok ps => ps.Run DecodeValue Quote

/-- The function `setEnv` of `param_set.go`: one flat parameter handed to
`env.SetParams`, which is declared outside the given sources. -/
def setEnv (SetParams : Str → Str → GoMap → App → Option Str)
    (ksApp : App) (envName name pName value : Str) : Option Str :=
  SetParams envName name (GoMap.set [] pName value) ksApp

/-! ## Fixtures for `param set` -/

/-- A decoder for the fixtures: the blank text is rejected, a text of digits
is a number, any other text is a string. -/
def testDecode (raw : Str) : Except Str Value :=
  if raw = [] then .error "value was blank".toList
  else if raw.all Char.isDigit then .ok (.number raw)
  else .ok (.string raw)

/-- The quoting `strconv.Quote` on the texts of the fixtures (printable, no
backslash): the text between double quotes. -/
def testGoQuote (s : Str) : Str :=
  dquote :: (escapeQuotes s ++ [dquote])

/-- A component `deployment` whose only path is `spec.replicas`. -/
def testComponent : Component :=
  ⟨"deployment".toList, fun path _ _ =>
    if path = ["spec".toList, "replicas".toList] then none
    else some "path segment not found".toList⟩

/-- A namespace `/` whose only path is `spec.replicas`. -/
def testNamespace : Namespace :=
  ⟨"/".toList, fun path _ =>
    if path = ["spec".toList, "replicas".toList] then none
    else some "path segment not found".toList⟩

/-- A manager that knows the component `deployment` and the namespace `/`. -/
def testManager : Manager :=
  ⟨fun _ name => if name = "/".toList then .ok testNamespace
      else .error "namespace not found".toList,
   fun _ name => if name = "deployment".toList then .ok ([], testComponent)
      else .error "component not found".toList⟩

/-- An environment-param collaborator that accepts every parameter. -/
def testSetEnv : App → Str → Str → Str → Str → Option Str :=
  fun _ _ _ _ _ => none

/-- A `ParamSet` over the fixtures. -/
def testParamSet (name path value envName : String) (global : Bool) : ParamSet :=
  { app := ⟨0⟩, name := name.toList, rawPath := path.toList, rawValue := value.toList,
    index := 0, global := global, envName := envName.toList,
    setEnv := testSetEnv, cm := testManager }

/-! ## The action `prototype use` (`pkg/actions/prototype_use.go`) -/

/-- The type `prototype.TemplateType`, a string type. -/
abbrev TemplateType := Str

/-- A call of `createComponentFn`, with its arguments. -/
structure CreateCall where
  app : App
  name : Str
  text : Str
  params : GoMap
  template : TemplateType
deriving DecidableEq, Repr

/-- The struct `PrototypeUse`, with the fields `Run` reads (`prototypesFn` is
consumed by `allPrototypes`, see `UseDeps`). -/
structure PrototypeUse where
  app : App
  args : List Str
  createComponentFn : App → Str → Str → GoMap → TemplateType → Except Str Str
  protoValuesFn : Option Fs → Option Prototype → Option FlagSet → Except Err GoMap

/-- The functions and methods `Run` and `detectTemplate` call that are
declared outside the given sources: `allPrototypes` (over `prototypesFn`),
`prototype.NewIndex` and `index.List` (the index by the list it holds),
`findUniquePrototype`, `flags.Parse` (the flag set after parsing and the
positional arguments `flags.Args()`), `prototype.Jsonnet`,
`prototype.ParseTemplateType`, `app.Fs`, `component.ExtractModuleComponent`
and `expandPrototype`. -/
structure UseDeps where
  allPrototypes : App → Except Str (List Prototype)
  NewIndex : List Prototype → Except Str (List Prototype)
  IndexList : List Prototype → Except Str (List Prototype)
  findUniquePrototype : Str → List Prototype → Except Str Prototype
  Parse : FlagSet → List Str → Except Str (FlagSet × List Str)
  Jsonnet : TemplateType
  ParseTemplateType : Str → Except Str TemplateType
  appFs : App → Option Fs
  ExtractModuleComponent : App → Str → Str × Str
  expandPrototype : Prototype → TemplateType → GoMap → Str → Except Str Str

/-- Whether `s` begins with `t`. -/
def startsWith : Str → Str → Bool
  | _, [] => true
  | [], _ :: _ => false
  | c :: cs, d :: ds => c = d && startsWith cs ds

/-- Go's `strings.Contains`. -/
def Contains : Str → Str → Bool
  | [], substr => substr.isEmpty
  | c :: cs, substr => startsWith (c :: cs) substr || Contains cs substr

/-- The function `detectTemplate`: the positional arguments, the prototype
name first, as `componentName [templateType]`. The four branches are the
tests `len(args) == 1`, `== 2`, `== 3` and the final return. -/
def detectTemplate (d : UseDeps) (args : List Str) : Except ActionErr (Str × TemplateType) :=
  match args with
  | [_] => .error .missingComponentName
  | [_, componentName] => .ok (componentName, d.Jsonnet)
  | [_, componentName, t] =>
    match d.ParseTemplateType t with
    | .error e => .error (.collaborator e)
    | .ok templateType => .ok (componentName, templateType)
  | _ => .error .tooManyArguments

/-- The loop `for k, v := range rawParams { ps[k] = v }`: a copy of the map. -/
def copyParams (rawParams : GoMap) : GoMap :=
  rawParams.foldr (fun e ps => ps.set e.1 e.2) []

/-- The method `PrototypeUse.Run`, with the calls of `createComponentFn` it
makes. The result is the returned error, `none` for nil. -/
def PrototypeUse.Run (d : UseDeps) (pl : PrototypeUse) : Option ActionErr × List CreateCall :=
  match d.allPrototypes pl.app with
  | .error e => (some (.collaborator e), [])
  | .ok prototypes =>
  match d.NewIndex prototypes with
  | .error e => (some (.collaborator e), [])
  | .ok index =>
  match d.IndexList index with
  | .error e => (some (.collaborator e), [])
  | .ok prototypes =>
  match pl.args with
  | [] => (some .noPrototypeName, [])
  | query :: _ =>
  match d.findUniquePrototype query prototypes with
  | .error e => (some (.collaborator e), [])
  | .ok p =>
  match BindFlags p with
  | .error e => (some (.panicked e), [])
  | .ok flags =>
  match d.Parse flags pl.args with
  | .error e =>
    if Contains e "help requested".toList then (none, [])
    else (some (.parsePreviewArgs e), [])
  | .ok (flags, args) =>
  match detectTemplate d args with
  | .error e => (some e, [])
  | .ok (componentName, templateType) =>
  match flags.GetString "name".toList with
  | .error e => (some (.values e), [])
  | .ok name =>
  let flags :=
    if name = [] then
      match flags.Set "name".toList componentName with
      | .ok flags1 => flags1
      | .error _ => flags
    else flags
  match pl.protoValuesFn (d.appFs pl.app) (some p) (some flags) with
  | .error e => (some (.values e), [])
  | .ok rawParams =>
  let prototypeName := (d.ExtractModuleComponent pl.app componentName).2
  match d.expandPrototype p templateType rawParams prototypeName with
  | .error e => (some (.collaborator e), [])
  | .ok text =>
  let ps := copyParams rawParams
  match pl.createComponentFn pl.app componentName text ps templateType with
  | .error e =>
    (some (.createComponent e), [⟨pl.app, componentName, text, ps, templateType⟩])
  | .ok _ => (none, [⟨pl.app, componentName, text, ps, templateType⟩])

/-! ## Fixtures of `prototype_use_test.go` -/

/-- The prototype `single-port-deployment` of the spec's end-to-end case. -/
def deploymentProto : Prototype :=
  ⟨"single-port-deployment".toList,
    [⟨"name".toList, .String, [], none⟩, ⟨"image".toList, .String, [], none⟩,
     ⟨"replicas".toList, .Number, [], some "1".toList⟩,
     ⟨"containerPort".toList, .Number, [], none⟩]⟩

/-- A parser for command lines made of positional arguments and pairs
`--flag value`. -/
def testParse : FlagSet → List Str → Except Str (FlagSet × List Str)
  | flags, [] => .ok (flags, [])
  | flags, [a] =>
    if startsWith a "--".toList then .error "flag needs an argument".toList
    else .ok (flags, [a])
  | flags, a :: v :: rest =>
    if startsWith a "--".toList then
      match flags.Set (a.drop 2) v with
      | .error _ => .error "unknown flag".toList
      | .ok flags1 => testParse flags1 rest
    else
      match testParse flags (v :: rest) with
      | .error e => .error e
      | .ok (flags1, positional) => .ok (flags1, a :: positional)

/-- The collaborators of `TestPrototypeUse`: one prototype in the catalog,
the template types `jsonnet` and `yaml`, an expansion to a fixed text. -/
def testDeps : UseDeps :=
  { allPrototypes := fun _ => .ok [deploymentProto]
    NewIndex := fun ps => .ok ps
    IndexList := fun ps => .ok ps
    findUniquePrototype := fun query ps =>
      match ps.find? (fun p => p.Name = query) with
      | some p => .ok p
      | none => .error "prototype not found".toList
    Parse := testParse
    Jsonnet := "jsonnet".toList
    ParseTemplateType := fun t =>
      if t = "jsonnet".toList ∨ t = "yaml".toList then .ok t
      else .error "unrecognized template type".toList
    appFs := fun _ => none
    ExtractModuleComponent := fun _ name => ([], name)
    expandPrototype := fun _ _ _ _ => .ok "text".toList }

/-- The action of `TestPrototypeUse` for the given command line. -/
def testUse (args : List String) : PrototypeUse :=
  { app := ⟨0⟩, args := args.map String.toList,
    createComponentFn := fun _ _ _ _ _ => .ok []
    protoValuesFn := fun fs p flags => (Values testQuote fs p flags).1 }

/-! ## The binding of a key in a values file -/

/-- The value a values file gives to a key, in the words of the format: the
trimmed value of the last line whose trimmed key is the key, if there is such
a line. -/
def lastBinding : List Str → Str → Option Str
  | [], _ => none
  | s :: rest, key =>
    match lastBinding rest key with
    | some value => some value
    | none =>
      match cut '=' s with
      | some (k, v) => if TrimSpace k = key then some (TrimSpace v) else none
      | none => none

/-! ## The flag set handed to the value resolver -/

/-- The flag set `PrototypeUse.Run` hands to `protoValuesFn`: the parsed flag
set, with `name` set to the component name when the parsed `name` is empty
(`if name == "" { flags.Set("name", componentName) }`). -/
def resolverFlags (flags : FlagSet) (name componentName : Str) : FlagSet :=
  if name = [] then
    match flags.Set "name".toList componentName with
    | .ok flags1 => flags1
    | .error _ => flags
  else flags

/-! ## String utilities (`pkg/util/strings/strings.go`) -/

/-- The function `IsASCIIIdentifier`: `strings.IndexFunc(s, f) != -1` holds
when some rune of `s` satisfies `f`, the test `r < 'A' || r > 'z'`. -/
def IsASCIIIdentifier (s : Str) : Bool :=
  let f := fun (r : Char) => decide (r.toNat < 'A'.toNat) || decide (r.toNat > 'z'.toNat)
  if s.any f then false else true

/-- The function `QuoteNonASCII`; the quoted form is
`fmt.Sprintf("\"%s\"", s)`. -/
def QuoteNonASCII (s : Str) : Str :=
  if !IsASCIIIdentifier s then dquote :: (s ++ [dquote]) else s

/-- Errors of `scanString` and `Compare`. -/
inductive StringsErr where
  /-- The error of `errors.Wrap(err, "scanner error")`. -/
  | scannerError
  /-- The error of `errors.Wrap(err, "scan string")`. -/
  | scanString (cause : StringsErr)
  /-- An error of the differ, returned as it is. -/
  | differ (message : Str)
  /-- The error `errors.New(buf.String())` that carries a non-empty diff. -/
  | different (diff : Str)
deriving DecidableEq, Repr

/-- The tokens of a `bufio.Scanner` over the whole text with the split
function `scanCRLF`, before `dropCR`: the text cut at every `\r\n` (the first
occurrence found by `bytes.Index`, then on in the rest), a final piece being
kept only when it is not empty (`atEOF && len(data) == 0`). -/
def rawLinesCRLF : Str → List Str
  | [] => []
  | [c] => [[c]]
  | c :: d :: rest =>
    if c = '\r' ∧ d = '\n' then [] :: rawLinesCRLF rest
    else match rawLinesCRLF (d :: rest) with
      | [] => [[c]]
      | line :: more => (c :: line) :: more

/-- The tokens the loop of `scanString` collects when the scanner does not
give up: every piece goes through `dropCR`, as in both returns of
`scanCRLF`. -/
def scanCRLFLines (data : Str) : List Str :=
  (rawLinesCRLF data).map dropCR

/-- Whether a scanner with the split function `scanCRLF` gives up with
`ErrTooLong` on a text; `n` is the number of bytes of the current piece that
lie before the text. A piece followed by `\r\n` is found when the `\r\n` lies
within the first `MaxScanTokenSize` bytes of the buffer, a final piece when
the buffer is not full before the end of input is read. -/
def tooLongCRLF : Str → Nat → Bool
  | [], n => decide (MaxScanTokenSize ≤ n)
  | [c], n => decide (MaxScanTokenSize ≤ n + RuneLen c)
  | c :: d :: rest, n =>
    if c = '\r' ∧ d = '\n' then decide (MaxScanTokenSize < n + 2) || tooLongCRLF rest 0
    else tooLongCRLF (d :: rest) (n + RuneLen c)

/-- Whether a scanner with the split function `scanCRLF` ends with an error on
a reader: `ErrTooLong`, or the error of the read. -/
def Reader.failedCRLF (r : Reader) : Bool :=
  tooLongCRLF r.data 0 || r.readErr

/-- Go's `strings.Join`. -/
def Join : List Str → Str → Str
  | [], _ => []
  | [a], _ => a
  | a :: b :: rest, sep => a ++ sep ++ Join (b :: rest) sep

/-- The function `scanString`: the lines joined by `\n`, or the scanner's
error. -/
def scanString (r : Reader) : Except StringsErr Str :=
  if r.failedCRLF then .error .scannerError
  else .ok (Join (scanCRLFLines r.data) ['\n'])

/-- The function `Compare`. The two texts come as the readers
`strings.NewReader` makes of them, which have no read error: `Compare(e, g)`
is the function at the readers of `e` and `g` with `readErr` false. `Diff` is
`godiff.DefaultDiffer().Diff`, which writes the diff of two texts or fails.
The pair `(true, nil)` is `.ok true`; every `(false, err)` is the error. -/
def Compare (Diff : Str → Str → Except Str Str) (expected got : Reader) :
    Except StringsErr Bool :=
  match scanString expected with
  | .error e => .error (.scanString e)
  | .ok expected1 =>
    match scanString got with
    | .error e => .error (.scanString e)
    | .ok got1 =>
      match Diff expected1 got1 with
      | .error e => .error (.differ e)
      | .ok buf => if buf ≠ [] then .error (.different buf) else .ok true

/-- An ASCII letter, `A` to `Z` or `a` to `z`. -/
def isLetter (c : Char) : Bool :=
  (65 ≤ c.toNat && c.toNat ≤ 90) || (97 ≤ c.toNat && c.toNat ≤ 122)

/-- A differ for the examples: it writes nothing for equal texts and the
message `differ` for different ones. -/
def testDiff : Str → Str → Except Str Str :=
  fun a b => .ok (if a = b then [] else "differ".toList)

/-- The line `k=` followed by 65533 times `v`: a line of 65535 bytes, one
byte short of the scanner's buffer. -/
def longLine : Str :=
  'k' :: '=' :: List.replicate 65533 'v'

/-! # Theorems -/

/-! ## Lemmas: maps -/

theorem find_erase_same (m : GoMap) (key : Str) : (m.erase key).find key = none := by
  induction m with
  | nil => rfl
  | cons e rest ih =>
    obtain ⟨k, v⟩ := e
    by_cases h : k = key
    · simp [GoMap.erase, h, ih]
    · simp [GoMap.erase, GoMap.find, h, ih]

theorem find_erase_other (m : GoMap) (key other : Str) (h : key ≠ other) :
    (m.erase key).find other = m.find other := by
  induction m with
  | nil => rfl
  | cons e rest ih =>
    obtain ⟨k, v⟩ := e
    by_cases hk : k = key
    · have hko : k ≠ other := by rw [hk]; exact h
      simp [GoMap.erase, GoMap.find, hk, ih, h]
    · by_cases hko : k = other
      · subst hko
        simp [GoMap.erase, GoMap.find, hk]
      · simp [GoMap.erase, GoMap.find, hk, hko, ih]

theorem find_set_same (m : GoMap) (key value : Str) : (m.set key value).find key = some value := by
  simp [GoMap.set, GoMap.find]

theorem find_set_other (m : GoMap) (key value other : Str) (h : key ≠ other) :
    (m.set key value).find other = m.find other := by
  simp [GoMap.set, GoMap.find, h, find_erase_other]

theorem get_set_same (m : GoMap) (key value : Str) : (m.set key value).get key = value := by
  simp [GoMap.get, find_set_same]

theorem get_set_other (m : GoMap) (key value other : Str) (h : key ≠ other) :
    (m.set key value).get other = m.get other := by
  simp [GoMap.get, find_set_other _ _ _ _ h]

/-! ## Lemmas: splitting a line -/

theorem cut_first (k v : Str) (hk : '=' ∉ k) : cut '=' (k ++ '=' :: v) = some (k, v) := by
  induction k with
  | nil => simp [cut]
  | cons c cs ih =>
    have hc : c ≠ '=' := fun h => hk (by simp [h])
    have hcs : '=' ∉ cs := fun h => hk (by simp [h])
    simp [cut, hc, ih hcs]

theorem cut_none (s : Str) (h : '=' ∉ s) : cut '=' s = none := by
  induction s with
  | nil => rfl
  | cons c cs ih =>
    have hc : c ≠ '=' := fun e => h (by simp [e])
    have hcs : '=' ∉ cs := fun e => h (by simp [e])
    simp [cut, hc, ih hcs]

theorem cut_some (s before after : Str) (h : cut '=' s = some (before, after)) :
    '=' ∉ before ∧ s = before ++ '=' :: after := by
  induction s generalizing before with
  | nil => simp [cut] at h
  | cons c cs ih =>
    by_cases hc : c = '='
    · simp [cut, hc] at h
      obtain ⟨h1, h2⟩ := h
      subst h1; subst h2
      simp [hc]
    · simp only [cut, hc, if_false] at h
      cases hcut : cut '=' cs with
      | none => simp [hcut] at h
      | some pr =>
        obtain ⟨b, a⟩ := pr
        simp [hcut] at h
        obtain ⟨h1, h2⟩ := h
        subst h1; subst h2
        obtain ⟨ih1, ih2⟩ := ih b hcut
        refine ⟨?_, ?_⟩
        · intro hmem
          rcases List.mem_cons.mp hmem with e | e
          · exact hc e.symm
          · exact ih1 e
        · simp [ih2]

theorem SplitN2_first (k v : Str) (hk : '=' ∉ k) : SplitN2 (k ++ '=' :: v) '=' = [k, v] := by
  simp [SplitN2, cut_first k v hk]

theorem SplitN2_none (s : Str) (h : '=' ∉ s) : SplitN2 s '=' = [s] := by
  simp [SplitN2, cut_none s h]

/-- Every line either lacks `=` or splits at its first `=`. -/
theorem line_cases (s : Str) : '=' ∉ s ∨ ∃ k v, '=' ∉ k ∧ s = k ++ '=' :: v := by
  cases h : cut '=' s with
  | none =>
    left
    intro hmem
    induction s with
    | nil => simp at hmem
    | cons c cs ih =>
      by_cases hc : c = '='
      · simp [cut, hc] at h
      · simp only [cut, hc, if_false] at h
        cases hcut : cut '=' cs with
        | none =>
          rcases List.mem_cons.mp hmem with e | e
          · exact hc e.symm
          · exact ih hcut e
        | some pr => simp [hcut] at h
  | some pr =>
    right
    obtain ⟨b, a⟩ := pr
    exact ⟨b, a, cut_some s b a h⟩

/-! ## Lemmas: the parser loop -/

theorem valuesLoop_step (k v : Str) (rest : List Str) (m : GoMap) (hk : '=' ∉ k) (hv : v ≠ []) :
    valuesLoop ((k ++ '=' :: v) :: rest) m = valuesLoop rest (m.set (TrimSpace k) (TrimSpace v)) := by
  simp [valuesLoop, SplitN2_first k v hk, hv]

theorem valuesLoop_no_eq (s : Str) (rest : List Str) (m : GoMap) (h : '=' ∉ s) :
    valuesLoop (s :: rest) m = .error (.invalidLine s) := by
  simp [valuesLoop, SplitN2_none s h]

theorem valuesLoop_empty_value (k : Str) (rest : List Str) (m : GoMap) (hk : '=' ∉ k) :
    valuesLoop ((k ++ ['=']) :: rest) m = .error (.invalidLine (k ++ ['='])) := by
  simp [valuesLoop, SplitN2_first k [] hk]

theorem valuesLoop_append (xs ys : List Str) (m : GoMap) :
    valuesLoop (xs ++ ys) m =
      match valuesLoop xs m with
      | .error e => .error e
      | .ok m1 => valuesLoop ys m1 := by
  induction xs generalizing m with
  | nil => simp [valuesLoop]
  | cons s rest ih =>
    rcases line_cases s with h | ⟨k, v, hk, rfl⟩
    · simp [valuesLoop_no_eq s _ m h]
    · by_cases hv : v = []
      · subst hv
        simp [valuesLoop_empty_value k _ m hk]
      · simp only [List.cons_append, valuesLoop_step k v _ m hk hv]
        exact ih _

/-- A list of well-formed lines is parsed successfully. -/
theorem valuesLoop_ok (ls : List Str) (m : GoMap)
    (h : ∀ s ∈ ls, ∃ k v, '=' ∉ k ∧ v ≠ [] ∧ s = k ++ '=' :: v) :
    ∃ m1, valuesLoop ls m = .ok m1 := by
  induction ls generalizing m with
  | nil => exact ⟨m, rfl⟩
  | cons s rest ih =>
    obtain ⟨k, v, hk, hv, rfl⟩ := h s (by simp)
    rw [valuesLoop_step k v rest m hk hv]
    exact ih _ (fun s hs => h s (by simp [hs]))

/-- A key that no line binds keeps its binding. -/
theorem valuesLoop_find_other (ls : List Str) (m m1 : GoMap) (key : Str)
    (h : valuesLoop ls m = .ok m1)
    (hkey : ∀ s ∈ ls, ∀ k v, '=' ∉ k → s = k ++ '=' :: v → TrimSpace k ≠ key) :
    m1.find key = m.find key := by
  induction ls generalizing m with
  | nil =>
    simp [valuesLoop] at h
    rw [h]
  | cons s rest ih =>
    rcases line_cases s with hs | ⟨k, v, hk, rfl⟩
    · simp [valuesLoop_no_eq s _ m hs] at h
    · by_cases hv : v = []
      · subst hv
        simp [valuesLoop_empty_value k _ m hk] at h
      · rw [valuesLoop_step k v rest m hk hv] at h
        rw [ih _ h (fun s hs => hkey s (by simp [hs]))]
        exact find_set_other _ _ _ _ (hkey _ (by simp) k v hk rfl)

/-- A list with an ill-formed line is rejected, with that line's text. -/
theorem valuesLoop_bad (ls : List Str) (m : GoMap)
    (h : ∃ s ∈ ls, '=' ∉ s ∨ ∃ k, '=' ∉ k ∧ s = k ++ ['=']) :
    ∃ s ∈ ls, ('=' ∉ s ∨ ∃ k, '=' ∉ k ∧ s = k ++ ['=']) ∧
      valuesLoop ls m = .error (.invalidLine s) := by
  induction ls generalizing m with
  | nil => simp at h
  | cons s rest ih =>
    rcases line_cases s with hs | ⟨k, v, hk, rfl⟩
    · exact ⟨s, by simp, Or.inl hs, valuesLoop_no_eq s _ m hs⟩
    · by_cases hv : v = []
      · subst hv
        exact ⟨_, by simp, Or.inr ⟨k, hk, rfl⟩, valuesLoop_empty_value k _ m hk⟩
      · rw [valuesLoop_step k v rest m hk hv]
        have hrest : ∃ s ∈ rest, '=' ∉ s ∨ ∃ k, '=' ∉ k ∧ s = k ++ ['='] := by
          obtain ⟨s, hs, hbad⟩ := h
          rcases List.mem_cons.mp hs with e | e
          · subst e
            exfalso
            rcases hbad with hb | ⟨k2, hk2, e2⟩
            · exact hb (by simp)
            · have h1 := cut_first k v hk
              rw [e2, cut_first k2 [] hk2] at h1
              simp at h1
              exact hv h1.2
          · exact ⟨s, e, hbad⟩
        obtain ⟨s, hs, hbad, hres⟩ := ih _ hrest
        exact ⟨s, by simp [hs], hbad, hres⟩

/-! ## The values-file parser -/

/-- C1 (counterexample): in the file with the lines `k=a` and `k=b` the first
line is of the form key=value, with no `=` in the key and a value that is not
empty, and the map the parse returns binds `k` to `b`, the value of the second
line, not to `a`. -/
theorem values_repeated_key_counterexample :
    scanLines (testFile "k=a\nk=b\n").r.data = ["k=a".toList, "k=b".toList] ∧
    '=' ∉ "k".toList ∧ "a".toList ≠ [] ∧
    (testFile "k=a\nk=b\n").values = .ok [("k".toList, "b".toList)] ∧
    GoMap.find [("k".toList, "b".toList)] (TrimSpace "k".toList) ≠
      some (TrimSpace "a".toList) := by
  decide

/-- C1 (amended): `valuesFromFile.values` splits a line on its first `=` only.
For a line `k=v` that the scanner delivers, with no `=` in `k` and `v` not
empty (`v` may hold any number of `=`): `SplitN` yields exactly `k` and `v`;
the loop body binds `TrimSpace k` to `TrimSpace v`; whenever the parse returns
a map and no later line has the same trimmed key, the map binds `TrimSpace k`
to `TrimSpace v` (a later line with the same key overwrites the binding); and
the parse does return such a map when the other lines are of the form
key=value too and the scanner does not fail. -/
theorem values_splits_on_first_eq (vff : valuesFromFile) (pre post : List Str) (k v : Str)
    (hk : '=' ∉ k) (hv : v ≠ [])
    (hlines : scanLines vff.r.data = pre ++ (k ++ '=' :: v) :: post)
    (hlast : ∀ s ∈ post, ∀ k1 v1, '=' ∉ k1 → s = k1 ++ '=' :: v1 → TrimSpace k1 ≠ TrimSpace k) :
    SplitN2 (k ++ '=' :: v) '=' = [k, v] ∧
    (∀ m rest, valuesLoop ((k ++ '=' :: v) :: rest) m =
      valuesLoop rest (m.set (TrimSpace k) (TrimSpace v))) ∧
    (∀ m, vff.values = .ok m → m.find (TrimSpace k) = some (TrimSpace v)) ∧
    ((∀ s ∈ pre ++ post, ∃ k1 v1, '=' ∉ k1 ∧ v1 ≠ [] ∧ s = k1 ++ '=' :: v1) →
      vff.r.failed = false →
      ∃ m, vff.values = .ok m ∧ m.find (TrimSpace k) = some (TrimSpace v)) := by
  have hbind : ∀ m, vff.values = .ok m → m.find (TrimSpace k) = some (TrimSpace v) := by
    intro m hm
    unfold valuesFromFile.values at hm
    rw [hlines, valuesLoop_append] at hm
    cases hpre : valuesLoop pre [] with
    | error e => simp [hpre] at hm
    | ok m1 =>
      simp only [hpre] at hm
      rw [valuesLoop_step k v post m1 hk hv] at hm
      cases hpost : valuesLoop post (m1.set (TrimSpace k) (TrimSpace v)) with
      | error e => simp [hpost] at hm
      | ok m2 =>
        simp only [hpost] at hm
        by_cases hf : vff.r.failed = true
        · simp [hf] at hm
        · simp [hf] at hm
          subst hm
          rw [valuesLoop_find_other post _ _ _ hpost hlast]
          exact find_set_same _ _ _
  refine ⟨SplitN2_first k v hk, fun m rest => valuesLoop_step k v rest m hk hv, hbind, ?_⟩
  intro hwf hfail
  have hall : ∀ s ∈ scanLines vff.r.data, ∃ k1 v1, '=' ∉ k1 ∧ v1 ≠ [] ∧ s = k1 ++ '=' :: v1 := by
    intro s hs
    rw [hlines] at hs
    rcases List.mem_append.mp hs with h1 | h1
    · exact hwf s (List.mem_append.mpr (Or.inl h1))
    · rcases List.mem_cons.mp h1 with h2 | h2
      · exact ⟨k, v, hk, hv, h2⟩
      · exact hwf s (List.mem_append.mpr (Or.inr h2))
  obtain ⟨m, hm⟩ := valuesLoop_ok (scanLines vff.r.data) [] hall
  have hvals : vff.values = .ok m := by
    unfold valuesFromFile.values
    simp [hm, hfail]
  exact ⟨m, hvals, hbind m hvals⟩

/-- Witness of C1 on the line `key1=value1=value2` of the test file
"with-equal", between two other lines. -/
theorem values_splits_on_first_eq_witness :
    ∃ m, (testFile "name = n\r\nkey1=value1=value2\nkey2=x\n").values = .ok m ∧
      m.find "key1".toList = some "value1=value2".toList := by
  have h := (values_splits_on_first_eq
    (testFile "name = n\r\nkey1=value1=value2\nkey2=x\n")
    ["name = n".toList] ["key2=x".toList] "key1".toList "value1=value2".toList
    (by decide) (by decide) (by decide)
    (by
      intro s hs k1 v1 hk1 e
      simp only [List.mem_singleton] at hs
      subst hs
      have h1 := cut_first k1 v1 hk1
      rw [← e] at h1
      have h2 : cut '=' "key2=x".toList = some ("key2".toList, "x".toList) := by decide
      rw [h2] at h1
      simp only [Option.some.injEq, Prod.mk.injEq] at h1
      rw [← h1.1]
      decide)).2.2.2
    (by
      intro s hs
      simp only [List.singleton_append, List.mem_cons, List.mem_singleton, List.mem_nil_iff,
        or_false] at hs
      rcases hs with e | e
      · exact ⟨"name ".toList, " n".toList, by decide, by decide, by rw [e]; decide⟩
      · exact ⟨"key2".toList, "x".toList, by decide, by decide, by rw [e]; decide⟩)
    (by decide)
  have e1 : TrimSpace "key1".toList = "key1".toList := by decide
  have e2 : TrimSpace "value1=value2".toList = "value1=value2".toList := by decide
  rw [e1, e2] at h
  exact h

theorem takeWhile_of_all (p : Str → Bool) (ls : List Str) (h : ls.all p = true) :
    ls.takeWhile p = ls := by
  induction ls with
  | nil => rfl
  | cons l rest ih =>
    simp only [List.all_cons, Bool.and_eq_true] at h
    rw [List.takeWhile_cons, h.1, if_pos rfl, ih h.2]

/-- The scanner delivers every line of the text or ends with an error. -/
theorem scanLines_or_failed (r : Reader) :
    scanLines r.data = textLines r.data ∨ r.failed = true := by
  cases hall : (rawLines r.data).all fits with
  | true =>
    left
    unfold scanLines textLines
    rw [takeWhile_of_all fits _ hall]
  | false =>
    right
    unfold Reader.failed
    rw [hall]
    rfl

/-- C2: a values file with a line that contains no `=` (a blank line is one)
or has nothing after its first `=` is rejected: `valuesFromFile.values` returns
an error and no map, and `valuesFromFile.Extract` returns an error and no
values, whatever the other lines, the state of the read and the schema are.
When the scanner delivers such a line (no line before it exceeds the
scanner's buffer), the error of `valuesFromFile.values` is the invalid-line
error for such a line. -/
theorem values_rejects_ill_formed_line (Q : Quoter) (vff : valuesFromFile)
    (h : ∃ s ∈ textLines vff.r.data, '=' ∉ s ∨ ∃ k, '=' ∉ k ∧ s = k ++ ['=']) :
    (∃ e, vff.values = .error e) ∧
    (∃ e, vff.Extract Q = .error e) ∧
    ((∃ s ∈ scanLines vff.r.data, '=' ∉ s ∨ ∃ k, '=' ∉ k ∧ s = k ++ ['=']) →
      ∃ s ∈ scanLines vff.r.data, ('=' ∉ s ∨ ∃ k, '=' ∉ k ∧ s = k ++ ['=']) ∧
        vff.values = .error (.invalidLine s)) := by
  have hdel : (∃ s ∈ scanLines vff.r.data, '=' ∉ s ∨ ∃ k, '=' ∉ k ∧ s = k ++ ['=']) →
      ∃ s ∈ scanLines vff.r.data, ('=' ∉ s ∨ ∃ k, '=' ∉ k ∧ s = k ++ ['=']) ∧
        vff.values = .error (.invalidLine s) := by
    intro h2
    obtain ⟨s, hs, hbad, hres⟩ := valuesLoop_bad (scanLines vff.r.data) [] h2
    refine ⟨s, hs, hbad, ?_⟩
    unfold valuesFromFile.values
    simp [hres]
  have hvals : ∃ e, vff.values = .error e := by
    rcases scanLines_or_failed vff.r with hl | hf
    · rw [← hl] at h
      obtain ⟨s, _, _, hres⟩ := hdel h
      exact ⟨_, hres⟩
    · unfold valuesFromFile.values
      cases valuesLoop (scanLines vff.r.data) [] with
      | error e => exact ⟨e, rfl⟩
      | ok m => exact ⟨.scanningError .scanner, by simp [hf]⟩
  refine ⟨hvals, ?_, hdel⟩
  obtain ⟨e, he⟩ := hvals
  unfold valuesFromFile.Extract
  by_cases hn : vff.name = []
  · exact ⟨.nameForPrototypeRequired, by simp [hn]⟩
  · exact ⟨.readingValuesFile e, by simp [hn, he]⟩

/-- Witness of C2 on a file with a blank line between two well-formed lines. -/
theorem values_rejects_ill_formed_line_witness :
    (∃ e, (testFile "key1=value1\n\nkey2=v\n").values = .error e) ∧
    (∃ e, (testFile "key1=value1\n\nkey2=v\n").Extract testQuote = .error e) ∧
    (∃ s ∈ scanLines (testFile "key1=value1\n\nkey2=v\n").r.data,
      ('=' ∉ s ∨ ∃ k, '=' ∉ k ∧ s = k ++ ['=']) ∧
      (testFile "key1=value1\n\nkey2=v\n").values = .error (.invalidLine s)) :=
  have h := values_rejects_ill_formed_line testQuote (testFile "key1=value1\n\nkey2=v\n")
    ⟨[], by decide, Or.inl (by decide)⟩
  ⟨h.1, h.2.1, h.2.2 ⟨[], by decide, Or.inl (by decide)⟩⟩

/-- C10 (the code stores an empty value): on the line `k= ` the emptiness
check of `valuesFromFile.values` sees the text ` ` after the `=`, which is not
empty, and the value stored is its trimmed form, the empty string. The parse
succeeds and binds `k` to `""`. -/
theorem values_stores_empty_value :
    (testFile "k= ").values = .ok [("k".toList, [])] ∧
    GoMap.find [("k".toList, [])] "k".toList = some [] := by
  decide

/-! ## The resolver -/

/-- C3: resolver precedence in `Values`, for flag sets that carry the reserved
flags `values-file` and `name`. When `values-file` is not empty the result is
the one of the File Extractor built from the file system, the prototype, the
name and the path alone, so a second flag set with the same `values-file` and
`name` gives the same result whatever its other flags hold. When `values-file`
is empty the result is the one of the Flag Extractor, no path is handed to
`Open` and the file system does not matter. The two sources are never
merged: the result is one or the other. -/
theorem Values_precedence (Q : Quoter) (fs fs2 : Option Fs) (p : Prototype)
    (flags flags2 : FlagSet) (valuesFile name : Str)
    (hvf : flags.GetString OptionValuesFile = .ok valuesFile)
    (hname : flags.GetString "name".toList = .ok name)
    (hvf2 : flags2.GetString OptionValuesFile = .ok valuesFile)
    (hname2 : flags2.GetString "name".toList = .ok name) :
    (valuesFile ≠ [] →
      Values Q fs (some p) (some flags) =
        (match newValuesFromFile fs p name valuesFile with
          | (.error e, opened) => (.error e, opened)
          | (.ok vff, opened) => (vff.Extract Q, opened)) ∧
      Values Q fs (some p) (some flags2) = Values Q fs (some p) (some flags)) ∧
    (valuesFile = [] →
      Values Q fs (some p) (some flags) = ((newValuesFromFlags p flags).Extract Q, []) ∧
      Values Q fs2 (some p) (some flags) = Values Q fs (some p) (some flags)) := by
  constructor
  · intro hne
    have h1 : ∀ fl : FlagSet, fl.GetString OptionValuesFile = .ok valuesFile →
        fl.GetString "name".toList = .ok name →
        Values Q fs (some p) (some fl) =
          (match newValuesFromFile fs p name valuesFile with
            | (.error e, opened) => (.error e, opened)
            | (.ok vff, opened) => (vff.Extract Q, opened)) := by
      intro fl h1 h2
      simp only [Values, h1, h2, hne, ne_eq, not_false_eq_true, if_true]
    exact ⟨h1 flags hvf hname, by rw [h1 flags hvf hname, h1 flags2 hvf2 hname2]⟩
  · intro he
    have h1 : ∀ f : Option Fs,
        Values Q f (some p) (some flags) = ((newValuesFromFlags p flags).Extract Q, []) := by
      intro f
      simp only [Values, hvf, hname, he, ne_eq, not_true_eq_false, if_false]
    exact ⟨h1 fs, by rw [h1 fs, h1 fs2]⟩

/-- Witness of C3: with `--values-file /files/valid` the per-parameter flags
`key1`, `key2` are ignored; without it the flags decide and the absent file
system is not missed. -/
theorem Values_precedence_witness :
    Values testQuote (some testFs) (some testProto)
        (some (testFlags "/files/valid" "name" "flagged" "other")) =
      Values testQuote (some testFs) (some testProto)
        (some (testFlags "/files/valid" "name" "" "default")) ∧
    Values testQuote none (some testProto) (some (testFlags "" "name" "" "default")) =
      Values testQuote (some testFs) (some testProto) (some (testFlags "" "name" "" "default")) :=
  ⟨((Values_precedence testQuote (some testFs) none testProto
      (testFlags "/files/valid" "name" "" "default")
      (testFlags "/files/valid" "name" "flagged" "other")
      "/files/valid".toList "name".toList
      (by decide) (by decide) (by decide) (by decide)).1 (by decide)).2,
   ((Values_precedence testQuote (some testFs) none testProto
      (testFlags "" "name" "" "default") (testFlags "" "name" "" "default")
      [] "name".toList
      (by decide) (by decide) (by decide) (by decide)).2 rfl).2⟩

/-! ## Lemmas: the loop of the Flag Extractor -/

theorem flagsLoop_unbound (Q : Quoter) (pn : Str) (flags : FlagSet) (param : ParamSchema)
    (rest : List ParamSchema) (values : GoMap) (missing : List ParamSchema) (e : Err)
    (hg : flags.GetString param.Name = .error e) :
    extractFlagsLoop Q pn flags (param :: rest) values missing = .error e := by
  simp [extractFlagsLoop, hg]

theorem flagsLoop_skip (Q : Quoter) (pn : Str) (flags : FlagSet) (param : ParamSchema)
    (rest : List ParamSchema) (values : GoMap) (missing : List ParamSchema)
    (hs : skipped flags param = true) :
    extractFlagsLoop Q pn flags (param :: rest) values missing =
      extractFlagsLoop Q pn flags rest values (missing ++ [param]) := by
  unfold skipped at hs
  cases hg : flags.GetString param.Name with
  | error e => simp [hg] at hs
  | ok val =>
    simp only [hg] at hs
    simp [extractFlagsLoop, hg, hs]

theorem flagsLoop_dup (Q : Quoter) (pn : Str) (flags : FlagSet) (param : ParamSchema)
    (rest : List ParamSchema) (values : GoMap) (missing : List ParamSchema) (val : Str)
    (hg : flags.GetString param.Name = .ok val) (hs : skipped flags param = false)
    (hf : values.find param.Name ≠ none) :
    extractFlagsLoop Q pn flags (param :: rest) values missing =
      .error (.duplicateParam pn param.Name) := by
  unfold skipped at hs
  simp only [hg] at hs
  cases hfind : values.find param.Name with
  | none => exact absurd hfind hf
  | some q => simp [extractFlagsLoop, hg, hs, hfind]

theorem flagsLoop_quote_err (Q : Quoter) (pn : Str) (flags : FlagSet) (param : ParamSchema)
    (rest : List ParamSchema) (values : GoMap) (missing : List ParamSchema) (val : Str) (e : Str)
    (hg : flags.GetString param.Name = .ok val) (hs : skipped flags param = false)
    (hf : values.find param.Name = none) (hq : Q param val = .error e) :
    extractFlagsLoop Q pn flags (param :: rest) values missing = .error (.quoteFailed e) := by
  unfold skipped at hs
  simp only [hg] at hs
  simp [extractFlagsLoop, hg, hs, hf, hq]

theorem flagsLoop_store (Q : Quoter) (pn : Str) (flags : FlagSet) (param : ParamSchema)
    (rest : List ParamSchema) (values : GoMap) (missing : List ParamSchema) (val q : Str)
    (hg : flags.GetString param.Name = .ok val) (hs : skipped flags param = false)
    (hf : values.find param.Name = none) (hq : Q param val = .ok q) :
    extractFlagsLoop Q pn flags (param :: rest) values missing =
      extractFlagsLoop Q pn flags rest (values.set param.Name q) missing := by
  unfold skipped at hs
  simp only [hg] at hs
  simp [extractFlagsLoop, hg, hs, hf, hq]

/-- The ways one round of the loop can go. -/
theorem flagsLoop_cases (Q : Quoter) (pn : Str) (flags : FlagSet) (param : ParamSchema)
    (rest : List ParamSchema) (values : GoMap) (missing : List ParamSchema) :
    (∃ e, flags.GetString param.Name = .error e ∧
      extractFlagsLoop Q pn flags (param :: rest) values missing = .error e) ∨
    (skipped flags param = true ∧
      extractFlagsLoop Q pn flags (param :: rest) values missing =
        extractFlagsLoop Q pn flags rest values (missing ++ [param])) ∨
    (∃ val, flags.GetString param.Name = .ok val ∧ skipped flags param = false ∧
      values.find param.Name ≠ none ∧
      extractFlagsLoop Q pn flags (param :: rest) values missing =
        .error (.duplicateParam pn param.Name)) ∨
    (∃ val e, flags.GetString param.Name = .ok val ∧ skipped flags param = false ∧
      values.find param.Name = none ∧ Q param val = .error e ∧
      extractFlagsLoop Q pn flags (param :: rest) values missing = .error (.quoteFailed e)) ∨
    (∃ val q, flags.GetString param.Name = .ok val ∧ skipped flags param = false ∧
      values.find param.Name = none ∧ Q param val = .ok q ∧
      extractFlagsLoop Q pn flags (param :: rest) values missing =
        extractFlagsLoop Q pn flags rest (values.set param.Name q) missing) := by
  cases hg : flags.GetString param.Name with
  | error e => exact Or.inl ⟨e, rfl, flagsLoop_unbound Q pn flags param rest values missing e hg⟩
  | ok val =>
    cases hs : skipped flags param with
    | true => exact Or.inr (Or.inl ⟨rfl, flagsLoop_skip Q pn flags param rest values missing hs⟩)
    | false =>
      cases hf : values.find param.Name with
      | some old =>
        exact Or.inr (Or.inr (Or.inl ⟨val, rfl, rfl, by simp,
          flagsLoop_dup Q pn flags param rest values missing val hg hs (by simp [hf])⟩))
      | none =>
        cases hq : Q param val with
        | error e =>
          exact Or.inr (Or.inr (Or.inr (Or.inl ⟨val, e, rfl, rfl, rfl, hq,
            flagsLoop_quote_err Q pn flags param rest values missing val e hg hs hf hq⟩)))
        | ok q =>
          exact Or.inr (Or.inr (Or.inr (Or.inr ⟨val, q, rfl, rfl, rfl, hq,
            flagsLoop_store Q pn flags param rest values missing val q hg hs hf hq⟩)))

theorem flagsLoop_append (Q : Quoter) (pn : Str) (flags : FlagSet) (xs ys : List ParamSchema)
    (values : GoMap) (missing : List ParamSchema) :
    extractFlagsLoop Q pn flags (xs ++ ys) values missing =
      match extractFlagsLoop Q pn flags xs values missing with
      | .error e => .error e
      | .ok (v1, m1) => extractFlagsLoop Q pn flags ys v1 m1 := by
  induction xs generalizing values missing with
  | nil => simp [extractFlagsLoop]
  | cons param rest ih =>
    rw [List.cons_append]
    rcases flagsLoop_cases Q pn flags param (rest ++ ys) values missing with
      ⟨e, g, h⟩ | ⟨s, h⟩ | ⟨val, g, s, f, h⟩ | ⟨val, e, g, s, f, q, h⟩ | ⟨val, r, g, s, f, q, h⟩
    · rw [h, flagsLoop_unbound Q pn flags param rest values missing e g]
    · rw [h, flagsLoop_skip Q pn flags param rest values missing s]
      exact ih _ _
    · rw [h, flagsLoop_dup Q pn flags param rest values missing val g s f]
    · rw [h, flagsLoop_quote_err Q pn flags param rest values missing val e g s f q]
    · rw [h, flagsLoop_store Q pn flags param rest values missing val r g s f q]
      exact ih _ _

/-- On success the missing list grows by the parameters passed over, in schema
order. -/
theorem flagsLoop_missing (Q : Quoter) (pn : Str) (flags : FlagSet) (ps : List ParamSchema)
    (values v1 : GoMap) (missing m1 : List ParamSchema)
    (h : extractFlagsLoop Q pn flags ps values missing = .ok (v1, m1)) :
    m1 = missing ++ ps.filter (skipped flags) := by
  induction ps generalizing values missing with
  | nil =>
    simp [extractFlagsLoop] at h
    simp [h.2]
  | cons param rest ih =>
    rcases flagsLoop_cases Q pn flags param rest values missing with
      ⟨e, _, h2⟩ | ⟨s2, h2⟩ | ⟨val, _, _, _, h2⟩ | ⟨val, e, _, _, _, _, h2⟩ |
      ⟨val, q, _, s2, _, _, h2⟩
    · rw [h2] at h; simp at h
    · rw [h2] at h
      rw [ih _ _ h]
      simp [List.filter, s2]
    · rw [h2] at h; simp at h
    · rw [h2] at h; simp at h
    · rw [h2] at h
      rw [ih _ _ h]
      simp [List.filter, s2]

/-- On success a binding present in the map is never changed. -/
theorem flagsLoop_find_stable (Q : Quoter) (pn : Str) (flags : FlagSet) (ps : List ParamSchema)
    (values v1 : GoMap) (missing m1 : List ParamSchema) (key q : Str)
    (h : extractFlagsLoop Q pn flags ps values missing = .ok (v1, m1))
    (hk : values.find key = some q) :
    v1.find key = some q := by
  induction ps generalizing values missing with
  | nil =>
    simp [extractFlagsLoop] at h
    rw [← h.1]; exact hk
  | cons param rest ih =>
    rcases flagsLoop_cases Q pn flags param rest values missing with
      ⟨e, _, h2⟩ | ⟨s2, h2⟩ | ⟨val, _, _, _, h2⟩ | ⟨val, e, _, _, _, _, h2⟩ |
      ⟨val, r, _, s2, f2, _, h2⟩
    · rw [h2] at h; simp at h
    · rw [h2] at h
      exact ih _ _ h hk
    · rw [h2] at h; simp at h
    · rw [h2] at h; simp at h
    · rw [h2] at h
      have hne : param.Name ≠ key := by
        intro e
        rw [e, hk] at f2
        simp at f2
      exact ih _ _ h (by rw [find_set_other _ _ _ _ hne]; exact hk)

/-- On success every parameter that is not passed over is bound to the quoted
form of its flag value. -/
theorem flagsLoop_find_stored (Q : Quoter) (pn : Str) (flags : FlagSet) (ps : List ParamSchema)
    (values v1 : GoMap) (missing m1 : List ParamSchema)
    (h : extractFlagsLoop Q pn flags ps values missing = .ok (v1, m1))
    (param : ParamSchema) (hp : param ∈ ps) (hs : skipped flags param = false) :
    ∃ val q, flags.GetString param.Name = .ok val ∧ Q param val = .ok q ∧
      v1.find param.Name = some q := by
  induction ps generalizing values missing with
  | nil => simp at hp
  | cons x rest ih =>
    rcases flagsLoop_cases Q pn flags x rest values missing with
      ⟨e, _, h2⟩ | ⟨s2, h2⟩ | ⟨val, _, _, _, h2⟩ | ⟨val, e, _, _, _, _, h2⟩ |
      ⟨val, r, g2, s2, f2, q2, h2⟩
    · rw [h2] at h; simp at h
    · rw [h2] at h
      rcases List.mem_cons.mp hp with e | e
      · subst e; rw [hs] at s2; simp at s2
      · exact ih _ _ h e
    · rw [h2] at h; simp at h
    · rw [h2] at h; simp at h
    · rw [h2] at h
      rcases List.mem_cons.mp hp with e | e
      · subst e
        exact ⟨val, r, g2, q2, flagsLoop_find_stable Q pn flags rest _ v1 _ m1 _ r h
          (find_set_same _ _ _)⟩
      · exact ih _ _ h e

/-- On success the keys of the map are the keys it had and the names of the
parameters that are not passed over. -/
theorem flagsLoop_keys (Q : Quoter) (pn : Str) (flags : FlagSet) (ps : List ParamSchema)
    (values v1 : GoMap) (missing m1 : List ParamSchema) (key : Str)
    (h : extractFlagsLoop Q pn flags ps values missing = .ok (v1, m1))
    (hk : v1.find key ≠ none) :
    values.find key ≠ none ∨ ∃ param ∈ ps, skipped flags param = false ∧ param.Name = key := by
  induction ps generalizing values missing with
  | nil =>
    simp [extractFlagsLoop] at h
    left; rw [h.1]; exact hk
  | cons x rest ih =>
    rcases flagsLoop_cases Q pn flags x rest values missing with
      ⟨e, _, h2⟩ | ⟨s2, h2⟩ | ⟨val, _, _, _, h2⟩ | ⟨val, e, _, _, _, _, h2⟩ |
      ⟨val, r, g2, s2, f2, q2, h2⟩
    · rw [h2] at h; simp at h
    · rw [h2] at h
      rcases ih _ _ h with h3 | ⟨param, hp, hs, hn⟩
      · exact Or.inl h3
      · exact Or.inr ⟨param, by simp [hp], hs, hn⟩
    · rw [h2] at h; simp at h
    · rw [h2] at h; simp at h
    · rw [h2] at h
      rcases ih _ _ h with h3 | ⟨param, hp, hs, hn⟩
      · by_cases hx : x.Name = key
        · exact Or.inr ⟨x, by simp, s2, hx⟩
        · rw [find_set_other _ _ _ _ hx] at h3
          exact Or.inl h3
      · exact Or.inr ⟨param, by simp [hp], hs, hn⟩

/-- The loop fails only on an undefined flag, a duplicate name or a failed
`Quote`. -/
theorem flagsLoop_error_kind (Q : Quoter) (pn : Str) (flags : FlagSet) (ps : List ParamSchema)
    (values : GoMap) (missing : List ParamSchema) (e : Err)
    (h : extractFlagsLoop Q pn flags ps values missing = .error e) :
    (∃ n, e = .flagAccess n) ∨ (∃ n, e = .duplicateParam pn n) ∨ (∃ msg, e = .quoteFailed msg) := by
  induction ps generalizing values missing with
  | nil => simp [extractFlagsLoop] at h
  | cons x rest ih =>
    rcases flagsLoop_cases Q pn flags x rest values missing with
      ⟨e2, g2, h2⟩ | ⟨s2, h2⟩ | ⟨val, _, _, _, h2⟩ | ⟨val, e2, _, _, _, _, h2⟩ |
      ⟨val, r, g2, s2, f2, q2, h2⟩
    · rw [h2] at h
      simp only [Except.error.injEq] at h
      subst h
      unfold FlagSet.GetString at g2
      cases hf : flags.formal.find x.Name with
      | none =>
        simp [hf] at g2
        exact Or.inl ⟨_, g2.symm⟩
      | some v => simp [hf] at g2
    · rw [h2] at h
      exact ih _ _ h
    · rw [h2] at h
      simp only [Except.error.injEq] at h
      exact Or.inr (Or.inl ⟨_, h.symm⟩)
    · rw [h2] at h
      simp only [Except.error.injEq] at h
      exact Or.inr (Or.inr ⟨_, h.symm⟩)
    · rw [h2] at h
      exact ih _ _ h

/-- The loop succeeds when every flag is defined, `Quote` succeeds on the flag
value of every parameter that is not passed over, the names are pairwise
distinct and none is a key of the map yet. -/
theorem flagsLoop_ok (Q : Quoter) (pn : Str) (flags : FlagSet) (ps : List ParamSchema)
    (values : GoMap) (missing : List ParamSchema)
    (hb : ∀ x ∈ ps, ∃ val, flags.GetString x.Name = .ok val)
    (hq : ∀ x ∈ ps, ∀ val, flags.GetString x.Name = .ok val → skipped flags x = false →
      ∃ q, Q x val = .ok q)
    (hnd : (ps.map (fun x => x.Name)).Nodup)
    (hfresh : ∀ x ∈ ps, values.find x.Name = none) :
    ∃ v1 m1, extractFlagsLoop Q pn flags ps values missing = .ok (v1, m1) := by
  induction ps generalizing values missing with
  | nil => exact ⟨values, missing, rfl⟩
  | cons x rest ih =>
    have hb2 : ∀ y ∈ rest, ∃ val, flags.GetString y.Name = .ok val :=
      fun y hy => hb y (by simp [hy])
    have hq2 : ∀ y ∈ rest, ∀ val, flags.GetString y.Name = .ok val → skipped flags y = false →
        ∃ q, Q y val = .ok q := fun y hy => hq y (by simp [hy])
    have hnd1 : x.Name ∉ rest.map (fun x => x.Name) ∧ (rest.map (fun x => x.Name)).Nodup := by
      rw [List.map_cons] at hnd
      exact List.nodup_cons.mp hnd
    have hnd2 : (rest.map (fun x => x.Name)).Nodup := hnd1.2
    have hfresh2 : ∀ y ∈ rest, values.find y.Name = none := fun y hy => hfresh y (by simp [hy])
    rcases flagsLoop_cases Q pn flags x rest values missing with
      ⟨e2, g2, h2⟩ | ⟨s2, h2⟩ | ⟨val, _, _, f2, h2⟩ | ⟨val, e2, g2, s2, _, q2, h2⟩ |
      ⟨val, r, g2, s2, f2, q2, h2⟩
    · obtain ⟨val, hval⟩ := hb x (by simp)
      rw [hval] at g2
      simp at g2
    · rw [h2]
      exact ih _ _ hb2 hq2 hnd2 hfresh2
    · exact absurd (hfresh x (by simp)) f2
    · obtain ⟨q, hq3⟩ := hq x (by simp) val g2 s2
      rw [hq3] at q2
      simp at q2
    · rw [h2]
      refine ih _ _ hb2 hq2 hnd2 ?_
      intro y hy
      have hne : x.Name ≠ y.Name := by
        intro e
        apply hnd1.1
        rw [e]
        exact List.mem_map.mpr ⟨y, hy, rfl⟩
      rw [find_set_other _ _ _ _ hne]
      exact hfresh2 y hy

/-- With every flag defined and `Quote` succeeding, the loop either completes
or reports a duplicate name. -/
theorem flagsLoop_ok_or_dup (Q : Quoter) (pn : Str) (flags : FlagSet) (ps : List ParamSchema)
    (values : GoMap) (missing : List ParamSchema)
    (hb : ∀ x ∈ ps, ∃ val, flags.GetString x.Name = .ok val)
    (hq : ∀ x ∈ ps, ∀ val, flags.GetString x.Name = .ok val → ∃ q, Q x val = .ok q) :
    (∃ v1 m1, extractFlagsLoop Q pn flags ps values missing = .ok (v1, m1)) ∨
    (∃ n, extractFlagsLoop Q pn flags ps values missing = .error (.duplicateParam pn n)) := by
  cases h : extractFlagsLoop Q pn flags ps values missing with
  | ok r => exact Or.inl ⟨r.1, r.2, rfl⟩
  | error e =>
    right
    induction ps generalizing values missing with
    | nil => simp [extractFlagsLoop] at h
    | cons x rest ih =>
      have hb2 : ∀ y ∈ rest, ∃ val, flags.GetString y.Name = .ok val :=
        fun y hy => hb y (by simp [hy])
      have hq2 : ∀ y ∈ rest, ∀ val, flags.GetString y.Name = .ok val → ∃ q, Q y val = .ok q :=
        fun y hy => hq y (by simp [hy])
      rcases flagsLoop_cases Q pn flags x rest values missing with
        ⟨e2, g2, h2⟩ | ⟨s2, h2⟩ | ⟨val, _, _, f2, h2⟩ | ⟨val, e2, g2, s2, _, q2, h2⟩ |
        ⟨val, r, g2, s2, f2, q2, h2⟩
      · obtain ⟨val, hval⟩ := hb x (by simp)
        rw [hval] at g2
        simp at g2
      · rw [h2] at h
        exact ih _ _ hb2 hq2 h
      · rw [h2] at h
        simp only [Except.error.injEq] at h
        exact ⟨_, by rw [← h]⟩
      · obtain ⟨q, hq3⟩ := hq x (by simp) val g2
        rw [hq3] at q2
        simp at q2
      · rw [h2] at h
        exact ih _ _ hb2 hq2 h

/-- With every flag defined and `Quote` succeeding, a parameter that is not
passed over and whose name is already a key of the map makes the loop report a
duplicate name. -/
theorem flagsLoop_dup_of_key (Q : Quoter) (pn : Str) (flags : FlagSet) (ps : List ParamSchema)
    (values : GoMap) (missing : List ParamSchema)
    (hb : ∀ x ∈ ps, ∃ val, flags.GetString x.Name = .ok val)
    (hq : ∀ x ∈ ps, ∀ val, flags.GetString x.Name = .ok val → ∃ q, Q x val = .ok q)
    (param : ParamSchema) (hp : param ∈ ps) (hs : skipped flags param = false)
    (hkey : values.find param.Name ≠ none) :
    ∃ n, extractFlagsLoop Q pn flags ps values missing = .error (.duplicateParam pn n) := by
  rcases flagsLoop_ok_or_dup Q pn flags ps values missing hb hq with ⟨v1, m1, h⟩ | h
  · exfalso
    cases hfind : values.find param.Name with
    | none => exact hkey hfind
    | some old =>
      induction ps generalizing values missing with
      | nil => simp at hp
      | cons x rest ih =>
        have hb2 : ∀ y ∈ rest, ∃ val, flags.GetString y.Name = .ok val :=
          fun y hy => hb y (by simp [hy])
        have hq2 : ∀ y ∈ rest, ∀ val, flags.GetString y.Name = .ok val → ∃ q, Q y val = .ok q :=
          fun y hy => hq y (by simp [hy])
        rcases flagsLoop_cases Q pn flags x rest values missing with
          ⟨e2, g2, h2⟩ | ⟨s2, h2⟩ | ⟨val, _, _, f2, h2⟩ | ⟨val, e2, g2, s2, _, q2, h2⟩ |
          ⟨val, r, g2, s2, f2, q2, h2⟩
        · rw [h2] at h; simp at h
        · rw [h2] at h
          rcases List.mem_cons.mp hp with e | e
          · subst e; rw [hs] at s2; simp at s2
          · exact ih _ _ hb2 hq2 e hkey h hfind
        · rw [h2] at h; simp at h
        · rw [h2] at h; simp at h
        · rw [h2] at h
          rcases List.mem_cons.mp hp with e | e
          · subst e; rw [hfind] at f2; simp at f2
          · have hne : x.Name ≠ param.Name := by
              intro e3
              rw [e3, hfind] at f2
              simp at f2
            have hfind2 : (values.set x.Name r).find param.Name = some old := by
              rw [find_set_other _ _ _ _ hne]; exact hfind
            exact ih _ _ hb2 hq2 e (by rw [hfind2]; simp) h hfind2
  · exact h

theorem skipped_true_iff (flags : FlagSet) (x : ParamSchema) :
    skipped flags x = true ↔ x.Default ≠ none ∧ flags.GetString x.Name = .ok [] := by
  unfold skipped
  cases hg : flags.GetString x.Name with
  | error e => simp
  | ok val =>
    cases hd : x.Default with
    | none => simp
    | some d => simp [List.isEmpty_iff]

theorem skipped_false_of (flags : FlagSet) (x : ParamSchema)
    (h : x.Default ≠ none → flags.GetString x.Name ≠ .ok []) : skipped flags x = false := by
  cases hs : skipped flags x with
  | false => rfl
  | true =>
    obtain ⟨h1, h2⟩ := (skipped_true_iff flags x).mp hs
    exact absurd h2 (h h1)

/-- A missing-parameters error of the Flag Extractor lists exactly the
parameters passed over by the loop. -/
theorem flagsExtract_missing (Q : Quoter) (vff : valuesFromFlags) (pn : Str)
    (missing : List ParamSchema)
    (h : vff.Extract Q = .error (.missingRequiredFlags pn missing)) :
    missing = vff.p.Params.filter (skipped vff.flags) := by
  unfold valuesFromFlags.Extract at h
  cases hl : extractFlagsLoop Q vff.p.Name vff.flags vff.p.Params [] [] with
  | error e =>
    rw [hl] at h
    simp only [Except.error.injEq] at h
    rcases flagsLoop_error_kind Q _ _ _ _ _ e hl with ⟨n, hn⟩ | ⟨n, hn⟩ | ⟨n, hn⟩ <;>
      (rw [hn] at h; simp at h)
  | ok r =>
    obtain ⟨v1, m1⟩ := r
    rw [hl] at h
    have hm := flagsLoop_missing Q _ _ _ _ _ _ _ hl
    by_cases hlen : m1.length > 0
    · simp [hlen] at h
      rw [← h.2, hm]
      simp
    · simp [hlen] at h

/-- A successful Flag Extractor ran its loop to the end with nothing
missing. -/
theorem flagsExtract_ok (Q : Quoter) (vff : valuesFromFlags) (m : GoMap)
    (h : vff.Extract Q = .ok m) :
    extractFlagsLoop Q vff.p.Name vff.flags vff.p.Params [] [] = .ok (m, []) := by
  unfold valuesFromFlags.Extract at h
  cases hl : extractFlagsLoop Q vff.p.Name vff.flags vff.p.Params [] [] with
  | error e => rw [hl] at h; simp at h
  | ok r =>
    obtain ⟨v1, m1⟩ := r
    rw [hl] at h
    cases m1 with
    | nil => simp at h; rw [h]
    | cons y ys => simp at h

/-- The Flag Extractor succeeds on distinct names, defined flags, successful
quoting and no parameter passed over. -/
theorem flagsExtract_succeeds (Q : Quoter) (vff : valuesFromFlags)
    (hnd : (vff.p.Params.map (fun x => x.Name)).Nodup)
    (hb : ∀ x ∈ vff.p.Params, ∃ val, vff.flags.GetString x.Name = .ok val)
    (hq : ∀ x ∈ vff.p.Params, ∀ val, vff.flags.GetString x.Name = .ok val → ∃ q, Q x val = .ok q)
    (hs : ∀ x ∈ vff.p.Params, skipped vff.flags x = false) :
    ∃ m, vff.Extract Q = .ok m := by
  obtain ⟨v1, m1, hl⟩ := flagsLoop_ok Q vff.p.Name vff.flags vff.p.Params [] [] hb
    (fun x hx val hv _ => hq x hx val hv) hnd (fun x _ => rfl)
  have hm := flagsLoop_missing Q _ _ _ _ _ _ _ hl
  have hnil : vff.p.Params.filter (skipped vff.flags) = [] := by
    rw [List.filter_eq_nil_iff]
    intro x hx
    simp [hs x hx]
  rw [hnil] at hm
  simp only [List.append_nil] at hm
  subst hm
  exact ⟨v1, by unfold valuesFromFlags.Extract; simp [hl]⟩

/-! ## The Flag Extractor -/

/-- C4 (counterexample): over the test prototype with the flag of `key2`
(default `default`) set to the empty string and every other flag valid, the
Flag Extractor fails with the missing-parameters error listing `key2`; it does
not fall back to the default. -/
theorem flags_defaulted_empty_counterexample :
    valuesFromFlags.Extract testQuote ⟨testProto, testFlags "" "name" "v" ""⟩ =
      .error (.missingRequiredFlags []
        [⟨"key2".toList, .String, [], some "default".toList⟩]) := by
  decide

/-- C4 (amended): in the Flag Extractor, with distinct names, every flag
defined and `Quote` succeeding, a parameter that has a default and whose flag
value is the empty string is an error: extraction fails with the
missing-parameters error and the parameter is in its list. When its flag
value is not empty (the default itself, for a flag that `BindFlags` defined
and the command line left alone) and no other defaulted parameter has an
empty flag value, extraction succeeds and maps the parameter to the quoted
form of that value. -/
theorem flags_defaulted_param (Q : Quoter) (vff : valuesFromFlags) (param : ParamSchema)
    (d : Str) (hp : param ∈ vff.p.Params) (hd : param.Default = some d)
    (hnd : (vff.p.Params.map (fun x => x.Name)).Nodup)
    (hb : ∀ x ∈ vff.p.Params, ∃ val, vff.flags.GetString x.Name = .ok val)
    (hq : ∀ x ∈ vff.p.Params, ∀ val, vff.flags.GetString x.Name = .ok val →
      ∃ q, Q x val = .ok q) :
    (vff.flags.GetString param.Name = .ok [] →
      ∃ missing, vff.Extract Q = .error (.missingRequiredFlags vff.p.Name missing) ∧
        param ∈ missing) ∧
    (∀ val, val ≠ [] → vff.flags.GetString param.Name = .ok val →
      (∀ x ∈ vff.p.Params, x.Default ≠ none → vff.flags.GetString x.Name ≠ .ok []) →
      ∃ m q, vff.Extract Q = .ok m ∧ Q param val = .ok q ∧ m.find param.Name = some q) := by
  constructor
  · intro hv
    obtain ⟨v1, m1, hl⟩ := flagsLoop_ok Q vff.p.Name vff.flags vff.p.Params [] [] hb
      (fun x hx val hv _ => hq x hx val hv) hnd (fun x _ => rfl)
    have hm := flagsLoop_missing Q _ _ _ _ _ _ _ hl
    simp only [List.nil_append] at hm
    have hmem : param ∈ m1 := by
      rw [hm]
      exact List.mem_filter.mpr ⟨hp, (skipped_true_iff _ _).mpr ⟨by simp [hd], hv⟩⟩
    refine ⟨m1, ?_, hmem⟩
    unfold valuesFromFlags.Extract
    have hlen : m1.length > 0 := List.length_pos_of_mem hmem
    simp [hl, hlen]
  · intro val hval hv hothers
    have hs : ∀ x ∈ vff.p.Params, skipped vff.flags x = false :=
      fun x hx => skipped_false_of _ _ (hothers x hx)
    obtain ⟨m, hm⟩ := flagsExtract_succeeds Q vff hnd hb hq hs
    obtain ⟨val2, q, h1, h2, h3⟩ := flagsLoop_find_stored Q _ _ _ _ _ _ _
      (flagsExtract_ok Q vff m hm) param hp (hs param hp)
    rw [hv] at h1
    simp only [Except.ok.injEq] at h1
    subst h1
    exact ⟨m, q, hm, h2, h3⟩

/-- Witness of C4 (amended): `key2` of the test prototype with an empty flag
value is reported missing; with its flag at the default it is mapped to the
quoted default. -/
theorem flags_defaulted_param_witness :
    (∃ missing, valuesFromFlags.Extract testQuote ⟨testProto, testFlags "" "name" "v" ""⟩ =
        .error (.missingRequiredFlags [] missing) ∧
      (⟨"key2".toList, .String, [], some "default".toList⟩ : ParamSchema) ∈ missing) ∧
    (∃ m q, valuesFromFlags.Extract testQuote ⟨testProto, testFlags "" "name" "v" "default"⟩ =
        .ok m ∧
      testQuote ⟨"key2".toList, .String, [], some "default".toList⟩ "default".toList = .ok q ∧
      m.find "key2".toList = some q) :=
  ⟨(flags_defaulted_param testQuote ⟨testProto, testFlags "" "name" "v" ""⟩
      ⟨"key2".toList, .String, [], some "default".toList⟩ "default".toList
      (by decide) rfl (by decide)
      (by
        intro x hx
        simp only [testProto, List.mem_cons, List.mem_singleton, List.mem_nil_iff, or_false] at hx
        rcases hx with e | e | e <;> subst e <;> exact ⟨_, rfl⟩)
      (by
        intro x hx val _
        simp only [testProto, List.mem_cons, List.mem_singleton, List.mem_nil_iff, or_false] at hx
        rcases hx with e | e | e <;> subst e <;> exact ⟨_, rfl⟩)).1 (by decide),
   (flags_defaulted_param testQuote ⟨testProto, testFlags "" "name" "v" "default"⟩
      ⟨"key2".toList, .String, [], some "default".toList⟩ "default".toList
      (by decide) rfl (by decide)
      (by
        intro x hx
        simp only [testProto, List.mem_cons, List.mem_singleton, List.mem_nil_iff, or_false] at hx
        rcases hx with e | e | e <;> subst e <;> exact ⟨_, rfl⟩)
      (by
        intro x hx val _
        simp only [testProto, List.mem_cons, List.mem_singleton, List.mem_nil_iff, or_false] at hx
        rcases hx with e | e | e <;> subst e <;> exact ⟨_, rfl⟩)).2 "default".toList
      (by decide) (by decide) (by decide)⟩

/-- C5 (counterexample): on the input of the test "from flags" (`--name name`,
`key1` without a default and with an empty flag value) the Flag Extractor
succeeds and binds `key1` to the quoted empty string `""`; `key1` is not
reported missing. -/
theorem flags_required_empty_counterexample :
    valuesFromFlags.Extract testQuote ⟨testProto, testFlags "" "name" "" "default"⟩ =
      .ok [("key2".toList, [dquote] ++ "default".toList ++ [dquote]),
        ("key1".toList, [dquote, dquote]),
        ("name".toList, [dquote] ++ "name".toList ++ [dquote])] := by
  decide

/-- C5 (amended): in the Flag Extractor a parameter without a default whose
flag value is the empty string is never reported missing: it is in the list
of no missing-parameters error, and every successful extraction binds it to
`Quote` of the empty string (for a String parameter, the quoted empty string).
Extraction does succeed when the names are distinct, every flag is defined,
`Quote` succeeds and no defaulted parameter has an empty flag value. -/
theorem flags_required_empty_is_quoted (Q : Quoter) (vff : valuesFromFlags)
    (param : ParamSchema) (hp : param ∈ vff.p.Params) (hd : param.Default = none)
    (hv : vff.flags.GetString param.Name = .ok []) :
    (∀ pn missing, vff.Extract Q = .error (.missingRequiredFlags pn missing) →
      param ∉ missing) ∧
    (∀ m, vff.Extract Q = .ok m → ∃ q, Q param [] = .ok q ∧ m.find param.Name = some q) ∧
    ((vff.p.Params.map (fun x => x.Name)).Nodup →
      (∀ x ∈ vff.p.Params, ∃ val, vff.flags.GetString x.Name = .ok val) →
      (∀ x ∈ vff.p.Params, ∀ val, vff.flags.GetString x.Name = .ok val →
        ∃ q, Q x val = .ok q) →
      (∀ x ∈ vff.p.Params, x.Default ≠ none → vff.flags.GetString x.Name ≠ .ok []) →
      ∃ m q, vff.Extract Q = .ok m ∧ Q param [] = .ok q ∧ m.find param.Name = some q) := by
  have hs : skipped vff.flags param = false :=
    skipped_false_of _ _ (fun h => absurd hd h)
  have hok : ∀ m, vff.Extract Q = .ok m →
      ∃ q, Q param [] = .ok q ∧ m.find param.Name = some q := by
    intro m hm
    obtain ⟨val, q, h1, h2, h3⟩ := flagsLoop_find_stored Q _ _ _ _ _ _ _
      (flagsExtract_ok Q vff m hm) param hp hs
    rw [hv] at h1
    simp only [Except.ok.injEq] at h1
    subst h1
    exact ⟨q, h2, h3⟩
  refine ⟨?_, hok, ?_⟩
  · intro pn missing h hmem
    rw [flagsExtract_missing Q vff pn missing h] at hmem
    have h2 := (List.mem_filter.mp hmem).2
    rw [hs] at h2
    simp at h2
  · intro hnd hb hq hothers
    obtain ⟨m, hm⟩ := flagsExtract_succeeds Q vff hnd hb hq
      (fun x hx => skipped_false_of _ _ (hothers x hx))
    obtain ⟨q, h2, h3⟩ := hok m hm
    exact ⟨m, q, hm, h2, h3⟩

/-- Witness of C5 (amended) on the input of the test "from flags". -/
theorem flags_required_empty_is_quoted_witness :
    ∃ m q, valuesFromFlags.Extract testQuote ⟨testProto, testFlags "" "name" "" "default"⟩ =
        .ok m ∧
      testQuote ⟨"key1".toList, .String, [], none⟩ [] = .ok q ∧
      m.find "key1".toList = some q :=
  (flags_required_empty_is_quoted testQuote ⟨testProto, testFlags "" "name" "" "default"⟩
    ⟨"key1".toList, .String, [], none⟩ (by decide) rfl (by decide)).2.2
    (by decide)
    (by
      intro x hx
      simp only [testProto, List.mem_cons, List.mem_singleton, List.mem_nil_iff, or_false] at hx
      rcases hx with e | e | e <;> subst e <;> exact ⟨_, rfl⟩)
    (by
      intro x hx val _
      simp only [testProto, List.mem_cons, List.mem_singleton, List.mem_nil_iff, or_false] at hx
      rcases hx with e | e | e <;> subst e <;> exact ⟨_, rfl⟩)
    (by decide)

/-- C8 (counterexample): the prototype `dup` declares `a` twice, both entries
with a default; with the flag `a` empty both entries are passed over before
the duplicate check and the Flag Extractor returns the missing-parameters
error, not the duplicate-parameter error. -/
theorem flags_duplicate_counterexample :
    valuesFromFlags.Extract testQuote ⟨dupProto, ⟨[("a".toList, [])]⟩⟩ =
      .error (.missingRequiredFlags "dup".toList
        [⟨"a".toList, .String, [], some "x".toList⟩,
          ⟨"a".toList, .String, [], some "y".toList⟩]) := by
  decide

/-- C8 (amended): in the Flag Extractor, a prototype with two entries of the
same name is rejected with the duplicate-parameter error when both entries
reach the duplicate check, that is when their flag value is not empty or
neither has a default, and no flag lookup or `Quote` fails before. (An entry
with a default and an empty flag value is passed over before the check.) -/
theorem flags_duplicate_rejected (Q : Quoter) (vff : valuesFromFlags)
    (l1 l2 l3 : List ParamSchema) (a b : ParamSchema) (val : Str)
    (hps : vff.p.Params = l1 ++ a :: (l2 ++ b :: l3)) (hab : a.Name = b.Name)
    (hval : vff.flags.GetString a.Name = .ok val)
    (hreach : val ≠ [] ∨ (a.Default = none ∧ b.Default = none))
    (hb : ∀ x ∈ vff.p.Params, ∃ v, vff.flags.GetString x.Name = .ok v)
    (hq : ∀ x ∈ vff.p.Params, ∀ v, vff.flags.GetString x.Name = .ok v → ∃ q, Q x v = .ok q) :
    ∃ n, vff.Extract Q = .error (.duplicateParam vff.p.Name n) := by
  have hsa : skipped vff.flags a = false := by
    apply skipped_false_of
    intro hd hg
    rw [hval] at hg
    simp only [Except.ok.injEq] at hg
    rcases hreach with h | h
    · exact h hg
    · exact hd h.1
  have hsb : skipped vff.flags b = false := by
    apply skipped_false_of
    intro hd hg
    rw [← hab, hval] at hg
    simp only [Except.ok.injEq] at hg
    rcases hreach with h | h
    · exact h hg
    · exact hd h.2
  have hloop : ∃ n, extractFlagsLoop Q vff.p.Name vff.flags vff.p.Params [] [] =
      .error (.duplicateParam vff.p.Name n) := by
    rw [hps] at hb hq ⊢
    rw [flagsLoop_append]
    have hb1 : ∀ x ∈ l1, ∃ v, vff.flags.GetString x.Name = .ok v :=
      fun x hx => hb x (by simp [hx])
    have hq1 : ∀ x ∈ l1, ∀ v, vff.flags.GetString x.Name = .ok v → ∃ q, Q x v = .ok q :=
      fun x hx => hq x (by simp [hx])
    have hb2 : ∀ x ∈ a :: (l2 ++ b :: l3), ∃ v, vff.flags.GetString x.Name = .ok v :=
      fun x hx => hb x (List.mem_append.mpr (Or.inr hx))
    have hq2 : ∀ x ∈ a :: (l2 ++ b :: l3), ∀ v, vff.flags.GetString x.Name = .ok v →
        ∃ q, Q x v = .ok q := fun x hx => hq x (List.mem_append.mpr (Or.inr hx))
    rcases flagsLoop_ok_or_dup Q vff.p.Name vff.flags l1 [] [] hb1 hq1 with ⟨v1, m1, h1⟩ | ⟨n, h1⟩
    · rw [h1]
      simp only
      cases hfind : v1.find a.Name with
      | some old =>
        exact flagsLoop_dup_of_key Q _ _ _ v1 m1 hb2 hq2 a (by simp) hsa (by simp [hfind])
      | none =>
        obtain ⟨q, hq3⟩ := hq2 a (by simp) val hval
        rw [flagsLoop_store Q _ _ a _ v1 m1 val q hval hsa hfind hq3]
        apply flagsLoop_dup_of_key Q _ _ _ _ m1
          (fun x hx => hb2 x (by simp [hx])) (fun x hx => hq2 x (by simp [hx])) b (by simp) hsb
        rw [← hab, find_set_same]
        simp
    · exact ⟨n, by rw [h1]⟩
  obtain ⟨n, hn⟩ := hloop
  exact ⟨n, by unfold valuesFromFlags.Extract; simp [hn]⟩

/-- Witness of C8 (amended): the prototype `dup` with the flag `a` set to `v`
is rejected for its duplicate name. -/
theorem flags_duplicate_rejected_witness :
    ∃ n, valuesFromFlags.Extract testQuote ⟨dupProto, ⟨[("a".toList, "v".toList)]⟩⟩ =
      .error (.duplicateParam "dup".toList n) :=
  flags_duplicate_rejected testQuote ⟨dupProto, ⟨[("a".toList, "v".toList)]⟩⟩ [] [] []
    ⟨"a".toList, .String, [], some "x".toList⟩ ⟨"a".toList, .String, [], some "y".toList⟩
    "v".toList rfl rfl rfl (Or.inl (by decide))
    (by
      intro x hx
      simp only [dupProto, List.mem_cons, List.mem_singleton, List.mem_nil_iff, or_false] at hx
      rcases hx with e | e <;> subst e <;> exact ⟨_, rfl⟩)
    (by
      intro x hx v _
      simp only [dupProto, List.mem_cons, List.mem_singleton, List.mem_nil_iff, or_false] at hx
      rcases hx with e | e <;> subst e <;> exact ⟨_, rfl⟩)

/-! ## The File Extractor -/

/-- The loop of the File Extractor, when it completes, has added nothing to
the missing list: a required parameter with an empty value stops it at
`QuotedValue`. -/
theorem fileLoop_missing (Q : Quoter) (values : GoMap) (ps : List ParamSchema)
    (m m1 : GoMap) (missing missing1 : List ParamSchema)
    (h : extractFileLoop Q values ps m missing = .ok (m1, missing1)) :
    missing1 = missing := by
  induction ps generalizing m missing with
  | nil =>
    simp [extractFileLoop] at h
    exact h.2.symm
  | cons x rest ih =>
    simp only [extractFileLoop] at h
    cases hq : x.QuotedValue Q (values.get x.Name) with
    | error e => simp [hq] at h
    | ok quoted =>
      simp only [hq] at h
      have h2 := ih _ _ h
      by_cases hc : (decide (values.get x.Name = []) && x.IsRequired) = true
      · exfalso
        simp only [Bool.and_eq_true, decide_eq_true_eq] at hc
        have hd : x.Default = none := by
          have := hc.2
          unfold ParamSchema.IsRequired at this
          exact Option.isNone_iff_eq_none.mp this
        simp [ParamSchema.QuotedValue, hc.1, hd] at hq
      · rw [h2]
        simp [hc]

/-- The errors of `QuotedValue`. -/
theorem QuotedValue_error_kind (Q : Quoter) (x : ParamSchema) (raw : Str) (e : Err)
    (h : x.QuotedValue Q raw = .error e) :
    (∃ n, e = .emptyRequired n) ∨ (∃ msg, e = .quoteFailed msg) := by
  unfold ParamSchema.QuotedValue at h
  by_cases hr : raw = []
  · simp only [hr, if_true] at h
    cases hd : x.Default with
    | none =>
      simp only [hd, Except.error.injEq] at h
      exact Or.inl ⟨_, h.symm⟩
    | some d =>
      simp only [hd] at h
      cases hQ : Q x d with
      | error msg =>
        simp only [hQ, Except.mapError, Except.error.injEq] at h
        exact Or.inr ⟨_, h.symm⟩
      | ok q => simp [hQ, Except.mapError] at h
  · simp only [hr, if_false] at h
    cases hQ : Q x raw with
    | error msg =>
      simp only [hQ, Except.mapError, Except.error.injEq] at h
      exact Or.inr ⟨_, h.symm⟩
    | ok q => simp [hQ, Except.mapError] at h

/-- The loop of the File Extractor fails only with an error of
`QuotedValue`. -/
theorem fileLoop_error_kind (Q : Quoter) (values : GoMap) (ps : List ParamSchema)
    (m : GoMap) (missing : List ParamSchema) (e : Err)
    (h : extractFileLoop Q values ps m missing = .error e) :
    (∃ n, e = .emptyRequired n) ∨ (∃ msg, e = .quoteFailed msg) := by
  induction ps generalizing m missing with
  | nil => simp [extractFileLoop] at h
  | cons x rest ih =>
    simp only [extractFileLoop] at h
    cases hq : x.QuotedValue Q (values.get x.Name) with
    | error e2 =>
      simp only [hq, Except.error.injEq] at h
      subst h
      exact QuotedValue_error_kind Q x _ _ hq
    | ok quoted =>
      simp only [hq] at h
      exact ih _ _ h

/-- The File Extractor never returns the combined missing-parameters error. -/
theorem fileExtract_never_aggregates (Q : Quoter) (vff : valuesFromFile) (pn : Str)
    (missing : List ParamSchema) :
    vff.Extract Q ≠ .error (.missingRequired pn missing) := by
  intro h
  unfold valuesFromFile.Extract at h
  by_cases hn : vff.name = []
  · simp [hn] at h
  · simp only [hn, if_false] at h
    cases hv : vff.values with
    | error e => simp [hv] at h
    | ok values =>
      simp only [hv] at h
      cases hl : extractFileLoop Q (values.set "name".toList vff.name) vff.p.Params [] [] with
      | error e =>
        rw [hl] at h
        simp only [Except.error.injEq] at h
        subst h
        rcases fileLoop_error_kind Q _ _ _ _ _ hl with ⟨n, hn2⟩ | ⟨n, hn2⟩ <;> simp at hn2
      | ok r =>
        obtain ⟨m1, missing1⟩ := r
        have hm := fileLoop_missing Q _ _ _ _ _ _ hl
        subst hm
        rw [hl] at h
        simp at h

/-- C7 (the code stops at the first offender): over the prototype `two`,
whose required parameters `a` and `b` both have no value in the well-formed
file `other=1`, `valuesFromFile.Extract` returns the error of `QuotedValue`
for `a` alone, not the combined error listing `a` and `b`. -/
theorem file_extract_stops_at_first_missing :
    valuesFromFile.Extract testQuote ⟨twoRequiredProto, "name".toList, ⟨"other=1\n".toList, false⟩⟩ =
      .error (.emptyRequired "a".toList) ∧
    valuesFromFile.Extract testQuote ⟨twoRequiredProto, "name".toList, ⟨"other=1\n".toList, false⟩⟩ ≠
      .error (.missingRequired "two".toList
        [⟨"a".toList, .String, [], none⟩, ⟨"b".toList, .String, [], none⟩]) := by
  decide

theorem isNameLine_no_eq (s : Str) (h : '=' ∉ s) : isNameLine s = false := by
  simp [isNameLine, cut_none s h]

theorem isNameLine_split (k v : Str) (hk : '=' ∉ k) :
    isNameLine (k ++ '=' :: v) = (!v.isEmpty && decide (TrimSpace k = "name".toList)) := by
  simp only [isNameLine, cut_first k v hk]

/-- Dropping the `name=` lines of a file changes neither the error of the
parser loop nor, off the key `name`, the map it builds. -/
theorem valuesLoop_drop_name_lines (ls : List Str) (m m2 : GoMap)
    (hm : ∀ key, key ≠ "name".toList → m.find key = m2.find key) :
    match valuesLoop ls m, valuesLoop (ls.filter (fun s => !isNameLine s)) m2 with
    | .error e, .error e2 => e = e2
    | .ok a, .ok b => ∀ key, key ≠ "name".toList → a.find key = b.find key
    | _, _ => False := by
  induction ls generalizing m m2 with
  | nil => simpa [valuesLoop] using hm
  | cons s rest ih =>
    rcases line_cases s with hs | ⟨k, v, hk, rfl⟩
    · rw [List.filter_cons_of_pos (by simp [isNameLine_no_eq s hs])]
      rw [valuesLoop_no_eq s _ m hs, valuesLoop_no_eq s _ m2 hs]
    · by_cases hv : v = []
      · subst hv
        rw [List.filter_cons_of_pos (by simp [isNameLine_split k [] hk])]
        rw [valuesLoop_empty_value k _ m hk, valuesLoop_empty_value k _ m2 hk]
      · rw [valuesLoop_step k v _ m hk hv]
        by_cases hname : TrimSpace k = "name".toList
        · rw [List.filter_cons_of_neg (by
            rw [isNameLine_split k v hk]
            simp [hname, List.isEmpty_iff, hv])]
          apply ih
          intro key hkey
          rw [find_set_other _ _ _ _ (by rw [hname]; exact fun e => hkey e.symm)]
          exact hm key hkey
        · rw [List.filter_cons_of_pos (by
            rw [isNameLine_split k v hk, decide_eq_false hname]
            simp)]
          rw [valuesLoop_step k v _ m2 hk hv]
          apply ih
          intro key hkey
          by_cases e : TrimSpace k = key
          · subst e
            rw [find_set_same, find_set_same]
          · rw [find_set_other _ _ _ _ e, find_set_other _ _ _ _ e]
            exact hm key hkey

/-- The loop of the File Extractor reads the values only through `m[k]`. -/
theorem fileLoop_congr (Q : Quoter) (values values2 : GoMap) (ps : List ParamSchema)
    (m : GoMap) (missing : List ParamSchema) (h : ∀ key, values.get key = values2.get key) :
    extractFileLoop Q values ps m missing = extractFileLoop Q values2 ps m missing := by
  induction ps generalizing m missing with
  | nil => rfl
  | cons x rest ih =>
    simp only [extractFileLoop, h x.Name]
    cases x.QuotedValue Q (values2.get x.Name) with
    | error e => rfl
    | ok q => exact ih _ _

/-- On success the File Extractor binds a key to the quoted value of a
parameter of that name, or leaves it alone when there is none. -/
theorem fileLoop_find (Q : Quoter) (values : GoMap) (ps : List ParamSchema)
    (m m1 : GoMap) (missing missing1 : List ParamSchema) (key : Str)
    (h : extractFileLoop Q values ps m missing = .ok (m1, missing1)) :
    (∃ x ∈ ps, x.Name = key ∧ ∃ q, x.QuotedValue Q (values.get key) = .ok q ∧
      m1.find key = some q) ∨
    ((∀ x ∈ ps, x.Name ≠ key) ∧ m1.find key = m.find key) := by
  induction ps generalizing m missing with
  | nil =>
    simp [extractFileLoop] at h
    right
    simp [h.1]
  | cons x rest ih =>
    simp only [extractFileLoop] at h
    cases hq : x.QuotedValue Q (values.get x.Name) with
    | error e => simp [hq] at h
    | ok quoted =>
      simp only [hq] at h
      rcases ih _ _ h with ⟨y, hy, hn, q, h1, h2⟩ | ⟨hnone, hfind⟩
      · exact Or.inl ⟨y, by simp [hy], hn, q, h1, h2⟩
      · by_cases e : x.Name = key
        · left
          refine ⟨x, by simp, e, quoted, ?_, ?_⟩
          · rw [← e]; exact hq
          · rw [hfind, e, find_set_same]
        · right
          refine ⟨?_, ?_⟩
          · intro y hy
            rcases List.mem_cons.mp hy with e2 | e2
            · rw [e2]; exact e
            · exact hnone y e2
          · rw [hfind, find_set_other _ _ _ _ e]

theorem takeWhile_filter (p q : Str → Bool) (ls : List Str)
    (h : ∀ l ∈ ls, q l = false → p l = true) :
    (ls.takeWhile p).filter q = (ls.filter q).takeWhile p ∧
    ls.all p = (ls.filter q).all p := by
  induction ls with
  | nil => exact ⟨rfl, rfl⟩
  | cons l rest ih =>
    obtain ⟨ih1, ih2⟩ := ih (fun x hx => h x (List.mem_cons_of_mem _ hx))
    cases hq : q l with
    | false =>
      have hp := h l (List.mem_cons_self _ _) hq
      refine ⟨?_, ?_⟩
      · rw [List.takeWhile_cons, hp, if_pos rfl, List.filter_cons, List.filter_cons, hq]
        simp only [Bool.false_eq_true, if_false]
        exact ih1
      · rw [List.all_cons, hp, Bool.true_and, List.filter_cons, hq]
        simp only [Bool.false_eq_true, if_false]
        exact ih2
    | true =>
      cases hp : p l with
      | false =>
        refine ⟨?_, ?_⟩
        · rw [List.takeWhile_cons, hp, List.filter_cons, hq]
          simp only [Bool.false_eq_true, if_false, if_true, List.filter_nil]
          rw [List.takeWhile_cons, hp]
          simp
        · rw [List.all_cons, hp, List.filter_cons, hq]
          simp only [if_true, Bool.false_and]
          rw [List.all_cons, hp]
          simp
      | true =>
        refine ⟨?_, ?_⟩
        · rw [List.takeWhile_cons, hp, if_pos rfl, List.filter_cons, hq, List.filter_cons, hq]
          simp only [if_true]
          rw [List.takeWhile_cons, hp, if_pos rfl, ih1]
        · rw [List.all_cons, hp, List.filter_cons, hq]
          simp only [if_true, Bool.true_and]
          rw [List.all_cons, hp, Bool.true_and, ih2]

theorem filter_map_dropCR (q : Str → Bool) (ls : List Str) :
    (ls.map dropCR).filter q = (ls.filter (fun l => q (dropCR l))).map dropCR := by
  induction ls with
  | nil => rfl
  | cons l rest ih =>
    rw [List.map_cons, List.filter_cons, List.filter_cons, ih]
    cases q (dropCR l) <;> simp

/-- Two readers whose delivered lines differ only in `name=` lines, with the
scanner in the same final state, give the File Extractor the same result. -/
theorem fileExtract_name_lines (Q : Quoter) (vff vff2 : valuesFromFile)
    (hp : vff2.p = vff.p) (hname : vff2.name = vff.name)
    (hfail : vff2.r.failed = vff.r.failed)
    (hlines : (scanLines vff2.r.data).filter (fun s => !isNameLine s) =
      (scanLines vff.r.data).filter (fun s => !isNameLine s)) :
    vff2.Extract Q = vff.Extract Q := by
  have h1 := valuesLoop_drop_name_lines (scanLines vff.r.data) [] [] (fun _ _ => rfl)
  have h2 := valuesLoop_drop_name_lines (scanLines vff2.r.data) [] [] (fun _ _ => rfl)
  rw [hlines] at h2
  unfold valuesFromFile.Extract valuesFromFile.values
  rw [hp, hname, hfail]
  by_cases hn : vff.name = []
  · simp [hn]
  · simp only [hn, if_false]
    cases hF : valuesLoop ((scanLines vff.r.data).filter (fun s => !isNameLine s)) [] with
    | error e =>
      rw [hF] at h1 h2
      cases ha : valuesLoop (scanLines vff.r.data) [] with
      | ok a => rw [ha] at h1; exact absurd h1 id
      | error e1 =>
        cases hb : valuesLoop (scanLines vff2.r.data) [] with
        | ok b => rw [hb] at h2; exact absurd h2 id
        | error e2 =>
          rw [ha] at h1; rw [hb] at h2
          simp only at h1 h2
          rw [h1, h2]
    | ok c =>
      rw [hF] at h1 h2
      cases ha : valuesLoop (scanLines vff.r.data) [] with
      | error e1 => rw [ha] at h1; exact absurd h1 id
      | ok a =>
        cases hb : valuesLoop (scanLines vff2.r.data) [] with
        | error e2 => rw [hb] at h2; exact absurd h2 id
        | ok b =>
          rw [ha] at h1; rw [hb] at h2
          simp only at h1 h2
          by_cases hf : vff.r.failed = true
          · simp [hf]
          · simp only [hf, Bool.false_eq_true, if_false]
            have hget : ∀ key, (b.set "name".toList vff.name).get key =
                (a.set "name".toList vff.name).get key := by
              intro key
              by_cases e : "name".toList = key
              · subst e
                rw [get_set_same, get_set_same]
              · rw [get_set_other _ _ _ _ e, get_set_other _ _ _ _ e]
                unfold GoMap.get
                rw [h1 key (fun h => e h.symm), h2 key (fun h => e h.symm)]
            rw [fileLoop_congr Q _ _ _ _ _ hget]

/-- C9 (counterexample): over the test prototype and the component name
`name`, the file with the line `key1=value1` is resolved, and the file that
differs from it only in a first line `name=`, a `name=` line without a value,
is rejected with the invalid-line error for that line. -/
theorem file_name_line_counterexample :
    (testFile "key1=value1\n").Extract testQuote =
      .ok [("key2".toList, [dquote] ++ "default".toList ++ [dquote]),
        ("key1".toList, [dquote] ++ "value1".toList ++ [dquote]),
        ("name".toList, [dquote] ++ "name".toList ++ [dquote])] ∧
    (testFile "name=\nkey1=value1\n").Extract testQuote =
      .error (.readingValuesFile (.invalidLine "name=".toList)) := by
  decide

/-- C9 (amended): name override in the File Extractor. A successful
`valuesFromFile.Extract` over a schema with a parameter named `name` binds
`name` to the quoted form of the caller-supplied component name, whatever the
file holds; and two files that differ only in `name=` lines that have a value
part and fit the scanner's buffer (lines key=value with a value part that is
not empty and the trimmed key `name`, of fewer than `MaxScanTokenSize`
bytes), read in the same way, give the same result, map or error. -/
theorem file_name_override (Q : Quoter) (vff : valuesFromFile) :
    (∀ m, vff.Extract Q = .ok m → (∃ x ∈ vff.p.Params, x.Name = "name".toList) →
      ∃ x ∈ vff.p.Params, x.Name = "name".toList ∧
        ∃ q, Q x vff.name = .ok q ∧ m.find "name".toList = some q) ∧
    (∀ vff2 : valuesFromFile, vff2.p = vff.p → vff2.name = vff.name →
      vff2.r.readErr = vff.r.readErr →
      (∀ l ∈ rawLines vff.r.data, isNameLine (dropCR l) = true → fits l = true) →
      (∀ l ∈ rawLines vff2.r.data, isNameLine (dropCR l) = true → fits l = true) →
      (rawLines vff2.r.data).filter (fun l => !isNameLine (dropCR l)) =
        (rawLines vff.r.data).filter (fun l => !isNameLine (dropCR l)) →
      vff2.Extract Q = vff.Extract Q) := by
  constructor
  · intro m hm hex
    unfold valuesFromFile.Extract at hm
    by_cases hn : vff.name = []
    · simp [hn] at hm
    · simp only [hn, if_false] at hm
      cases hv : vff.values with
      | error e => simp [hv] at hm
      | ok values =>
        simp only [hv] at hm
        cases hl : extractFileLoop Q (values.set "name".toList vff.name) vff.p.Params [] [] with
        | error e => rw [hl] at hm; simp at hm
        | ok r =>
          obtain ⟨m1, missing1⟩ := r
          rw [hl] at hm
          have hm1 : m1 = m := by
            by_cases hlen : missing1.length > 0
            · simp [hlen] at hm
            · simp [hlen] at hm; exact hm
          subst hm1
          rcases fileLoop_find Q _ _ _ _ _ _ "name".toList hl with
            ⟨x, hx, hxn, q, h1, h2⟩ | ⟨hnone, _⟩
          · refine ⟨x, hx, hxn, q, ?_, h2⟩
            rw [get_set_same] at h1
            unfold ParamSchema.QuotedValue at h1
            simp only [hn, if_false] at h1
            cases hQ : Q x vff.name with
            | error msg => simp [hQ, Except.mapError] at h1
            | ok q2 =>
              simp only [hQ, Except.mapError, Except.ok.injEq] at h1
              rw [h1]
          · obtain ⟨x, hx, hxn⟩ := hex
            exact absurd hxn (hnone x hx)
  · intro vff2 hp hname hread hfit hfit2 hraw
    have hq : ∀ (ls : List Str), (∀ l ∈ ls, isNameLine (dropCR l) = true → fits l = true) →
        ∀ l ∈ ls, (!isNameLine (dropCR l)) = false → fits l = true := by
      intro ls hls l hl hn
      apply hls l hl
      cases hi : isNameLine (dropCR l) with
      | true => rfl
      | false => rw [hi] at hn; exact absurd hn (by decide)
    obtain ⟨a1, a2⟩ := takeWhile_filter fits (fun l => !isNameLine (dropCR l))
      (rawLines vff.r.data) (hq _ hfit)
    obtain ⟨b1, b2⟩ := takeWhile_filter fits (fun l => !isNameLine (dropCR l))
      (rawLines vff2.r.data) (hq _ hfit2)
    apply fileExtract_name_lines Q vff vff2 hp hname
    · unfold Reader.failed
      rw [hread, a2, b2, hraw]
    · unfold scanLines
      rw [filter_map_dropCR, filter_map_dropCR, a1, b1, hraw]

/-- Witness of C9 (amended): over the test prototype and the component name `name`, the
file `key1=value1` with and without a line `name = fromfile` gives the same
result, and the result binds `name` to the quoted component name. -/
theorem file_name_override_witness :
    (testFile "key1=value1\n").Extract testQuote =
      (testFile "name = fromfile\nkey1=value1\n").Extract testQuote ∧
    (∃ x ∈ testProto.Params, x.Name = "name".toList ∧
      ∃ q, testQuote x "name".toList = .ok q ∧
        GoMap.find [("key2".toList, [dquote] ++ "default".toList ++ [dquote]),
          ("key1".toList, [dquote] ++ "value1".toList ++ [dquote]),
          ("name".toList, [dquote] ++ "name".toList ++ [dquote])] "name".toList = some q) :=
  ⟨(file_name_override testQuote (testFile "name = fromfile\nkey1=value1\n")).2
      (testFile "key1=value1\n") rfl rfl rfl (by decide) (by decide) (by decide),
   (file_name_override testQuote (testFile "name = fromfile\nkey1=value1\n")).1 _
      (by decide) ⟨⟨"name".toList, .String, [], none⟩, by decide, rfl⟩⟩

/-! ## BindFlags -/

theorem String_ok (fs fs1 : FlagSet) (name value : Str) (h : fs.String name value = .ok fs1) :
    fs.formal.find name = none ∧ fs1.formal = fs.formal.set name value := by
  unfold FlagSet.String at h
  cases hf : fs.formal.find name with
  | some v => simp [hf] at h
  | none =>
    simp only [hf, Except.ok.injEq] at h
    exact ⟨rfl, by rw [← h]⟩

/-- What a successful run of the binding loop establishes. -/
theorem bindParams_ok (dflt : ParamSchema → Str) (ps : List ParamSchema) (fs fs1 : FlagSet)
    (h : bindParams dflt ps fs = .ok fs1) :
    (ps.map (fun x => x.Name)).Nodup ∧
    (∀ x ∈ ps, fs.formal.find x.Name = none) ∧
    (∀ key, key ∉ ps.map (fun x => x.Name) → fs1.formal.find key = fs.formal.find key) ∧
    (∀ x ∈ ps, fs1.formal.find x.Name = some (dflt x)) := by
  induction ps generalizing fs with
  | nil =>
    simp only [bindParams, Except.ok.injEq] at h
    subst h
    simp
  | cons x rest ih =>
    simp only [bindParams] at h
    cases hs : fs.String x.Name (dflt x) with
    | error e => simp [hs] at h
    | ok fs2 =>
      simp only [hs] at h
      obtain ⟨hnone, hset⟩ := String_ok fs fs2 _ _ hs
      obtain ⟨ih1, ih2, ih3, ih4⟩ := ih fs2 h
      have hx2 : fs2.formal.find x.Name = some (dflt x) := by rw [hset, find_set_same]
      have hnotin : x.Name ∉ rest.map (fun x => x.Name) := by
        intro hmem
        obtain ⟨y, hy, hyn⟩ := List.mem_map.mp hmem
        have := ih2 y hy
        rw [hyn, hx2] at this
        simp at this
      refine ⟨?_, ?_, ?_, ?_⟩
      · rw [List.map_cons]
        exact List.nodup_cons.mpr ⟨hnotin, ih1⟩
      · intro y hy
        rcases List.mem_cons.mp hy with e | e
        · rw [e]; exact hnone
        · have hne : x.Name ≠ y.Name := fun e2 => hnotin (by rw [e2]; exact List.mem_map.mpr ⟨y, e, rfl⟩)
          have := ih2 y e
          rw [hset, find_set_other _ _ _ _ hne] at this
          exact this
      · intro key hkey
        rw [List.map_cons, List.mem_cons, not_or] at hkey
        rw [ih3 key hkey.2, hset, find_set_other _ _ _ _ (fun e => hkey.1 e.symm)]
      · intro y hy
        rcases List.mem_cons.mp hy with e | e
        · rw [e, ih3 _ hnotin, hx2]
        · exact ih4 y e

/-- Names that are distinct among the required parameters, distinct among the
optional ones, and never shared between the two groups, are distinct. -/
theorem nodup_of_partition (ps : List ParamSchema)
    (h1 : ((ps.filter (fun x => x.Default.isNone)).map (fun x => x.Name)).Nodup)
    (h2 : ((ps.filter (fun x => x.Default.isSome)).map (fun x => x.Name)).Nodup)
    (h3 : ∀ x ∈ ps, ∀ y ∈ ps, x.Default.isNone = true → y.Default.isSome = true →
      x.Name ≠ y.Name) :
    (ps.map (fun x => x.Name)).Nodup := by
  induction ps with
  | nil => simp
  | cons x rest ih =>
    have h3r : ∀ a ∈ rest, ∀ b ∈ rest, a.Default.isNone = true → b.Default.isSome = true →
        a.Name ≠ b.Name := fun a ha b hb => h3 a (by simp [ha]) b (by simp [hb])
    rw [List.map_cons]
    cases hd : x.Default with
    | none =>
      rw [List.filter_cons_of_pos (by simp [hd]), List.map_cons] at h1
      rw [List.filter_cons_of_neg (by simp [hd])] at h2
      obtain ⟨h1a, h1b⟩ := List.nodup_cons.mp h1
      refine List.nodup_cons.mpr ⟨?_, ih h1b h2 h3r⟩
      intro hmem
      obtain ⟨y, hy, hyn⟩ := List.mem_map.mp hmem
      cases hyd : y.Default with
      | none =>
        exact h1a (List.mem_map.mpr ⟨y, List.mem_filter.mpr ⟨hy, by simp [hyd]⟩, hyn⟩)
      | some d =>
        exact h3 x (by simp) y (by simp [hy]) (by simp [hd]) (by simp [hyd]) hyn.symm
    | some d0 =>
      rw [List.filter_cons_of_neg (by simp [hd])] at h1
      rw [List.filter_cons_of_pos (by simp [hd]), List.map_cons] at h2
      obtain ⟨h2a, h2b⟩ := List.nodup_cons.mp h2
      refine List.nodup_cons.mpr ⟨?_, ih h1 h2b h3r⟩
      intro hmem
      obtain ⟨y, hy, hyn⟩ := List.mem_map.mp hmem
      cases hyd : y.Default with
      | none =>
        exact h3 y (by simp [hy]) x (by simp) (by simp [hyd]) (by simp [hd]) hyn
      | some d =>
        exact h2a (List.mem_map.mpr ⟨y, List.mem_filter.mpr ⟨hy, by simp [hyd]⟩, hyn⟩)

/-- What a successful `BindFlags` establishes: the names of the prototype are
pairwise distinct, every parameter has a flag holding its default (`""`
without one), and the flag `values-file` holds `""`. -/
theorem BindFlags_ok (p : Prototype) (bound : FlagSet) (h : BindFlags p = .ok bound) :
    (p.Params.map (fun x => x.Name)).Nodup ∧
    (∀ x ∈ p.Params, bound.GetString x.Name = .ok (x.Default.getD [])) ∧
    bound.GetString OptionValuesFile = .ok [] := by
  unfold BindFlags at h
  cases h0 : NewFlagSet.String OptionValuesFile [] with
  | error e => simp [h0] at h
  | ok fs0 =>
    simp only [h0] at h
    obtain ⟨_, hset0⟩ := String_ok _ _ _ _ h0
    cases h1 : bindParams (fun _ => []) p.RequiredParams fs0 with
    | error e => simp [h1] at h
    | ok fs1 =>
      simp only [h1] at h
      obtain ⟨r1, r2, r3, r4⟩ := bindParams_ok _ _ _ _ h1
      obtain ⟨o1, o2, o3, o4⟩ := bindParams_ok _ _ _ _ h
      have hvf0 : fs0.formal.find OptionValuesFile = some [] := by rw [hset0, find_set_same]
      have hreq : ∀ x ∈ p.Params, x.Default.isNone = true → x ∈ p.RequiredParams :=
        fun x hx hd => List.mem_filter.mpr ⟨hx, hd⟩
      have hopt : ∀ x ∈ p.Params, x.Default.isSome = true → x ∈ p.OptionalParams :=
        fun x hx hd => List.mem_filter.mpr ⟨hx, hd⟩
      have hdisj : ∀ x ∈ p.Params, ∀ y ∈ p.Params, x.Default.isNone = true →
          y.Default.isSome = true → x.Name ≠ y.Name := by
        intro x hx y hy hxd hyd e
        have hx1 := r4 x (hreq x hx hxd)
        have hy1 := o2 y (hopt y hy hyd)
        rw [← e, hx1] at hy1
        simp at hy1
      have hvf1 : fs1.formal.find OptionValuesFile = some [] := by
        rw [r3 _ ?_, hvf0]
        intro hmem
        obtain ⟨y, hy, hyn⟩ := List.mem_map.mp hmem
        have := r2 y hy
        rw [hyn, hvf0] at this
        simp at this
      refine ⟨nodup_of_partition p.Params r1 o1 hdisj, ?_, ?_⟩
      · intro x hx
        unfold FlagSet.GetString
        cases hd : x.Default with
        | none =>
          have hx1 := r4 x (hreq x hx (by simp [hd]))
          have hnotin : x.Name ∉ p.OptionalParams.map (fun x => x.Name) := by
            intro hmem
            obtain ⟨y, hy, hyn⟩ := List.mem_map.mp hmem
            have := o2 y hy
            rw [hyn, hx1] at this
            simp at this
          rw [o3 _ hnotin, hx1]
          simp
        | some d =>
          rw [o4 x (hopt x hx (by simp [hd]))]
          simp [hd]
      · unfold FlagSet.GetString
        rw [o3 _ ?_, hvf1]
        intro hmem
        obtain ⟨y, hy, hyn⟩ := List.mem_map.mp hmem
        have := o2 y hy
        rw [hyn, hvf1] at this
        simp at this

theorem Set_ok (fs fs1 : FlagSet) (name value : Str) (h : fs.Set name value = .ok fs1) :
    fs1.GetString name = .ok value ∧
    ∀ key, key ≠ name → fs1.GetString key = fs.GetString key := by
  unfold FlagSet.Set at h
  cases hf : fs.formal.find name with
  | none => simp [hf] at h
  | some v =>
    simp only [hf, Except.ok.injEq] at h
    subst h
    refine ⟨by simp [FlagSet.GetString, find_set_same], ?_⟩
    intro key hkey
    simp only [FlagSet.GetString]
    rw [find_set_other _ _ _ _ (fun e => hkey e.symm)]

/-- C6 (counterexample): the prototype `e` has String parameters only, `k`
with the empty string as default. With the flag set of `BindFlags` parsed
with `--name x` and no values file, `Values` fails with the
missing-parameters error listing `k`. -/
theorem Values_bound_flags_counterexample :
    ∃ bound flags, BindFlags emptyDefaultProto = .ok bound ∧
      bound.Set "name".toList "x".toList = .ok flags ∧
      Values testQuote none (some emptyDefaultProto) (some flags) =
        (.error (.missingRequiredFlags "e".toList [⟨"k".toList, .String, [], some []⟩]), []) :=
  ⟨⟨[("k".toList, []), ("name".toList, []), ("values-file".toList, [])]⟩,
   ⟨[("name".toList, "x".toList), ("k".toList, []), ("values-file".toList, [])]⟩,
   by decide, by decide, by decide⟩

/-- C6 (amended): for a prototype of String parameters none of whose defaults
is the empty string, the flag set of `BindFlags` parsed with only `--name X`
(`X` not empty when `name` itself has a default) and no values file, `Values`
succeeds without opening a file and returns a map whose keys are exactly the
parameter names: `name` is bound to the quoted `X`, every other parameter
without a default to the quoted empty string, and every other parameter with a
default `d` to the quoted `d`. `Quote` is taken to succeed on String
parameters. -/
theorem Values_from_bound_flags (Q : Quoter) (fs : Option Fs) (p : Prototype) (X : Str)
    (bound flags : FlagSet)
    (hbind : BindFlags p = .ok bound) (hset : bound.Set "name".toList X = .ok flags)
    (hstr : ∀ x ∈ p.Params, x.Typ = .String)
    (hq : ∀ x v, x.Typ = .String → ∃ q, Q x v = .ok q)
    (hdef : ∀ x ∈ p.Params, x.Default ≠ some [])
    (hX : X = [] → ∀ x ∈ p.Params, x.Name = "name".toList → x.Default = none) :
    ∃ m, Values Q fs (some p) (some flags) = (.ok m, []) ∧
      (∀ key, m.find key ≠ none ↔ key ∈ p.Params.map (fun x => x.Name)) ∧
      (∀ x ∈ p.Params, x.Name = "name".toList →
        ∃ q, Q x X = .ok q ∧ m.find x.Name = some q) ∧
      (∀ x ∈ p.Params, x.Name ≠ "name".toList → x.Default = none →
        ∃ q, Q x [] = .ok q ∧ m.find x.Name = some q) ∧
      (∀ x ∈ p.Params, x.Name ≠ "name".toList → ∀ d, x.Default = some d →
        ∃ q, Q x d = .ok q ∧ m.find x.Name = some q) := by
  obtain ⟨hnd, hflags, hvf⟩ := BindFlags_ok p bound hbind
  obtain ⟨hname, hother⟩ := Set_ok bound flags _ _ hset
  have hvf2 : flags.GetString OptionValuesFile = .ok [] := by
    rw [hother _ (by decide)]; exact hvf
  have hval : ∀ x ∈ p.Params, flags.GetString x.Name =
      .ok (if x.Name = "name".toList then X else x.Default.getD []) := by
    intro x hx
    by_cases e : x.Name = "name".toList
    · rw [if_pos e, e]; exact hname
    · rw [if_neg e, hother _ e]; exact hflags x hx
  have hskip : ∀ x ∈ p.Params, skipped flags x = false := by
    intro x hx
    apply skipped_false_of
    intro hd hg
    rw [hval x hx] at hg
    simp only [Except.ok.injEq] at hg
    by_cases e : x.Name = "name".toList
    · rw [if_pos e] at hg
      exact hd (hX hg x hx e)
    · rw [if_neg e] at hg
      cases hdd : x.Default with
      | none => exact hd hdd
      | some d =>
        rw [hdd] at hg
        simp only [Option.getD_some] at hg
        rw [hg] at hdd
        exact hdef x hx hdd
  have hb : ∀ x ∈ (newValuesFromFlags p flags).p.Params,
      ∃ val, (newValuesFromFlags p flags).flags.GetString x.Name = .ok val :=
    fun x hx => ⟨_, hval x hx⟩
  have hqq : ∀ x ∈ (newValuesFromFlags p flags).p.Params, ∀ val,
      (newValuesFromFlags p flags).flags.GetString x.Name = .ok val → ∃ q, Q x val = .ok q :=
    fun x hx val _ => hq x val (hstr x hx)
  obtain ⟨m, hm⟩ := flagsExtract_succeeds Q (newValuesFromFlags p flags) hnd hb hqq hskip
  have hloop := flagsExtract_ok Q _ m hm
  have hstored : ∀ x ∈ p.Params, ∃ q,
      Q x (if x.Name = "name".toList then X else x.Default.getD []) = .ok q ∧
      m.find x.Name = some q := by
    intro x hx
    obtain ⟨val, q, h1, h2, h3⟩ := flagsLoop_find_stored Q _ _ _ _ _ _ _ hloop x hx (hskip x hx)
    have h4 := hval x hx
    simp only [newValuesFromFlags] at h1
    rw [h4] at h1
    simp only [Except.ok.injEq] at h1
    rw [← h1] at h2
    exact ⟨q, h2, h3⟩
  refine ⟨m, ?_, ?_, ?_, ?_, ?_⟩
  · have hname2 : flags.GetString "name".toList = .ok X := hname
    simp only [Values, hvf2, hname2, ne_eq, not_true_eq_false, if_false, hm]
  · intro key
    constructor
    · intro hk
      rcases flagsLoop_keys Q _ _ _ _ _ _ _ key hloop hk with h | ⟨x, hx, _, hxn⟩
      · simp [GoMap.find] at h
      · exact List.mem_map.mpr ⟨x, hx, hxn⟩
    · intro hk
      obtain ⟨x, hx, hxn⟩ := List.mem_map.mp hk
      obtain ⟨q, _, h3⟩ := hstored x hx
      rw [← hxn, h3]
      simp
  · intro x hx e
    obtain ⟨q, h2, h3⟩ := hstored x hx
    rw [if_pos e] at h2
    exact ⟨q, h2, h3⟩
  · intro x hx e hd
    obtain ⟨q, h2, h3⟩ := hstored x hx
    rw [if_neg e, hd] at h2
    exact ⟨q, h2, h3⟩
  · intro x hx e d hd
    obtain ⟨q, h2, h3⟩ := hstored x hx
    rw [if_neg e, hd] at h2
    exact ⟨q, h2, h3⟩

/-- Witness of C6 (amended): the test "from flags", `BindFlags` of the test
prototype parsed with `--name name`. -/
theorem Values_from_bound_flags_witness :
    ∃ m, Values testQuote none (some testProto)
        (some ⟨[("name".toList, "name".toList), ("key2".toList, "default".toList),
          ("key1".toList, []), ("values-file".toList, [])]⟩) = (.ok m, []) ∧
      m.find "name".toList = some ([dquote] ++ "name".toList ++ [dquote]) ∧
      m.find "key1".toList = some [dquote, dquote] ∧
      m.find "key2".toList = some ([dquote] ++ "default".toList ++ [dquote]) := by
  obtain ⟨m, h1, _, h3, h4, h5⟩ := Values_from_bound_flags testQuote none testProto
    "name".toList
    ⟨[("key2".toList, "default".toList), ("key1".toList, []), ("name".toList, []),
      ("values-file".toList, [])]⟩
    ⟨[("name".toList, "name".toList), ("key2".toList, "default".toList),
      ("key1".toList, []), ("values-file".toList, [])]⟩
    (by decide) (by decide) (by decide)
    (by
      intro x v hx
      exact ⟨dquote :: (escapeQuotes v ++ [dquote]), by simp [testQuote, specQuote, hx]⟩)
    (by decide) (by decide)
  refine ⟨m, h1, ?_, ?_, ?_⟩
  · obtain ⟨q, hq1, hq2⟩ := h3 ⟨"name".toList, .String, [], none⟩ (by decide) rfl
    have e : testQuote ⟨"name".toList, .String, [], none⟩ "name".toList =
        .ok ([dquote] ++ "name".toList ++ [dquote]) := by decide
    rw [e] at hq1
    simp only [Except.ok.injEq] at hq1
    rw [hq1]; exact hq2
  · obtain ⟨q, hq1, hq2⟩ := h4 ⟨"key1".toList, .String, [], none⟩ (by decide) (by decide) rfl
    have e : testQuote ⟨"key1".toList, .String, [], none⟩ [] = .ok [dquote, dquote] := by decide
    rw [e] at hq1
    simp only [Except.ok.injEq] at hq1
    rw [hq1]; exact hq2
  · obtain ⟨q, hq1, hq2⟩ := h5 ⟨"key2".toList, .String, [], some "default".toList⟩
      (by decide) (by decide) "default".toList rfl
    have e : testQuote ⟨"key2".toList, .String, [], some "default".toList⟩ "default".toList =
        .ok ([dquote] ++ "default".toList ++ [dquote]) := by decide
    rw [e] at hq1
    simp only [Except.ok.injEq] at hq1
    rw [hq1]; exact hq2

/-! ## Lemmas: trimming -/

theorem dropWhile_head_not (p : Char → Bool) (s : Str) (c : Char) (rest : Str)
    (h : s.dropWhile p = c :: rest) : p c = false := by
  induction s with
  | nil => simp at h
  | cons x xs ih =>
    by_cases hx : p x = true
    · rw [List.dropWhile_cons_of_pos hx] at h
      exact ih h
    · rw [List.dropWhile_cons_of_neg hx] at h
      simp only [List.cons.injEq] at h
      rw [← h.1]
      simpa using hx

theorem dropWhile_getLast (p : Char → Bool) (s : Str) (h : s.dropWhile p ≠ []) :
    (s.dropWhile p).getLast? = s.getLast? := by
  induction s with
  | nil => simp at h
  | cons x xs ih =>
    by_cases hx : p x = true
    · rw [List.dropWhile_cons_of_pos hx] at h ⊢
      rw [ih h]
      cases xs with
      | nil => simp at h
      | cons y ys => simp [List.getLast?_cons_cons]
    · rw [List.dropWhile_cons_of_neg hx]

/-- The result of `TrimSpace` has no leading and no trailing white space. -/
theorem TrimSpace_isTrimmed (s : Str) : isTrimmed (TrimSpace s) = true := by
  unfold TrimSpace isTrimmed
  cases hu : (s.dropWhile isSpace).reverse.dropWhile isSpace with
  | nil => simp
  | cons c rest =>
    have hc : isSpace c = false := dropWhile_head_not isSpace _ c rest hu
    have hne : (s.dropWhile isSpace).reverse.dropWhile isSpace ≠ [] := by rw [hu]; simp
    have hlast := dropWhile_getLast isSpace _ hne
    rw [hu] at hlast
    rw [List.getLast?_reverse] at hlast
    have hhead : ((c :: rest).reverse).head? = (s.dropWhile isSpace).head? := by
      rw [List.head?_reverse]; exact hlast
    have hlast2 : ((c :: rest).reverse).getLast? = some c := by
      rw [List.getLast?_reverse]; rfl
    cases ht : s.dropWhile isSpace with
    | nil => rw [ht] at hu; simp at hu
    | cons a as =>
      have ha : isSpace a = false := dropWhile_head_not isSpace _ a as ht
      rw [ht] at hhead
      rw [hhead, hlast2]
      simp [ha, hc]

theorem dropWhile_append_space (p : Char → Bool) (a b : Str) :
    (a ++ b).dropWhile p = if a.dropWhile p = [] then b.dropWhile p else a.dropWhile p ++ b := by
  induction a with
  | nil => simp
  | cons x xs ih =>
    by_cases hx : p x = true
    · rw [List.cons_append, List.dropWhile_cons_of_pos hx, List.dropWhile_cons_of_pos hx]
      exact ih
    · rw [List.cons_append, List.dropWhile_cons_of_neg hx, List.dropWhile_cons_of_neg hx]
      simp

/-- White space before the text does not change its trimmed form. -/
theorem TrimSpace_leading (c : Char) (s : Str) (hc : isSpace c = true) :
    TrimSpace (c :: s) = TrimSpace s := by
  unfold TrimSpace
  rw [List.dropWhile_cons_of_pos hc]

/-- White space after the text does not change its trimmed form. -/
theorem TrimSpace_trailing (c : Char) (s : Str) (hc : isSpace c = true) :
    TrimSpace (s ++ [c]) = TrimSpace s := by
  unfold TrimSpace
  rw [dropWhile_append_space]
  by_cases h : s.dropWhile isSpace = []
  · rw [if_pos h, h, List.dropWhile_cons_of_pos hc]
    simp
  · rw [if_neg h, List.reverse_append]
    simp only [List.reverse_cons, List.reverse_nil, List.nil_append, List.singleton_append]
    rw [List.dropWhile_cons_of_pos hc]

theorem mem_erase (m : GoMap) (key : Str) (e : Str × Str) (h : e ∈ m.erase key) : e ∈ m := by
  induction m with
  | nil => simp [GoMap.erase] at h
  | cons x rest ih =>
    obtain ⟨k, v⟩ := x
    by_cases hk : k = key
    · simp only [GoMap.erase, hk, if_true] at h
      exact List.mem_cons_of_mem _ (ih h)
    · simp only [GoMap.erase, hk, if_false] at h
      rcases List.mem_cons.mp h with e1 | e1
      · rw [e1]; exact List.mem_cons_self _ _
      · exact List.mem_cons_of_mem _ (ih e1)

/-- The parser loop stores trimmed keys and trimmed values only. -/
theorem valuesLoop_trimmed (ls : List Str) (m m1 : GoMap)
    (hm : ∀ e ∈ m, isTrimmed e.1 = true ∧ isTrimmed e.2 = true)
    (h : valuesLoop ls m = .ok m1) :
    ∀ e ∈ m1, isTrimmed e.1 = true ∧ isTrimmed e.2 = true := by
  induction ls generalizing m with
  | nil =>
    simp only [valuesLoop, Except.ok.injEq] at h
    rw [← h]; exact hm
  | cons s rest ih =>
    rcases line_cases s with hs | ⟨k, v, hk, rfl⟩
    · rw [valuesLoop_no_eq s _ m hs] at h
      simp at h
    · by_cases hv : v = []
      · subst hv
        rw [valuesLoop_empty_value k _ m hk] at h
        simp at h
      · rw [valuesLoop_step k v rest m hk hv] at h
        apply ih _ _ h
        intro e he
        rcases List.mem_cons.mp he with e1 | e1
        · rw [e1]
          exact ⟨TrimSpace_isTrimmed k, TrimSpace_isTrimmed v⟩
        · exact hm e (mem_erase _ _ _ e1)

/-- C11: keys and values of a values file are whitespace-trimmed. Every key
and every value of a map returned by `valuesFromFile.values` is without
leading and trailing white space; and a line `k = v`, with spaces around the
`=`, is processed as the line `k=v` (no `=` in `k`, `v` not empty): the loop
body yields the same binding, and two files that differ in the form of that
line only are parsed to the same result. -/
theorem values_trimmed (vff : valuesFromFile) :
    (∀ m, vff.values = .ok m → ∀ e ∈ m, isTrimmed e.1 = true ∧ isTrimmed e.2 = true) ∧
    (∀ (k v : Str) (rest : List Str) (m : GoMap), '=' ∉ k → v ≠ [] →
      valuesLoop ((k ++ ' ' :: '=' :: ' ' :: v) :: rest) m =
        valuesLoop ((k ++ '=' :: v) :: rest) m) ∧
    (∀ (vff2 : valuesFromFile) (pre post : List Str) (k v : Str), '=' ∉ k → v ≠ [] →
      vff2.r.failed = vff.r.failed →
      scanLines vff.r.data = pre ++ (k ++ ' ' :: '=' :: ' ' :: v) :: post →
      scanLines vff2.r.data = pre ++ (k ++ '=' :: v) :: post →
      vff.values = vff2.values) := by
  have hstep : ∀ (k v : Str) (rest : List Str) (m : GoMap), '=' ∉ k → v ≠ [] →
      valuesLoop ((k ++ ' ' :: '=' :: ' ' :: v) :: rest) m =
        valuesLoop ((k ++ '=' :: v) :: rest) m := by
    intro k v rest m hk hv
    have hk2 : '=' ∉ k ++ [' '] := by
      intro h
      rcases List.mem_append.mp h with h1 | h1
      · exact hk h1
      · simp at h1
    have e : k ++ ' ' :: '=' :: ' ' :: v = (k ++ [' ']) ++ '=' :: (' ' :: v) := by simp
    rw [e, valuesLoop_step (k ++ [' ']) (' ' :: v) rest m hk2 (by simp),
      valuesLoop_step k v rest m hk hv,
      TrimSpace_trailing ' ' k (by decide), TrimSpace_leading ' ' v (by decide)]
  refine ⟨?_, hstep, ?_⟩
  · intro m hm
    unfold valuesFromFile.values at hm
    cases hl : valuesLoop (scanLines vff.r.data) [] with
    | error e => rw [hl] at hm; simp at hm
    | ok m1 =>
      rw [hl] at hm
      by_cases hf : vff.r.failed = true
      · simp [hf] at hm
      · simp [hf] at hm
        subst hm
        exact valuesLoop_trimmed _ _ _ (by simp) hl
  · intro vff2 pre post k v hk hv hfail h1 h2
    unfold valuesFromFile.values
    rw [h1, h2, hfail, valuesLoop_append, valuesLoop_append]
    cases valuesLoop pre [] with
    | error e => rfl
    | ok m1 =>
      simp only
      rw [hstep k v post m1 hk hv]

/-- Witness of C11: the files `key1 = value1` and `key1=value1` are parsed to
the same map, whose key and value are trimmed. -/
theorem values_trimmed_witness :
    (testFile " key1 = value1 \n").values = (testFile " key1=value1 \n").values ∧
    (testFile " key1 = value1 \n").values = .ok [("key1".toList, "value1".toList)] ∧
    ∀ e ∈ [("key1".toList, "value1".toList)], isTrimmed e.1 = true ∧ isTrimmed e.2 = true :=
  ⟨(values_trimmed (testFile " key1 = value1 \n")).2.2 (testFile " key1=value1 \n") [] []
      " key1".toList "value1 ".toList (by decide) (by decide) rfl (by decide) (by decide),
   by decide,
   (values_trimmed (testFile " key1 = value1 \n")).1 _ (by decide)⟩

/-! ## Line endings -/

theorem dropCR_cons (c : Char) (l : Str) (hc : c ≠ '\r') : dropCR (c :: l) = c :: dropCR l := by
  cases l with
  | nil => simp [dropCR, hc]
  | cons d rest => simp [dropCR]

theorem dropCR_no_cr (l : Str) (h : '\r' ∉ l) : dropCR l = l := by
  induction l with
  | nil => rfl
  | cons c rest ih =>
    have hc : c ≠ '\r' := fun e => h (by simp [e])
    rw [dropCR_cons c rest hc, ih (fun e => h (by simp [e]))]

/-! ## Lemmas: the scanner's buffer -/

theorem byteLen_append (a b : Str) : byteLen (a ++ b) = byteLen a + byteLen b := by
  induction a with
  | nil => simp [byteLen]
  | cons c cs ih => simp [byteLen, ih, Nat.add_assoc]

theorem byteLen_replicate (n : Nat) (c : Char) :
    byteLen (List.replicate n c) = n * RuneLen c := by
  induction n with
  | zero => simp [byteLen]
  | succ k ih => rw [List.replicate_succ, byteLen, ih, Nat.succ_mul, Nat.add_comm]

/-- A text is a single piece, or a first piece, a line feed and a rest. -/
theorem text_cases (s : Str) : '\n' ∉ s ∨ ∃ l rest, '\n' ∉ l ∧ s = l ++ '\n' :: rest := by
  induction s with
  | nil => exact Or.inl (by simp)
  | cons c cs ih =>
    by_cases hc : c = '\n'
    · exact Or.inr ⟨[], cs, by simp, by simp [hc]⟩
    · rcases ih with h | ⟨l, rest, hl, e⟩
      · left
        intro hm
        rcases List.mem_cons.mp hm with e | e
        · exact hc e.symm
        · exact h e
      · right
        refine ⟨c :: l, rest, ?_, by simp [e]⟩
        intro hm
        rcases List.mem_cons.mp hm with e2 | e2
        · exact hc e2.symm
        · exact hl e2

theorem rawLines_line (l rest : Str) (h : '\n' ∉ l) :
    rawLines (l ++ '\n' :: rest) = l :: rawLines rest := by
  induction l with
  | nil => simp [rawLines]
  | cons c cs ih =>
    have hc : c ≠ '\n' := fun e => h (by simp [e])
    have ih2 := ih (fun e => h (by simp [e]))
    rw [List.cons_append, rawLines]
    simp only [hc, if_false, ih2]

theorem rawLines_last (l : Str) (h : '\n' ∉ l) :
    rawLines l = if l = [] then [] else [l] := by
  induction l with
  | nil => rfl
  | cons c cs ih =>
    have hc : c ≠ '\n' := fun e => h (by simp [e])
    have ih2 := ih (fun e => h (by simp [e]))
    simp only [rawLines, hc, if_false, ih2]
    cases cs with
    | nil => rfl
    | cons d r => simp

theorem toCRLF_line (l rest : Str) (h : '\n' ∉ l) :
    toCRLF (l ++ '\n' :: rest) = l ++ '\r' :: '\n' :: toCRLF rest := by
  induction l with
  | nil => simp [toCRLF]
  | cons c cs ih =>
    have hc : c ≠ '\n' := fun e => h (by simp [e])
    have ih2 := ih (fun e => h (by simp [e]))
    rw [List.cons_append, toCRLF]
    simp only [hc, if_false, ih2, List.cons_append]

theorem toCRLF_last (l : Str) (h : '\n' ∉ l) : toCRLF l = l := by
  induction l with
  | nil => rfl
  | cons c cs ih =>
    have hc : c ≠ '\n' := fun e => h (by simp [e])
    have ih2 := ih (fun e => h (by simp [e]))
    simp only [toCRLF, hc, if_false, ih2]

theorem dropCR_append_cr (l : Str) : dropCR (l ++ ['\r']) = l := by
  induction l with
  | nil => rfl
  | cons c cs ih =>
    cases cs with
    | nil => rfl
    | cons d r =>
      have e : dropCR (c :: ((d :: r) ++ ['\r'])) = c :: dropCR ((d :: r) ++ ['\r']) := rfl
      rw [List.cons_append, e, ih]

/-- The pieces of the Windows form of a Unix text: every piece that a line
feed follows has a carriage return added. -/
theorem rawLines_toCRLF_line (l rest : Str) (h : '\n' ∉ l) :
    rawLines (toCRLF (l ++ '\n' :: rest)) = (l ++ ['\r']) :: rawLines (toCRLF rest) := by
  rw [toCRLF_line l rest h]
  have e : l ++ '\r' :: '\n' :: toCRLF rest = (l ++ ['\r']) ++ '\n' :: toCRLF rest := by simp
  rw [e]
  apply rawLines_line
  intro hm
  rcases List.mem_append.mp hm with h1 | h1
  · exact h h1
  · simp at h1

/-- When no line of a Unix text is one byte short of the buffer, the scanner
delivers the same lines for the text and for its Windows form, and meets a
line that does not fit on the one when it does on the other. -/
theorem scanner_toCRLF (data : Str) (h : '\r' ∉ data)
    (hlen : ∀ l ∈ rawLines data, byteLen l + 1 ≠ MaxScanTokenSize) :
    ((rawLines (toCRLF data)).takeWhile fits).map dropCR =
      ((rawLines data).takeWhile fits).map dropCR ∧
    (rawLines (toCRLF data)).all fits = (rawLines data).all fits := by
  generalize hn : data.length = n
  induction n using Nat.strong_induction_on generalizing data with
  | _ n ih =>
    rcases text_cases data with hl | ⟨l, rest, hl, e⟩
    · rw [toCRLF_last data hl]
      exact ⟨rfl, rfl⟩
    · subst e
      have hrest : '\r' ∉ rest := fun hm => h (by simp [hm])
      have hlcr : '\r' ∉ l := fun hm => h (by simp [hm])
      have hlines : rawLines (l ++ '\n' :: rest) = l :: rawLines rest := rawLines_line l rest hl
      rw [hlines] at hlen
      obtain ⟨ih1, ih2⟩ := ih rest.length (by rw [← hn]; simp; omega) rest hrest
        (fun x hx => hlen x (List.mem_cons_of_mem _ hx)) rfl
      have hfit : fits (l ++ ['\r']) = fits l := by
        have h1 := hlen l (List.mem_cons_self _ _)
        have h2 : byteLen (l ++ ['\r']) = byteLen l + 1 := by
          rw [byteLen_append]
          rfl
        unfold fits
        rw [h2]
        by_cases h3 : byteLen l < MaxScanTokenSize
        · have h4 : byteLen l + 1 < MaxScanTokenSize := by omega
          simp [h3, h4]
        · have h4 : ¬ byteLen l + 1 < MaxScanTokenSize := by omega
          simp [h3, h4]
      rw [rawLines_toCRLF_line l rest hl, hlines]
      refine ⟨?_, ?_⟩
      · rw [List.takeWhile_cons, List.takeWhile_cons, hfit]
        cases hf : fits l with
        | false => rfl
        | true =>
          simp only [if_true, List.map_cons]
          rw [ih1, dropCR_append_cr, dropCR_no_cr l hlcr]
      · rw [List.all_cons, List.all_cons, hfit, ih2]

/-! ## Line endings -/

theorem TrimSpace_replicate (n : Nat) (c : Char) (hc : isSpace c = false) :
    TrimSpace (List.replicate n c) = List.replicate n c := by
  cases n with
  | zero => rfl
  | succ k =>
    have e1 : (List.replicate (k + 1) c).dropWhile isSpace = List.replicate (k + 1) c := by
      rw [List.replicate_succ, List.dropWhile_cons, hc]
      rfl
    unfold TrimSpace
    rw [e1, List.reverse_replicate, e1, List.reverse_replicate]

/-- A file of one line that is one byte short of the buffer is parsed in its
Unix form, and its Windows form ends in the scanner's error. -/
theorem values_crlf_long (p : Prototype) (name l k v : Str) (hl : l = k ++ '=' :: v)
    (hk : '=' ∉ k) (hv : v ≠ []) (hn : '\n' ∉ l) (hr : '\r' ∉ l)
    (hlen : byteLen l + 1 = MaxScanTokenSize) :
    valuesFromFile.values ⟨p, name, ⟨l ++ ['\n'], false⟩⟩ =
      .ok [(TrimSpace k, TrimSpace v)] ∧
    valuesFromFile.values ⟨p, name, ⟨toCRLF (l ++ ['\n']), false⟩⟩ =
      .error (.scanningError .scanner) := by
  have h1 : rawLines (l ++ ['\n']) = [l] := by
    rw [rawLines_line l [] hn]
    rfl
  have h2 : rawLines (toCRLF (l ++ ['\n'])) = [l ++ ['\r']] := by
    rw [rawLines_toCRLF_line l [] hn]
    rfl
  have f1 : fits l = true := by
    unfold fits
    simp only [decide_eq_true_eq]
    omega
  have f2 : fits (l ++ ['\r']) = false := by
    have h3 : byteLen (l ++ ['\r']) = byteLen l + 1 := by
      rw [byteLen_append]
      rfl
    unfold fits
    rw [h3]
    simp only [decide_eq_false_iff_not]
    omega
  constructor
  · unfold valuesFromFile.values scanLines Reader.failed
    simp only [h1, List.takeWhile_cons, f1, if_true, List.takeWhile_nil, List.map_cons,
      List.map_nil, List.all_cons, List.all_nil, Bool.and_true, Bool.not_true, Bool.false_or]
    rw [dropCR_no_cr l hr, hl, valuesLoop_step k v [] [] hk hv]
    rfl
  · unfold valuesFromFile.values scanLines Reader.failed
    simp only [h2, List.takeWhile_cons, f2, List.map_nil, List.all_cons, Bool.false_and,
      Bool.not_false, Bool.true_or]
    rfl

/-- C12 (counterexample): the one-line file whose line, `k=` followed by
65533 times `v`, has 65535 bytes holds no carriage return. The parser
returns the map that binds `k` for this text, and the scanner's error for
the same text with `\n` replaced by `\r\n`: the line and its `\r` fill the
scanner's buffer before the `\n` is seen. -/
theorem values_crlf_counterexample :
    '\r' ∉ longLine ++ ['\n'] ∧
    byteLen longLine = 65535 ∧
    valuesFromFile.values ⟨testProto, "name".toList, ⟨longLine ++ ['\n'], false⟩⟩ =
      .ok [("k".toList, List.replicate 65533 'v')] ∧
    valuesFromFile.values ⟨testProto, "name".toList, ⟨toCRLF (longLine ++ ['\n']), false⟩⟩ =
      .error (.scanningError .scanner) := by
  have hv : ∀ c, c ∈ List.replicate 65533 'v' → c = 'v' := fun c hc => List.eq_of_mem_replicate hc
  have hmem : ∀ c, c ≠ 'k' → c ≠ '=' → c ≠ 'v' → c ∉ longLine := by
    intro c h1 h2 h3 hm
    unfold longLine at hm
    rcases List.mem_cons.mp hm with e | hm
    · exact h1 e
    · rcases List.mem_cons.mp hm with e | hm
      · exact h2 e
      · exact h3 (hv c hm)
  have hlen : byteLen longLine = 65535 := by
    unfold longLine
    rw [byteLen, byteLen, byteLen_replicate]
    decide
  have hne : List.replicate 65533 'v' ≠ [] := by
    intro e
    have := congrArg List.length e
    rw [List.length_replicate] at this
    exact absurd this (by decide)
  have hlong := values_crlf_long testProto "name".toList longLine ['k'] (List.replicate 65533 'v')
    rfl (by decide) hne (hmem _ (by decide) (by decide) (by decide))
    (hmem _ (by decide) (by decide) (by decide)) (by rw [hlen]; decide)
  rw [TrimSpace_replicate 65533 'v' (by decide)] at hlong
  refine ⟨?_, hlen, hlong.1, hlong.2⟩
  intro hm
  rcases List.mem_append.mp hm with h1 | h1
  · exact hmem _ (by decide) (by decide) (by decide) h1
  · simp at h1

/-- C12 (amended): Windows and Unix line endings are both accepted, up to the
size of the scanner's buffer. For a values-file text without a carriage
return in which no line is one byte short of the buffer (no line of 65535
bytes), the text and its form with every `\n` replaced by `\r\n` give the
scanner the same lines and the same final state, and `valuesFromFile.values`
returns the same result for both: the same map, or the same error for the
same line text. -/
theorem values_crlf (p : Prototype) (name data : Str) (readErr : Bool) (h : '\r' ∉ data)
    (hlen : ∀ l ∈ rawLines data, byteLen l + 1 ≠ MaxScanTokenSize) :
    scanLines (toCRLF data) = scanLines data ∧
    Reader.failed ⟨toCRLF data, readErr⟩ = Reader.failed ⟨data, readErr⟩ ∧
    valuesFromFile.values ⟨p, name, ⟨toCRLF data, readErr⟩⟩ =
      valuesFromFile.values ⟨p, name, ⟨data, readErr⟩⟩ := by
  obtain ⟨h1, h2⟩ := scanner_toCRLF data h hlen
  have e1 : scanLines (toCRLF data) = scanLines data := h1
  have e2 : Reader.failed ⟨toCRLF data, readErr⟩ = Reader.failed ⟨data, readErr⟩ := by
    unfold Reader.failed
    simp only [h2]
  refine ⟨e1, e2, ?_⟩
  unfold valuesFromFile.values
  simp only [e1, e2]

/-- Witness of C12 (amended) on a two-line file, and on a file with an invalid
line. -/
theorem values_crlf_witness :
    (testFile "key1=value1\r\nkey2=v\r\n").values = (testFile "key1=value1\nkey2=v\n").values ∧
    (testFile "key1=value1\r\nkey2\r\n").values = .error (.invalidLine "key2".toList) :=
  ⟨(values_crlf testProto "name".toList "key1=value1\nkey2=v\n".toList false (by decide)
      (by decide)).2.2,
   by decide⟩

/-! ## The order of the missing list -/

/-- C20 (counterexample): with every flag empty, the Flag Extractor reports
the missing parameters of the prototype `ba` as `b`, `a` and those of the
prototype `ab`, which declares the same two parameters in the other order, as
`a`, `b`: the order of the list follows the schema and is not sorted by
name. -/
theorem missing_order_counterexample :
    valuesFromFlags.Extract testQuote ⟨unsortedProto, ⟨[("a".toList, []), ("b".toList, [])]⟩⟩ =
      .error (.missingRequiredFlags "ba".toList
        [⟨"b".toList, .String, [], some "x".toList⟩,
          ⟨"a".toList, .String, [], some "y".toList⟩]) ∧
    valuesFromFlags.Extract testQuote ⟨sortedProto, ⟨[("a".toList, []), ("b".toList, [])]⟩⟩ =
      .error (.missingRequiredFlags "ab".toList
        [⟨"a".toList, .String, [], some "y".toList⟩,
          ⟨"b".toList, .String, [], some "x".toList⟩]) := by
  decide

/-- C20 (amended): the combined missing-parameters error of the Flag Extractor
lists the offending parameters in schema order: the list is the sublist of
the prototype's parameter list made of the parameters passed over (default
present, flag value empty), in the order of declaration, under the
prototype's name. The order is deterministic and follows the schema. -/
theorem missing_in_schema_order (Q : Quoter) (vff : valuesFromFlags) (pn : Str)
    (missing : List ParamSchema)
    (h : vff.Extract Q = .error (.missingRequiredFlags pn missing)) :
    missing = vff.p.Params.filter (skipped vff.flags) ∧
    List.Sublist missing vff.p.Params ∧ pn = vff.p.Name := by
  have hm := flagsExtract_missing Q vff pn missing h
  refine ⟨hm, by rw [hm]; exact List.filter_sublist _, ?_⟩
  unfold valuesFromFlags.Extract at h
  cases hl : extractFlagsLoop Q vff.p.Name vff.flags vff.p.Params [] [] with
  | error e =>
    rw [hl] at h
    simp only [Except.error.injEq] at h
    rcases flagsLoop_error_kind Q _ _ _ _ _ e hl with ⟨n, hn⟩ | ⟨n, hn⟩ | ⟨n, hn⟩ <;>
      (rw [hn] at h; simp at h)
  | ok r =>
    obtain ⟨v1, m1⟩ := r
    rw [hl] at h
    by_cases hlen : m1.length > 0
    · simp [hlen] at h
      exact h.1.symm
    · simp [hlen] at h

/-- Witness of C20 (amended) on the prototype `ba`. -/
theorem missing_in_schema_order_witness :
    [⟨"b".toList, .String, [], some "x".toList⟩, ⟨"a".toList, .String, [], some "y".toList⟩] =
      unsortedProto.Params.filter
        (skipped (⟨[("a".toList, []), ("b".toList, [])]⟩ : FlagSet)) :=
  (missing_in_schema_order testQuote
    ⟨unsortedProto, ⟨[("a".toList, []), ("b".toList, [])]⟩⟩ "ba".toList _ (by decide)).1

/-! ## The action `param set` -/

/-- C13: mutual exclusion at construction. When the option loader has
recorded no error, `NewParamSet` returns an error (and no `ParamSet`) exactly
when the environment name is not empty and the global flag is true; the error
is the one of the constructor, `RunParamSet` then stops there without a call
of `DecodeValue`, `setEnv`, `Namespace`, `ResolvePath` or `SetParam`; in every
other case the `ParamSet` is returned with the loaded options. -/
theorem NewParamSet_mutual_exclusion (DecodeValue : Str → Except Str Value) (Quote : Str → Str)
    (ol : optionLoader) (cm : Manager) (setEnv : App → Str → Str → Str → Str → Option Str)
    (h : ol.err = none) :
    ((∃ e, NewParamSet ol cm setEnv = .error e) ↔ (ol.envName ≠ [] ∧ ol.global = true)) ∧
    ((ol.envName ≠ [] ∧ ol.global = true) →
      NewParamSet ol cm setEnv = .error .globalForEnv ∧
      RunParamSet DecodeValue Quote ol cm setEnv = (some .globalForEnv, [])) ∧
    (¬ (ol.envName ≠ [] ∧ ol.global = true) →
      ∃ ps, NewParamSet ol cm setEnv = .ok ps ∧ ps.envName = ol.envName ∧
        ps.global = ol.global ∧ ps.name = ol.name ∧ ps.rawPath = ol.path ∧
        ps.rawValue = ol.value ∧ ps.index = ol.index) := by
  by_cases hc : ol.envName ≠ [] ∧ ol.global = true
  · have hnew : NewParamSet ol cm setEnv = .error .globalForEnv := by
      simp [NewParamSet, h, hc.1, hc.2]
    refine ⟨⟨fun _ => hc, fun _ => ⟨_, hnew⟩⟩, fun _ => ⟨hnew, ?_⟩, fun hn => absurd hc hn⟩
    simp [RunParamSet, hnew]
  · have hcond : (decide (ol.envName ≠ []) && ol.global) = false := by
      cases hg : ol.global with
      | false => simp
      | true =>
        have : ol.envName = [] := by
          by_contra hne
          exact hc ⟨hne, hg⟩
        simp [this]
    have hnew : NewParamSet ol cm setEnv =
        .ok { app := ol.app, name := ol.name, rawPath := ol.path, rawValue := ol.value,
              global := ol.global, envName := ol.envName, index := ol.index,
              cm := cm, setEnv := setEnv } := by
      simp only [NewParamSet, h, hcond]
      rfl
    refine ⟨⟨?_, fun hh => absurd hh hc⟩, fun hh => absurd hh hc, fun _ => ⟨_, hnew, rfl, rfl, rfl, rfl, rfl, rfl⟩⟩
    rintro ⟨e, he⟩
    rw [hnew] at he
    cases he

/-- Witness of C13: an environment name together with the global flag is
rejected before any call. -/
theorem NewParamSet_mutual_exclusion_witness :
    RunParamSet testDecode testGoQuote
      ⟨⟨0⟩, "deployment".toList, "spec.replicas".toList, "3".toList, true, "prod".toList, 0, none⟩
      testManager testSetEnv = (some .globalForEnv, []) :=
  ((NewParamSet_mutual_exclusion testDecode testGoQuote
    ⟨⟨0⟩, "deployment".toList, "spec.replicas".toList, "3".toList, true, "prod".toList, 0, none⟩
    testManager testSetEnv rfl).2.1 ⟨by decide, rfl⟩).2

/-- C14: quoting of the stored literal in the environment scope. For a raw
value that decodes, `Run` hands to `setEnv` the literal `strconv.Quote(raw)`
when the decoded value is a string and the raw value itself when it is a
number, a boolean, null or a structured literal; since `strconv.Quote` never
returns its argument (`hq`), the literal is the quoted form exactly when the
decoded value is a string. -/
theorem Run_env_literal (DecodeValue : Str → Except Str Value) (Quote : Str → Str)
    (ps : ParamSet) (value : Value)
    (hd : DecodeValue ps.rawValue = .ok value) (henv : ps.envName ≠ [])
    (hq : Quote ps.rawValue ≠ ps.rawValue) :
    ∃ literal,
      (ps.Run DecodeValue Quote).2 =
        [.DecodeValue ps.rawValue, .setEnv ps.app ps.envName ps.name ps.rawPath literal] ∧
      (literal = Quote ps.rawValue ↔ ∃ s, value = .string s) ∧
      (literal = ps.rawValue ↔ ¬ ∃ s, value = .string s) ∧
      ((∃ s, value = .string s) → (ps.Run DecodeValue Quote).2 =
        [.DecodeValue ps.rawValue,
          .setEnv ps.app ps.envName ps.name ps.rawPath (Quote ps.rawValue)]) ∧
      ((¬ ∃ s, value = .string s) → (ps.Run DecodeValue Quote).2 =
        [.DecodeValue ps.rawValue, .setEnv ps.app ps.envName ps.name ps.rawPath ps.rawValue]) := by
  have hlog : (ps.Run DecodeValue Quote).2 =
      [.DecodeValue ps.rawValue, .setEnv ps.app ps.envName ps.name ps.rawPath
        (if value.isString then Quote ps.rawValue else ps.rawValue)] := by
    simp [ParamSet.Run, hd, henv]
  cases value with
  | string s =>
    have hs : (Value.string s).isString = true := rfl
    rw [hs] at hlog
    simp only [if_true] at hlog
    refine ⟨Quote ps.rawValue, hlog, ?_, ?_, fun _ => hlog, ?_⟩
    · exact ⟨fun _ => ⟨s, rfl⟩, fun _ => rfl⟩
    · exact ⟨fun e => absurd e hq, fun hn => absurd ⟨s, rfl⟩ hn⟩
    · exact fun hn => absurd ⟨s, rfl⟩ hn
  | number n =>
    have hs : (Value.number n).isString = false := rfl
    rw [hs] at hlog
    simp only [Bool.false_eq_true, if_false] at hlog
    refine ⟨ps.rawValue, hlog, ?_, ?_, ?_, fun _ => hlog⟩
    · exact ⟨fun e => absurd e.symm hq, fun ⟨s, e⟩ => by cases e⟩
    · exact ⟨fun _ ⟨s, e⟩ => (by cases e), fun _ => rfl⟩
    · exact fun ⟨s, e⟩ => by cases e
  | boolean b =>
    have hs : (Value.boolean b).isString = false := rfl
    rw [hs] at hlog
    simp only [Bool.false_eq_true, if_false] at hlog
    refine ⟨ps.rawValue, hlog, ?_, ?_, ?_, fun _ => hlog⟩
    · exact ⟨fun e => absurd e.symm hq, fun ⟨s, e⟩ => by cases e⟩
    · exact ⟨fun _ ⟨s, e⟩ => (by cases e), fun _ => rfl⟩
    · exact fun ⟨s, e⟩ => by cases e
  | null =>
    have hs : Value.null.isString = false := rfl
    rw [hs] at hlog
    simp only [Bool.false_eq_true, if_false] at hlog
    refine ⟨ps.rawValue, hlog, ?_, ?_, ?_, fun _ => hlog⟩
    · exact ⟨fun e => absurd e.symm hq, fun ⟨s, e⟩ => by cases e⟩
    · exact ⟨fun _ ⟨s, e⟩ => (by cases e), fun _ => rfl⟩
    · exact fun ⟨s, e⟩ => by cases e
  | structured l =>
    have hs : (Value.structured l).isString = false := rfl
    rw [hs] at hlog
    simp only [Bool.false_eq_true, if_false] at hlog
    refine ⟨ps.rawValue, hlog, ?_, ?_, ?_, fun _ => hlog⟩
    · exact ⟨fun e => absurd e.symm hq, fun ⟨s, e⟩ => by cases e⟩
    · exact ⟨fun _ ⟨s, e⟩ => (by cases e), fun _ => rfl⟩
    · exact fun ⟨s, e⟩ => by cases e

/-- Witness of C14: `foo` decodes to a string and is stored as `"foo"`, `3`
decodes to a number and is stored as `3`. -/
theorem Run_env_literal_witness :
    testDecode "foo".toList = .ok (.string "foo".toList) ∧
    ((testParamSet "deployment" "replicas" "foo" "prod" false).Run testDecode testGoQuote).2 =
      [.DecodeValue "foo".toList,
        .setEnv ⟨0⟩ "prod".toList "deployment".toList "replicas".toList
          ([dquote] ++ "foo".toList ++ [dquote])] ∧
    testDecode "3".toList = .ok (.number "3".toList) ∧
    ((testParamSet "deployment" "replicas" "3" "prod" false).Run testDecode testGoQuote).2 =
      [.DecodeValue "3".toList,
        .setEnv ⟨0⟩ "prod".toList "deployment".toList "replicas".toList "3".toList] := by
  obtain ⟨_, _, _, _, h1, _⟩ := Run_env_literal testDecode testGoQuote
    (testParamSet "deployment" "replicas" "foo" "prod" false)
    (.string "foo".toList) (by decide) (by decide) (by decide)
  obtain ⟨_, _, _, _, _, h2⟩ := Run_env_literal testDecode testGoQuote
    (testParamSet "deployment" "replicas" "3" "prod" false)
    (.number "3".toList) (by decide) (by decide) (by decide)
  exact ⟨by decide, h1 ⟨_, rfl⟩, by decide, h2 (fun ⟨s, e⟩ => by cases e)⟩

/-- C15: scope dispatch in `Run`. For a raw value that decodes to `value`,
exactly one mutation path runs. With an environment name: `setEnv` alone,
with the raw path unsplit as the parameter name. Otherwise, with the global
flag: `Namespace` by name, then (when it is found) its `SetParam` with the
path split on `.`. Otherwise: `ResolvePath` by name, then (when it is found)
the component's `SetParam` with the split path and the index option. Only
the local path carries the index. -/
theorem Run_dispatch (DecodeValue : Str → Except Str Value) (Quote : Str → Str)
    (ps : ParamSet) (value : Value) (hd : DecodeValue ps.rawValue = .ok value) :
    (ps.envName ≠ [] →
      (ps.Run DecodeValue Quote).2 =
        [.DecodeValue ps.rawValue,
          .setEnv ps.app ps.envName ps.name ps.rawPath
            (if value.isString then Quote ps.rawValue else ps.rawValue)]) ∧
    (ps.envName = [] → ps.global = true →
      (ps.Run DecodeValue Quote).2 =
        .DecodeValue ps.rawValue :: .Namespace ps.app ps.name ::
          (match ps.cm.Namespace ps.app ps.name with
            | .ok ns => [.NamespaceSetParam ns.id (Split '.' ps.rawPath) value]
            | .error _ => [])) ∧
    (ps.envName = [] → ps.global = false →
      (ps.Run DecodeValue Quote).2 =
        .DecodeValue ps.rawValue :: .ResolvePath ps.app ps.name ::
          (match ps.cm.ResolvePath ps.app ps.name with
            | .ok (_, c) =>
              [.ComponentSetParam c.id (Split '.' ps.rawPath) value { Index := ps.index }]
            | .error _ => [])) := by
  refine ⟨?_, ?_, ?_⟩
  · intro henv
    simp [ParamSet.Run, hd, henv]
  · intro henv hg
    simp only [ParamSet.Run, hd, henv, hg, ParamSet.setGlobal, ne_eq, not_true_eq_false,
      if_false, if_true]
    cases hn : ps.cm.Namespace ps.app ps.name with
    | error e => rfl
    | ok ns =>
      simp only
      cases ns.SetParam (Split '.' ps.rawPath) value <;> rfl
  · intro henv hg
    simp only [ParamSet.Run, hd, henv, hg, ParamSet.setLocal, ne_eq, not_true_eq_false,
      if_false, Bool.false_eq_true]
    cases hn : ps.cm.ResolvePath ps.app ps.name with
    | error e => rfl
    | ok r =>
      obtain ⟨m, c⟩ := r
      simp only
      cases c.SetParam (Split '.' ps.rawPath) value { Index := ps.index } <;> rfl

/-- Witness of C15: the three scopes on the fixtures. -/
theorem Run_dispatch_witness :
    ((testParamSet "deployment" "spec.replicas" "3" "prod" false).Run testDecode testGoQuote).2 =
      [.DecodeValue "3".toList,
        .setEnv ⟨0⟩ "prod".toList "deployment".toList "spec.replicas".toList "3".toList] ∧
    ((testParamSet "/" "spec.replicas" "3" "" true).Run testDecode testGoQuote).2 =
      [.DecodeValue "3".toList, .Namespace ⟨0⟩ "/".toList,
        .NamespaceSetParam "/".toList ["spec".toList, "replicas".toList]
          (.number "3".toList)] ∧
    ((testParamSet "deployment" "spec.replicas" "3" "" false).Run testDecode testGoQuote).2 =
      [.DecodeValue "3".toList, .ResolvePath ⟨0⟩ "deployment".toList,
        .ComponentSetParam "deployment".toList ["spec".toList, "replicas".toList]
          (.number "3".toList) { Index := 0 }] :=
  ⟨(Run_dispatch testDecode testGoQuote (testParamSet "deployment" "spec.replicas" "3" "prod" false)
      (.number "3".toList) (by decide)).1 (by decide),
   (Run_dispatch testDecode testGoQuote (testParamSet "/" "spec.replicas" "3" "" true)
      (.number "3".toList) (by decide)).2.1 rfl rfl,
   (Run_dispatch testDecode testGoQuote (testParamSet "deployment" "spec.replicas" "3" "" false)
      (.number "3".toList) (by decide)).2.2 rfl rfl⟩

/-- C16: decoding precedes storage. When `DecodeValue` fails on the raw value,
`Run` returns that error wrapped as "value is invalid", in every scope, and
its only call is the one of `DecodeValue`: neither `setEnv` nor `Namespace`,
`ResolvePath` or `SetParam` is invoked. -/
theorem Run_decode_failure (DecodeValue : Str → Except Str Value) (Quote : Str → Str)
    (ps : ParamSet) (e : Str) (hd : DecodeValue ps.rawValue = .error e) :
    ps.Run DecodeValue Quote = (some (.valueInvalid e), [.DecodeValue ps.rawValue]) := by
  simp [ParamSet.Run, hd]

/-- Witness of C16: the blank value is rejected before any lookup. -/
theorem Run_decode_failure_witness :
    (testParamSet "deployment" "spec.replicas" "" "" false).Run testDecode testGoQuote =
      (some (.valueInvalid "value was blank".toList), [.DecodeValue []]) :=
  Run_decode_failure testDecode testGoQuote
    (testParamSet "deployment" "spec.replicas" "" "" false) "value was blank".toList (by decide)

/-- C17 (counterexample): the component `deployment` is resolved and has no
path `spec.missing`; the failure of its `SetParam` is returned with the wrap
"set param" of the set stage, not with the wrap "could not find component" of
the lookup stage. -/
theorem Run_missing_segment_counterexample :
    (testParamSet "deployment" "spec.missing" "3" "" false).Run testDecode testGoQuote =
      (some (.setParam "path segment not found".toList),
        [.DecodeValue "3".toList, .ResolvePath ⟨0⟩ "deployment".toList,
          .ComponentSetParam "deployment".toList ["spec".toList, "missing".toList]
            (.number "3".toList) { Index := 0 }]) ∧
    ((testParamSet "deployment" "spec.missing" "3" "" false).Run testDecode testGoQuote).1 ≠
      some (.couldNotFindComponent "path segment not found".toList) := by
  decide

/-- C17 (amended): the failure stages of `Run` are distinct. The returned
error is the decode wrap exactly when decoding failed. In the local and the
global scope it is the lookup wrap ("could not find component", "retrieve
namespace") exactly when the resolver failed, and then `SetParam` is not
called; it is the set wrap ("set param", "set global param") exactly when the
resolver succeeded and `SetParam` failed, which is how a missing path segment
of a resolved component is reported: with the error of `SetParam` under the
set wrap, neither as a lookup wrap nor as a decode wrap. -/
theorem Run_failure_stages (DecodeValue : Str → Except Str Value) (Quote : Str → Str)
    (ps : ParamSet) (e : Str) :
    ((ps.Run DecodeValue Quote).1 = some (.valueInvalid e) ↔
      DecodeValue ps.rawValue = .error e) ∧
    ((ps.Run DecodeValue Quote).1 = some (.couldNotFindComponent e) ↔
      ∃ value, DecodeValue ps.rawValue = .ok value ∧ ps.envName = [] ∧ ps.global = false ∧
        ps.cm.ResolvePath ps.app ps.name = .error e) ∧
    ((ps.Run DecodeValue Quote).1 = some (.setParam e) ↔
      ∃ value m c, DecodeValue ps.rawValue = .ok value ∧ ps.envName = [] ∧ ps.global = false ∧
        ps.cm.ResolvePath ps.app ps.name = .ok (m, c) ∧
        c.SetParam (Split '.' ps.rawPath) value { Index := ps.index } = some e) ∧
    ((ps.Run DecodeValue Quote).1 = some (.retrieveNamespace e) ↔
      ∃ value, DecodeValue ps.rawValue = .ok value ∧ ps.envName = [] ∧ ps.global = true ∧
        ps.cm.Namespace ps.app ps.name = .error e) ∧
    ((ps.Run DecodeValue Quote).1 = some (.setGlobalParam e) ↔
      ∃ value ns, DecodeValue ps.rawValue = .ok value ∧ ps.envName = [] ∧ ps.global = true ∧
        ps.cm.Namespace ps.app ps.name = .ok ns ∧
        ns.SetParam (Split '.' ps.rawPath) value = some e) ∧
    (ps.cm.ResolvePath ps.app ps.name = .error e → ps.envName = [] → ps.global = false →
      ∀ c path value options, Call.ComponentSetParam c path value options ∉
        (ps.Run DecodeValue Quote).2) ∧
    (ps.cm.Namespace ps.app ps.name = .error e → ps.envName = [] → ps.global = true →
      ∀ ns path value, Call.NamespaceSetParam ns path value ∉ (ps.Run DecodeValue Quote).2) := by
  cases hd : DecodeValue ps.rawValue with
  | error e0 =>
    simp [ParamSet.Run, hd]
  | ok value =>
    by_cases henv : ps.envName = []
    · cases hg : ps.global with
      | false =>
        cases hr : ps.cm.ResolvePath ps.app ps.name with
        | error e1 => simp [ParamSet.Run, ParamSet.setLocal, hd, henv, hg, hr]
        | ok r =>
          obtain ⟨m, c⟩ := r
          cases hs : c.SetParam (Split '.' ps.rawPath) value { Index := ps.index } with
          | none => simp [ParamSet.Run, ParamSet.setLocal, hd, henv, hg, hr, hs]
          | some e1 =>
            simp [ParamSet.Run, ParamSet.setLocal, hd, henv, hg, hr, hs]
            constructor
            · intro h1
              exact ⟨m, c, ⟨rfl, rfl⟩, by rw [hs, h1]⟩
            · rintro ⟨m2, c2, ⟨h1, h2⟩, h3⟩
              subst h2
              rw [hs] at h3
              exact Option.some.inj h3
      | true =>
        cases hr : ps.cm.Namespace ps.app ps.name with
        | error e1 => simp [ParamSet.Run, ParamSet.setGlobal, hd, henv, hg, hr]
        | ok ns =>
          cases hs : ns.SetParam (Split '.' ps.rawPath) value with
          | none => simp [ParamSet.Run, ParamSet.setGlobal, hd, henv, hg, hr, hs]
          | some e1 => simp [ParamSet.Run, ParamSet.setGlobal, hd, henv, hg, hr, hs]
    · cases hs : ps.setEnv ps.app ps.envName ps.name ps.rawPath
          (if value.isString then Quote ps.rawValue else ps.rawValue) with
      | none => simp [ParamSet.Run, hd, henv, hs]
      | some e1 => simp [ParamSet.Run, hd, henv, hs]

/-- Witness of C17 (amended): a missing path segment of the resolved component
`deployment` comes back under the set wrap, and for the unknown component
`nope` the lookup fails and `SetParam` is not called. -/
theorem Run_failure_stages_witness :
    ((testParamSet "deployment" "spec.missing" "3" "" false).Run testDecode testGoQuote).1 =
      some (.setParam "path segment not found".toList) ∧
    (∀ c path value options, Call.ComponentSetParam c path value options ∉
      ((testParamSet "nope" "spec.replicas" "3" "" false).Run testDecode testGoQuote).2) :=
  ⟨(Run_failure_stages testDecode testGoQuote
      (testParamSet "deployment" "spec.missing" "3" "" false)
      "path segment not found".toList).2.2.1.mpr
      ⟨.number "3".toList, [], testComponent, by decide, rfl, rfl, rfl, by decide⟩,
   (Run_failure_stages testDecode testGoQuote
      (testParamSet "nope" "spec.replicas" "3" "" false)
      "component not found".toList).2.2.2.2.2.1 rfl rfl rfl⟩

/-! ## The action `prototype use` -/

/-- C19: `detectTemplate` reads the positional arguments (prototype name
first) as `componentName [templateType]`. It succeeds exactly when there are
two arguments, with the second one and the type Jsonnet, or three arguments
whose third `ParseTemplateType` accepts, with the second one and that type.
One argument gives the missing-componentName error, three arguments with a
third that `ParseTemplateType` rejects give the parser's error, and no
argument or more than three give the too-many-arguments error. -/
theorem detectTemplate_cases (d : UseDeps) (args : List Str) :
    ((∃ r, detectTemplate d args = .ok r) ↔
      (args.length = 2 ∨
        (args.length = 3 ∧ ∃ tt, d.ParseTemplateType (args.getD 2 []) = .ok tt))) ∧
    (args.length = 2 → detectTemplate d args = .ok (args.getD 1 [], d.Jsonnet)) ∧
    (args.length = 3 → ∀ tt, d.ParseTemplateType (args.getD 2 []) = .ok tt →
      detectTemplate d args = .ok (args.getD 1 [], tt)) ∧
    (args.length = 1 → detectTemplate d args = .error .missingComponentName) ∧
    (args.length = 3 → ∀ e, d.ParseTemplateType (args.getD 2 []) = .error e →
      detectTemplate d args = .error (.collaborator e)) ∧
    (args.length = 0 ∨ args.length > 3 → detectTemplate d args = .error .tooManyArguments) := by
  rcases args with _ | ⟨a, _ | ⟨b, _ | ⟨c, _ | ⟨x, rest⟩⟩⟩⟩
  · simp [detectTemplate]
  · simp [detectTemplate]
  · simp [detectTemplate]
  · cases hp : d.ParseTemplateType c with
    | error e => simp [detectTemplate, hp]
    | ok tt => simp [detectTemplate, hp]
  · simp [detectTemplate]

/-- Witness of C19 on the command lines of one to four positional
arguments. -/
theorem detectTemplate_cases_witness :
    detectTemplate testDeps ["p".toList, "c".toList] = .ok ("c".toList, "jsonnet".toList) ∧
    detectTemplate testDeps ["p".toList, "c".toList, "yaml".toList] =
      .ok ("c".toList, "yaml".toList) ∧
    detectTemplate testDeps ["p".toList] = .error .missingComponentName ∧
    detectTemplate testDeps ["p".toList, "c".toList, "toml".toList] =
      .error (.collaborator "unrecognized template type".toList) ∧
    detectTemplate testDeps ["p".toList, "c".toList, "yaml".toList, "x".toList] =
      .error .tooManyArguments :=
  ⟨(detectTemplate_cases testDeps ["p".toList, "c".toList]).2.1 rfl,
   (detectTemplate_cases testDeps ["p".toList, "c".toList, "yaml".toList]).2.2.1 rfl
     "yaml".toList (by decide),
   (detectTemplate_cases testDeps ["p".toList]).2.2.2.1 rfl,
   (detectTemplate_cases testDeps ["p".toList, "c".toList, "toml".toList]).2.2.2.2.1 rfl
     "unrecognized template type".toList (by decide),
   (detectTemplate_cases testDeps ["p".toList, "c".toList, "yaml".toList, "x".toList]).2.2.2.2.2
     (Or.inr (by decide))⟩

theorem copyParams_find (m : GoMap) (key : Str) : (copyParams m).find key = m.find key := by
  induction m with
  | nil => rfl
  | cons e rest ih =>
    obtain ⟨k, v⟩ := e
    have hc : copyParams ((k, v) :: rest) = (copyParams rest).set k v := rfl
    rw [hc]
    by_cases hk : k = key
    · subst hk
      rw [find_set_same]
      simp [GoMap.find]
    · rw [find_set_other _ _ _ _ hk, ih]
      simp [GoMap.find, hk]

theorem detectTemplate_name (d : UseDeps) (args : List Str) (componentName : Str)
    (templateType : TemplateType) (h : detectTemplate d args = .ok (componentName, templateType)) :
    componentName = args.getD 1 [] := by
  rcases args with _ | ⟨a, _ | ⟨b, _ | ⟨c, _ | ⟨x, rest⟩⟩⟩⟩
  · simp [detectTemplate] at h
  · simp [detectTemplate] at h
  · simp [detectTemplate] at h
    simp [h.1]
  · cases hp : d.ParseTemplateType c with
    | error e => simp [detectTemplate, hp] at h
    | ok tt =>
      simp [detectTemplate, hp] at h
      simp [h.1]
  · simp [detectTemplate] at h

/-- C18: `PrototypeUse.Run` invokes component creation exactly once, with the
resolver's values. When prototype lookup, flag binding and parsing, argument
detection, the read of the `name` flag, the value resolver and prototype
expansion all succeed, `createComponentFn` is called exactly once: with the
positional component name, the expanded text, the detected template type and
a parameter map with the same keys and values as the resolver's map. And
every call of `createComponentFn` is that single call of a run in which all
these steps succeeded: when an earlier step fails, it is never called. -/
theorem Run_creates_once (d : UseDeps) (pl : PrototypeUse) :
    (∀ prototypes index listed query rest p bound flags args componentName templateType
        name rawParams text,
      d.allPrototypes pl.app = .ok prototypes → d.NewIndex prototypes = .ok index →
      d.IndexList index = .ok listed → pl.args = query :: rest →
      d.findUniquePrototype query listed = .ok p → BindFlags p = .ok bound →
      d.Parse bound pl.args = .ok (flags, args) →
      detectTemplate d args = .ok (componentName, templateType) →
      flags.GetString "name".toList = .ok name →
      pl.protoValuesFn (d.appFs pl.app) (some p)
        (some (if name = [] then
          (match flags.Set "name".toList componentName with
            | .ok flags1 => flags1
            | .error _ => flags)
          else flags)) = .ok rawParams →
      d.expandPrototype p templateType rawParams
        (d.ExtractModuleComponent pl.app componentName).2 = .ok text →
      ∃ ps, (pl.Run d).2 = [⟨pl.app, componentName, text, ps, templateType⟩] ∧
        (∀ key, ps.find key = rawParams.find key) ∧ componentName = args.getD 1 []) ∧
    (∀ c ∈ (pl.Run d).2, (pl.Run d).2 = [c] ∧
      ∃ prototypes index listed query rest p bound flags args name rawParams,
        d.allPrototypes pl.app = .ok prototypes ∧ d.NewIndex prototypes = .ok index ∧
        d.IndexList index = .ok listed ∧ pl.args = query :: rest ∧
        d.findUniquePrototype query listed = .ok p ∧ BindFlags p = .ok bound ∧
        d.Parse bound pl.args = .ok (flags, args) ∧
        detectTemplate d args = .ok (c.name, c.template) ∧
        flags.GetString "name".toList = .ok name ∧
        pl.protoValuesFn (d.appFs pl.app) (some p)
          (some (if name = [] then
            (match flags.Set "name".toList c.name with
              | .ok flags1 => flags1
              | .error _ => flags)
            else flags)) = .ok rawParams ∧
        d.expandPrototype p c.template rawParams
          (d.ExtractModuleComponent pl.app c.name).2 = .ok c.text ∧
        (∀ key, c.params.find key = rawParams.find key) ∧ c.app = pl.app) := by
  have hchain : ∀ prototypes index listed query rest p bound flags args componentName
      templateType name rawParams text,
      d.allPrototypes pl.app = .ok prototypes → d.NewIndex prototypes = .ok index →
      d.IndexList index = .ok listed → pl.args = query :: rest →
      d.findUniquePrototype query listed = .ok p → BindFlags p = .ok bound →
      d.Parse bound pl.args = .ok (flags, args) →
      detectTemplate d args = .ok (componentName, templateType) →
      flags.GetString "name".toList = .ok name →
      pl.protoValuesFn (d.appFs pl.app) (some p)
        (some (if name = [] then
          (match flags.Set "name".toList componentName with
            | .ok flags1 => flags1
            | .error _ => flags)
          else flags)) = .ok rawParams →
      d.expandPrototype p templateType rawParams
        (d.ExtractModuleComponent pl.app componentName).2 = .ok text →
      (pl.Run d).2 = [⟨pl.app, componentName, text, copyParams rawParams, templateType⟩] := by
    intro prototypes index listed query rest p bound flags args componentName templateType
      name rawParams text h1 h2 h3 h4 h5 h6 h7 h8 h9 h10 h11
    rw [h4] at h7
    simp only [PrototypeUse.Run, h1, h2, h3, h4, h5, h6, h7, h8, h9, h10, h11]
    cases pl.createComponentFn pl.app componentName text (copyParams rawParams) templateType <;>
      rfl
  constructor
  · intro prototypes index listed query rest p bound flags args componentName templateType
      name rawParams text h1 h2 h3 h4 h5 h6 h7 h8 h9 h10 h11
    exact ⟨copyParams rawParams,
      hchain _ _ _ _ _ _ _ _ _ _ _ _ _ _ h1 h2 h3 h4 h5 h6 h7 h8 h9 h10 h11,
      copyParams_find rawParams, detectTemplate_name d args _ _ h8⟩
  · intro c hc
    cases h1 : d.allPrototypes pl.app with
    | error e =>
      have ht : (pl.Run d).2 = [] := by simp only [PrototypeUse.Run, h1]
      rw [ht] at hc; cases hc
    | ok prototypes =>
    cases h2 : d.NewIndex prototypes with
    | error e =>
      have ht : (pl.Run d).2 = [] := by simp only [PrototypeUse.Run, h1, h2]
      rw [ht] at hc; cases hc
    | ok index =>
    cases h3 : d.IndexList index with
    | error e =>
      have ht : (pl.Run d).2 = [] := by simp only [PrototypeUse.Run, h1, h2, h3]
      rw [ht] at hc; cases hc
    | ok listed =>
    cases h4 : pl.args with
    | nil =>
      have ht : (pl.Run d).2 = [] := by simp only [PrototypeUse.Run, h1, h2, h3, h4]
      rw [ht] at hc; cases hc
    | cons query rest =>
    cases h5 : d.findUniquePrototype query listed with
    | error e =>
      have ht : (pl.Run d).2 = [] := by simp only [PrototypeUse.Run, h1, h2, h3, h4, h5]
      rw [ht] at hc; cases hc
    | ok p =>
    cases h6 : BindFlags p with
    | error e =>
      have ht : (pl.Run d).2 = [] := by simp only [PrototypeUse.Run, h1, h2, h3, h4, h5, h6]
      rw [ht] at hc; cases hc
    | ok bound =>
    cases h7 : d.Parse bound (query :: rest) with
    | error e =>
      have ht : (pl.Run d).2 = [] := by
        simp only [PrototypeUse.Run, h1, h2, h3, h4, h5, h6, h7]
        split <;> rfl
      rw [ht] at hc; cases hc
    | ok r =>
    obtain ⟨flags, args⟩ := r
    cases h8 : detectTemplate d args with
    | error e =>
      have ht : (pl.Run d).2 = [] := by
        simp only [PrototypeUse.Run, h1, h2, h3, h4, h5, h6, h7, h8]
      rw [ht] at hc; cases hc
    | ok r2 =>
    obtain ⟨componentName, templateType⟩ := r2
    cases h9 : flags.GetString "name".toList with
    | error e =>
      have ht : (pl.Run d).2 = [] := by
        simp only [PrototypeUse.Run, h1, h2, h3, h4, h5, h6, h7, h8, h9]
      rw [ht] at hc; cases hc
    | ok name =>
    cases h10 : pl.protoValuesFn (d.appFs pl.app) (some p)
        (some (if name = [] then
          (match flags.Set "name".toList componentName with
            | .ok flags1 => flags1
            | .error _ => flags)
          else flags)) with
    | error e =>
      have ht : (pl.Run d).2 = [] := by
        simp only [PrototypeUse.Run, h1, h2, h3, h4, h5, h6, h7, h8, h9, h10]
      rw [ht] at hc; cases hc
    | ok rawParams =>
    cases h11 : d.expandPrototype p templateType rawParams
        (d.ExtractModuleComponent pl.app componentName).2 with
    | error e =>
      have ht : (pl.Run d).2 = [] := by
        simp only [PrototypeUse.Run, h1, h2, h3, h4, h5, h6, h7, h8, h9, h10, h11]
      rw [ht] at hc; cases hc
    | ok text =>
    have h7b : d.Parse bound pl.args = .ok (flags, args) := by rw [h4]; exact h7
    have ht := hchain _ _ _ _ _ _ _ _ _ _ _ _ _ _ h1 h2 h3 h4 h5 h6 h7b h8 h9 h10 h11
    rw [ht] at hc
    simp only [List.mem_singleton] at hc
    subst hc
    exact ⟨ht, prototypes, index, listed, query, rest, p, bound, flags, args, name, rawParams,
      rfl, h2, h3, rfl, h5, h6, h7, h8, h9, h10, h11, copyParams_find rawParams, rfl⟩

/-- Witness of C18: the command line of `TestPrototypeUse`; component creation
is called once, for `myDeployment`, with the quoted parameters the test
expects and the template type Jsonnet. -/
theorem Run_creates_once_witness :
    ∃ ps,
      ((testUse ["single-port-deployment", "myDeployment", "--name", "myDeployment",
          "--image", "nginx", "--containerPort", "80"]).Run testDeps).2 =
        [⟨⟨0⟩, "myDeployment".toList, "text".toList, ps, "jsonnet".toList⟩] ∧
      ps.find "name".toList = some ([dquote] ++ "myDeployment".toList ++ [dquote]) ∧
      ps.find "image".toList = some ([dquote] ++ "nginx".toList ++ [dquote]) ∧
      ps.find "replicas".toList = some "1".toList ∧
      ps.find "containerPort".toList = some "80".toList := by
  obtain ⟨ps, h1, h2, _⟩ := (Run_creates_once testDeps
    (testUse ["single-port-deployment", "myDeployment", "--name", "myDeployment",
      "--image", "nginx", "--containerPort", "80"])).1
    [deploymentProto] [deploymentProto] [deploymentProto]
    "single-port-deployment".toList
    ["myDeployment".toList, "--name".toList, "myDeployment".toList, "--image".toList,
      "nginx".toList, "--containerPort".toList, "80".toList]
    deploymentProto
    ⟨[("replicas".toList, "1".toList), ("containerPort".toList, []), ("image".toList, []),
      ("name".toList, []), ("values-file".toList, [])]⟩
    ⟨[("containerPort".toList, "80".toList), ("image".toList, "nginx".toList),
      ("name".toList, "myDeployment".toList), ("replicas".toList, "1".toList),
      ("values-file".toList, [])]⟩
    ["single-port-deployment".toList, "myDeployment".toList]
    "myDeployment".toList "jsonnet".toList "myDeployment".toList
    [("containerPort".toList, "80".toList), ("replicas".toList, "1".toList),
      ("image".toList, [dquote] ++ "nginx".toList ++ [dquote]),
      ("name".toList, [dquote] ++ "myDeployment".toList ++ [dquote])]
    "text".toList
    rfl rfl rfl rfl (by decide) (by decide) (by decide) (by decide) (by decide) (by decide) rfl
  refine ⟨ps, h1, ?_, ?_, ?_, ?_⟩
  · rw [h2]; decide
  · rw [h2]; decide
  · rw [h2]; decide
  · rw [h2]; decide

/-! ## Missing inputs -/

/-- C21: `Values` rejects missing inputs before reading anything. With a nil
prototype it returns the error "prototype is required" and no map, for every
file system and flag set; with a nil flag set it returns "flags is required"
and no map, for every prototype; and with a `values-file` flag that is not
empty and an empty `name` flag it returns an error and no map without handing
a path to `Open`: "name is required" for a file system, "fs is required" for
a nil one. -/
theorem Values_missing_inputs (Q : Quoter) (fs : Option Fs) (p : Prototype) (flags : FlagSet)
    (valuesFile : Str)
    (hvf : flags.GetString OptionValuesFile = .ok valuesFile) (hne : valuesFile ≠ [])
    (hname : flags.GetString "name".toList = .ok []) :
    (∀ (fs1 : Option Fs) (flags1 : Option FlagSet),
      Values Q fs1 none flags1 = (.error .prototypeRequired, [])) ∧
    (∀ (fs1 : Option Fs) (p1 : Prototype),
      Values Q fs1 (some p1) none = (.error .flagsRequired, [])) ∧
    (∀ f : Fs, Values Q (some f) (some p) (some flags) = (.error .nameRequired, [])) ∧
    Values Q none (some p) (some flags) = (.error .fsRequired, []) ∧
    (∃ e, Values Q fs (some p) (some flags) = (.error e, [])) := by
  have h1 : ∀ f : Fs, Values Q (some f) (some p) (some flags) = (.error .nameRequired, []) := by
    intro f
    simp only [Values, hvf, hname, hne, ne_eq, not_false_eq_true, if_true, newValuesFromFile]
  have h2 : Values Q none (some p) (some flags) = (.error .fsRequired, []) := by
    simp only [Values, hvf, hname, hne, ne_eq, not_false_eq_true, if_true, newValuesFromFile]
  refine ⟨fun _ _ => rfl, fun _ _ => rfl, h1, h2, ?_⟩
  cases fs with
  | none => exact ⟨_, h2⟩
  | some f => exact ⟨_, h1 f⟩

/-- Witness of C21: the test prototype with `--values-file /files/valid` and
an empty `name`; the staged file is not opened. -/
theorem Values_missing_inputs_witness :
    Values testQuote (some testFs) (some testProto)
      (some (testFlags "/files/valid" "" "" "default")) = (.error .nameRequired, []) :=
  (Values_missing_inputs testQuote (some testFs) testProto
    (testFlags "/files/valid" "" "" "default") "/files/valid".toList
    (by decide) (by decide) (by decide)).2.2.1 testFs

/-! ## The failure condition of the Flag Extractor -/

/-- C28: for a prototype with distinct parameter names, every flag defined
and `Quote` succeeding on every flag value, `valuesFromFlags.Extract` fails
exactly when some parameter that has a default has an empty flag value; the
error is then the missing-parameters error, whose list is exactly the
parameters with a default and an empty flag value, in schema order; a
parameter without a default is never in the list. -/
theorem flags_failure_condition (Q : Quoter) (vff : valuesFromFlags)
    (hnd : (vff.p.Params.map (fun x => x.Name)).Nodup)
    (hb : ∀ x ∈ vff.p.Params, ∃ val, vff.flags.GetString x.Name = .ok val)
    (hq : ∀ x ∈ vff.p.Params, ∀ val, vff.flags.GetString x.Name = .ok val →
      ∃ q, Q x val = .ok q) :
    ((∃ e, vff.Extract Q = .error e) ↔
      ∃ x ∈ vff.p.Params, x.Default ≠ none ∧ vff.flags.GetString x.Name = .ok []) ∧
    (∀ e, vff.Extract Q = .error e →
      e = .missingRequiredFlags vff.p.Name
        (vff.p.Params.filter (fun x =>
          decide (x.Default ≠ none) && decide (vff.flags.GetString x.Name = .ok [])))) ∧
    (∀ pn missing, vff.Extract Q = .error (.missingRequiredFlags pn missing) →
      ∀ x ∈ missing, x.Default ≠ none) := by
  obtain ⟨v1, m1, hl⟩ := flagsLoop_ok Q vff.p.Name vff.flags vff.p.Params [] [] hb
    (fun x hx val hv _ => hq x hx val hv) hnd (fun x _ => rfl)
  have hm := flagsLoop_missing Q _ _ _ _ _ _ _ hl
  simp only [List.nil_append] at hm
  have hfilter : vff.p.Params.filter (skipped vff.flags) =
      vff.p.Params.filter (fun x =>
        decide (x.Default ≠ none) && decide (vff.flags.GetString x.Name = .ok [])) := by
    apply List.filter_congr
    intro x _
    cases hs : skipped vff.flags x with
    | true =>
      obtain ⟨h1, h2⟩ := (skipped_true_iff _ _).mp hs
      simp [h1, h2]
    | false =>
      by_cases h1 : x.Default ≠ none
      · by_cases h2 : vff.flags.GetString x.Name = .ok []
        · have := (skipped_true_iff vff.flags x).mpr ⟨h1, h2⟩
          rw [hs] at this
          cases this
        · simp [h2]
      · simp [h1]
  have hres : vff.Extract Q =
      if m1.length > 0 then .error (.missingRequiredFlags vff.p.Name m1) else .ok v1 := by
    unfold valuesFromFlags.Extract
    rw [hl]
  refine ⟨⟨?_, ?_⟩, ?_, ?_⟩
  · rintro ⟨e, he⟩
    rw [hres] at he
    by_cases hlen : m1.length > 0
    · obtain ⟨x, hx⟩ := List.exists_mem_of_length_pos hlen
      rw [hm] at hx
      obtain ⟨hx1, hx2⟩ := List.mem_filter.mp hx
      obtain ⟨h1, h2⟩ := (skipped_true_iff _ _).mp hx2
      exact ⟨x, hx1, h1, h2⟩
    · rw [if_neg hlen] at he
      cases he
  · rintro ⟨x, hx, h1, h2⟩
    have hmem : x ∈ m1 := by
      rw [hm]
      exact List.mem_filter.mpr ⟨hx, (skipped_true_iff _ _).mpr ⟨h1, h2⟩⟩
    rw [hres, if_pos (List.length_pos_of_mem hmem)]
    exact ⟨_, rfl⟩
  · intro e he
    rw [hres] at he
    by_cases hlen : m1.length > 0
    · rw [if_pos hlen] at he
      simp only [Except.error.injEq] at he
      rw [← he, hm, hfilter]
    · rw [if_neg hlen] at he
      cases he
  · intro pn missing he x hx
    rw [flagsExtract_missing Q vff pn missing he] at hx
    exact ((skipped_true_iff _ _).mp (List.mem_filter.mp hx).2).1

/-- Witness of C28: over the test prototype, the empty flag of the defaulted
`key2` makes the extraction fail with the list `key2`, although the flags of
`name` and `key1`, which have no default, are empty too. -/
theorem flags_failure_condition_witness :
    (∃ e, valuesFromFlags.Extract testQuote ⟨testProto, testFlags "" "" "" ""⟩ = .error e) ∧
    Err.missingRequiredFlags []
        [(⟨"key2".toList, .String, [], some "default".toList⟩ : ParamSchema)] =
      .missingRequiredFlags testProto.Name
        (testProto.Params.filter (fun x =>
          decide (x.Default ≠ none) &&
            decide ((testFlags "" "" "" "").GetString x.Name = .ok []))) :=
  ⟨(flags_failure_condition testQuote ⟨testProto, testFlags "" "" "" ""⟩ (by decide)
      (by
        intro x hx
        simp only [testProto, List.mem_cons, List.mem_singleton, List.mem_nil_iff, or_false] at hx
        rcases hx with e | e | e <;> subst e <;> exact ⟨_, rfl⟩)
      (by
        intro x hx val _
        simp only [testProto, List.mem_cons, List.mem_singleton, List.mem_nil_iff, or_false] at hx
        rcases hx with e | e | e <;> subst e <;> exact ⟨_, rfl⟩)).1.mpr
      ⟨⟨"key2".toList, .String, [], some "default".toList⟩, by decide, by decide, by decide⟩,
   (flags_failure_condition testQuote ⟨testProto, testFlags "" "" "" ""⟩ (by decide)
      (by
        intro x hx
        simp only [testProto, List.mem_cons, List.mem_singleton, List.mem_nil_iff, or_false] at hx
        rcases hx with e | e | e <;> subst e <;> exact ⟨_, rfl⟩)
      (by
        intro x hx val _
        simp only [testProto, List.mem_cons, List.mem_singleton, List.mem_nil_iff, or_false] at hx
        rcases hx with e | e | e <;> subst e <;> exact ⟨_, rfl⟩)).2.1
      (.missingRequiredFlags [] [⟨"key2".toList, .String, [], some "default".toList⟩])
      (by decide)⟩

/-! ## Duplicate keys and undeclared keys -/

/-- A successful parser loop binds each key as its last line does, and keeps
the bindings of the keys that no line has. -/
theorem valuesLoop_lastBinding (ls : List Str) (m m1 : GoMap) (key : Str)
    (h : valuesLoop ls m = .ok m1) :
    m1.find key = match lastBinding ls key with
      | some value => some value
      | none => m.find key := by
  induction ls generalizing m with
  | nil =>
    simp only [valuesLoop, Except.ok.injEq] at h
    rw [h]
    rfl
  | cons s rest ih =>
    rcases line_cases s with hs | ⟨k, v, hk, rfl⟩
    · rw [valuesLoop_no_eq s _ m hs] at h
      simp at h
    · by_cases hv : v = []
      · subst hv
        rw [valuesLoop_empty_value k _ m hk] at h
        simp at h
      · rw [valuesLoop_step k v rest m hk hv] at h
        rw [ih _ h]
        simp only [lastBinding, cut_first k v hk]
        cases lastBinding rest key with
        | some value => rfl
        | none =>
          simp only
          by_cases e : TrimSpace k = key
          · rw [if_pos e, ← e, find_set_same]
          · rw [if_neg e, find_set_other _ _ _ _ e]

/-- C25: when a values file binds the same trimmed key on several lines, the
last line wins. For a file whose lines are all of the form key=value with a
value part, `valuesFromFile.values` succeeds (duplicate keys are not an
error), and the map it returns binds every key to the trimmed value of the
last line whose trimmed key is that key, and binds no other key. -/
theorem values_last_line_wins (vff : valuesFromFile)
    (hwf : ∀ s ∈ scanLines vff.r.data, ∃ k v, '=' ∉ k ∧ v ≠ [] ∧ s = k ++ '=' :: v)
    (hfail : vff.r.failed = false) :
    ∃ m, vff.values = .ok m ∧ ∀ key, m.find key = lastBinding (scanLines vff.r.data) key := by
  obtain ⟨m, hm⟩ := valuesLoop_ok (scanLines vff.r.data) [] hwf
  refine ⟨m, ?_, ?_⟩
  · unfold valuesFromFile.values
    simp [hm, hfail]
  · intro key
    rw [valuesLoop_lastBinding _ _ _ key hm]
    cases lastBinding (scanLines vff.r.data) key <;> rfl

/-- Witness of C25: `key1` bound on three lines, with spaces around the last
one. -/
theorem values_last_line_wins_witness :
    ∃ m, (testFile "key1=a\nkey2=b\nkey1=c\n key1 = d \n").values = .ok m ∧
      m.find "key1".toList = some "d".toList ∧ m.find "key2".toList = some "b".toList ∧
      m.find "key3".toList = none := by
  obtain ⟨m, h1, h2⟩ := values_last_line_wins
    (testFile "key1=a\nkey2=b\nkey1=c\n key1 = d \n")
    (by
      intro s hs
      have hl : scanLines (testFile "key1=a\nkey2=b\nkey1=c\n key1 = d \n").r.data =
          ["key1=a".toList, "key2=b".toList, "key1=c".toList, " key1 = d ".toList] := by decide
      rw [hl] at hs
      simp only [List.mem_cons, List.mem_singleton, List.mem_nil_iff, or_false] at hs
      rcases hs with e | e | e | e
      · exact ⟨"key1".toList, "a".toList, by decide, by decide, by rw [e]; decide⟩
      · exact ⟨"key2".toList, "b".toList, by decide, by decide, by rw [e]; decide⟩
      · exact ⟨"key1".toList, "c".toList, by decide, by decide, by rw [e]; decide⟩
      · exact ⟨" key1 ".toList, " d ".toList, by decide, by decide, by rw [e]; decide⟩)
    rfl
  refine ⟨m, h1, ?_, ?_, ?_⟩
  · rw [h2]; decide
  · rw [h2]; decide
  · rw [h2]; decide

/-- Two runs of the parser loop from maps that agree off one key end with the
same error or with maps that agree off that key. -/
theorem valuesLoop_agree_off (ls : List Str) (m m2 : GoMap) (K : Str)
    (hm : ∀ key, key ≠ K → m.find key = m2.find key) :
    match valuesLoop ls m, valuesLoop ls m2 with
    | .error e, .error e2 => e = e2
    | .ok a, .ok b => ∀ key, key ≠ K → a.find key = b.find key
    | _, _ => False := by
  induction ls generalizing m m2 with
  | nil => simpa [valuesLoop] using hm
  | cons s rest ih =>
    rcases line_cases s with hs | ⟨k, v, hk, rfl⟩
    · rw [valuesLoop_no_eq s _ m hs, valuesLoop_no_eq s _ m2 hs]
    · by_cases hv : v = []
      · subst hv
        rw [valuesLoop_empty_value k _ m hk, valuesLoop_empty_value k _ m2 hk]
      · rw [valuesLoop_step k v _ m hk hv, valuesLoop_step k v _ m2 hk hv]
        apply ih
        intro key hkey
        by_cases e : TrimSpace k = key
        · subst e
          rw [find_set_same, find_set_same]
        · rw [find_set_other _ _ _ _ e, find_set_other _ _ _ _ e]
          exact hm key hkey

/-- The loop of the File Extractor reads the values of the declared names
only. -/
theorem fileLoop_congr_names (Q : Quoter) (values values2 : GoMap) (ps : List ParamSchema)
    (m : GoMap) (missing : List ParamSchema)
    (h : ∀ x ∈ ps, values.get x.Name = values2.get x.Name) :
    extractFileLoop Q values ps m missing = extractFileLoop Q values2 ps m missing := by
  induction ps generalizing m missing with
  | nil => rfl
  | cons x rest ih =>
    simp only [extractFileLoop, h x (by simp)]
    cases x.QuotedValue Q (values2.get x.Name) with
    | error e => rfl
    | ok q => exact ih _ _ (fun y hy => h y (by simp [hy]))

theorem takeWhile_append_all (p : Str → Bool) (a b : List Str) :
    (a ++ b).takeWhile p = if a.all p then a ++ b.takeWhile p else a.takeWhile p := by
  induction a with
  | nil => simp
  | cons x rest ih =>
    rw [List.cons_append, List.takeWhile_cons, List.takeWhile_cons, List.all_cons, ih]
    cases p x <;> cases rest.all p <;> simp

/-- A key=value line with an undeclared key, dropped from the delivered lines
with the scanner in the same final state, does not change the result of the
File Extractor. -/
theorem fileExtract_drop_line (Q : Quoter) (vff vff2 : valuesFromFile) (pre post : List Str)
    (k v : Str) (hp : vff2.p = vff.p) (hname : vff2.name = vff.name)
    (hfail : vff2.r.failed = vff.r.failed) (hk : '=' ∉ k) (hv : v ≠ [])
    (hkey : TrimSpace k ∉ vff.p.Params.map (fun x => x.Name))
    (h2 : scanLines vff2.r.data = pre ++ (k ++ '=' :: v) :: post)
    (h1 : scanLines vff.r.data = pre ++ post) :
    vff2.Extract Q = vff.Extract Q := by
  unfold valuesFromFile.Extract valuesFromFile.values
  rw [hp, hname, hfail, h1, h2, valuesLoop_append, valuesLoop_append]
  by_cases hn : vff.name = []
  · simp [hn]
  · simp only [hn, if_false]
    cases hpre : valuesLoop pre [] with
    | error e => rfl
    | ok m0 =>
      simp only
      rw [valuesLoop_step k v post m0 hk hv]
      have hagree := valuesLoop_agree_off post (m0.set (TrimSpace k) (TrimSpace v)) m0
        (TrimSpace k) (fun key hkk => find_set_other _ _ _ _ (fun e => hkk e.symm))
      cases ha : valuesLoop post (m0.set (TrimSpace k) (TrimSpace v)) with
      | error e1 =>
        cases hb : valuesLoop post m0 with
        | error e2 =>
          rw [ha, hb] at hagree
          simp only at hagree
          rw [hagree]
        | ok b => rw [ha, hb] at hagree; exact absurd hagree id
      | ok a =>
        cases hb : valuesLoop post m0 with
        | error e2 => rw [ha, hb] at hagree; exact absurd hagree id
        | ok b =>
          rw [ha, hb] at hagree
          simp only at hagree
          by_cases hf : vff.r.failed = true
          · simp [hf]
          · simp only [hf, Bool.false_eq_true, if_false]
            have hget : ∀ x ∈ vff.p.Params, (a.set "name".toList vff.name).get x.Name =
                (b.set "name".toList vff.name).get x.Name := by
              intro x hx
              by_cases e : "name".toList = x.Name
              · rw [← e, get_set_same, get_set_same]
              · rw [get_set_other _ _ _ _ e, get_set_other _ _ _ _ e]
                unfold GoMap.get
                rw [hagree x.Name (fun e2 => hkey (by
                  rw [← e2]; exact List.mem_map.mpr ⟨x, hx, rfl⟩))]
            rw [fileLoop_congr_names Q _ _ _ _ _ hget]

/-- C24: on success both extractors return a map whose key set is exactly the
set of the schema's parameter names. For the Flag Extractor and for the File
Extractor, a key is bound in a returned map exactly when it is the name of a
declared parameter. And a key=value line of the values file whose trimmed key
is not a declared name is dropped: the File Extractor returns the same result,
map or error, as for the file without that line. This is stated for two
readers whose delivered lines differ by that line and whose scanners end in
the same state, and for two texts read in the same way whose pieces differ by
that line, the line fitting the scanner's buffer. -/
theorem extract_keys_are_names (Q : Quoter) :
    (∀ (vff : valuesFromFlags) (m : GoMap), vff.Extract Q = .ok m →
      ∀ key, m.find key ≠ none ↔ key ∈ vff.p.Params.map (fun x => x.Name)) ∧
    (∀ (vff : valuesFromFile) (m : GoMap), vff.Extract Q = .ok m →
      ∀ key, m.find key ≠ none ↔ key ∈ vff.p.Params.map (fun x => x.Name)) ∧
    (∀ (vff vff2 : valuesFromFile) (pre post : List Str) (k v : Str),
      vff2.p = vff.p → vff2.name = vff.name → vff2.r.failed = vff.r.failed →
      '=' ∉ k → v ≠ [] → TrimSpace k ∉ vff.p.Params.map (fun x => x.Name) →
      scanLines vff2.r.data = pre ++ (k ++ '=' :: v) :: post →
      scanLines vff.r.data = pre ++ post →
      vff2.Extract Q = vff.Extract Q) ∧
    (∀ (vff vff2 : valuesFromFile) (pre post : List Str) (raw k v : Str),
      vff2.p = vff.p → vff2.name = vff.name → vff2.r.readErr = vff.r.readErr →
      '=' ∉ k → v ≠ [] → TrimSpace k ∉ vff.p.Params.map (fun x => x.Name) →
      dropCR raw = k ++ '=' :: v → fits raw = true →
      rawLines vff2.r.data = pre ++ raw :: post →
      rawLines vff.r.data = pre ++ post →
      vff2.Extract Q = vff.Extract Q) := by
  refine ⟨?_, ?_, ?_, ?_⟩
  · intro vff m hm key
    have hloop := flagsExtract_ok Q vff m hm
    have hmiss := flagsLoop_missing Q _ _ _ _ _ _ _ hloop
    constructor
    · intro hk
      rcases flagsLoop_keys Q _ _ _ _ _ _ _ key hloop hk with h | ⟨x, hx, _, hxn⟩
      · simp [GoMap.find] at h
      · exact List.mem_map.mpr ⟨x, hx, hxn⟩
    · intro hk
      obtain ⟨x, hx, hxn⟩ := List.mem_map.mp hk
      have hs : skipped vff.flags x = false := by
        cases hsk : skipped vff.flags x with
        | false => rfl
        | true =>
          have hmem : x ∈ vff.p.Params.filter (skipped vff.flags) :=
            List.mem_filter.mpr ⟨hx, hsk⟩
          simp only [List.nil_append] at hmiss
          rw [← hmiss] at hmem
          cases hmem
      obtain ⟨val, q, _, _, h3⟩ := flagsLoop_find_stored Q _ _ _ _ _ _ _ hloop x hx hs
      rw [← hxn, h3]
      simp
  · intro vff m hm key
    unfold valuesFromFile.Extract at hm
    by_cases hn : vff.name = []
    · simp [hn] at hm
    · simp only [hn, if_false] at hm
      cases hv : vff.values with
      | error e => simp [hv] at hm
      | ok values =>
        simp only [hv] at hm
        cases hl : extractFileLoop Q (values.set "name".toList vff.name) vff.p.Params [] [] with
        | error e => rw [hl] at hm; simp at hm
        | ok r =>
          obtain ⟨m1, missing1⟩ := r
          rw [hl] at hm
          have hm1 : m1 = m := by
            by_cases hlen : missing1.length > 0
            · simp [hlen] at hm
            · simp [hlen] at hm; exact hm
          subst hm1
          rcases fileLoop_find Q _ _ _ _ _ _ key hl with ⟨x, hx, hxn, q, _, h2⟩ | ⟨hnone, hfind⟩
          · constructor
            · intro _
              exact List.mem_map.mpr ⟨x, hx, hxn⟩
            · intro _
              rw [h2]; simp
          · constructor
            · intro hk
              rw [hfind] at hk
              simp [GoMap.find] at hk
            · intro hk
              obtain ⟨x, hx, hxn⟩ := List.mem_map.mp hk
              exact absurd hxn (hnone x hx)
  · intro vff vff2 pre post k v hp hname hfail hk hv hkey h2 h1
    exact fileExtract_drop_line Q vff vff2 pre post k v hp hname hfail hk hv hkey h2 h1
  · intro vff vff2 pre post raw k v hp hname hread hk hv hkey hraw hfit h2 h1
    have hfail : vff2.r.failed = vff.r.failed := by
      unfold Reader.failed
      rw [h1, h2, hread, List.all_append, List.all_append, List.all_cons, hfit, Bool.true_and]
    cases hall : pre.all fits with
    | true =>
      apply fileExtract_drop_line Q vff vff2 (pre.map dropCR)
        ((post.takeWhile fits).map dropCR) k v hp hname hfail hk hv hkey
      · unfold scanLines
        rw [h2, takeWhile_append_all, hall, if_pos rfl, List.takeWhile_cons, hfit, if_pos rfl,
          List.map_append, List.map_cons, hraw]
      · unfold scanLines
        rw [h1, takeWhile_append_all, hall, if_pos rfl, List.map_append]
    | false =>
      have e : scanLines vff2.r.data = scanLines vff.r.data := by
        unfold scanLines
        rw [h1, h2, takeWhile_append_all, takeWhile_append_all, hall]
        rfl
      unfold valuesFromFile.Extract valuesFromFile.values
      rw [hp, hname, hfail, e]

/-- Witness of C24: over the test prototype the line `extra=1` of the values
file is dropped, and the keys of the result are `name`, `key1` and `key2`. -/
theorem extract_keys_are_names_witness :
    (testFile "key1=value1\nextra=1\n").Extract testQuote =
      (testFile "key1=value1\n").Extract testQuote ∧
    (∀ key, GoMap.find [("key2".toList, [dquote] ++ "default".toList ++ [dquote]),
        ("key1".toList, [dquote] ++ "value1".toList ++ [dquote]),
        ("name".toList, [dquote] ++ "name".toList ++ [dquote])] key ≠ none ↔
      key ∈ testProto.Params.map (fun x => x.Name)) :=
  ⟨(extract_keys_are_names testQuote).2.2.1 (testFile "key1=value1\n")
      (testFile "key1=value1\nextra=1\n") ["key1=value1".toList] [] "extra".toList "1".toList
      rfl rfl rfl (by decide) (by decide) (by decide) (by decide) (by decide),
   (extract_keys_are_names testQuote).2.1 (testFile "key1=value1\nextra=1\n") _ (by decide)⟩

/-! ## Name fallback -/

/-- C26: name fallback in `PrototypeUse.Run`. In a run that reaches the value
resolver (lookup, binding, parsing, argument detection and the read of the
`name` flag succeed, `name` being the value the parsed flag set holds for
`--name`), the resolver is consulted on one flag set only, in which `name` is
that value if it is not empty and the positional component name otherwise,
every other flag being as parsed; so the resolver sees an empty `name` only
when the component name is itself empty. -/
theorem Run_name_fallback (d : UseDeps) (pl : PrototypeUse)
    (prototypes index listed : List Prototype) (query : Str) (rest : List Str) (p : Prototype)
    (bound flags : FlagSet) (args : List Str) (componentName : Str)
    (templateType : TemplateType) (name : Str)
    (h1 : d.allPrototypes pl.app = .ok prototypes) (h2 : d.NewIndex prototypes = .ok index)
    (h3 : d.IndexList index = .ok listed) (h4 : pl.args = query :: rest)
    (h5 : d.findUniquePrototype query listed = .ok p) (h6 : BindFlags p = .ok bound)
    (h7 : d.Parse bound pl.args = .ok (flags, args))
    (h8 : detectTemplate d args = .ok (componentName, templateType))
    (h9 : flags.GetString "name".toList = .ok name) :
    (resolverFlags flags name componentName).GetString "name".toList =
      .ok (if name = [] then componentName else name) ∧
    ((resolverFlags flags name componentName).GetString "name".toList = .ok [] →
      componentName = []) ∧
    (∀ key, key ≠ "name".toList →
      (resolverFlags flags name componentName).GetString key = flags.GetString key) ∧
    (∀ e, pl.protoValuesFn (d.appFs pl.app) (some p)
        (some (resolverFlags flags name componentName)) = .error e →
      pl.Run d = (some (.values e), [])) ∧
    (∀ pv2 : Option Fs → Option Prototype → Option FlagSet → Except Err GoMap,
      pv2 (d.appFs pl.app) (some p) (some (resolverFlags flags name componentName)) =
        pl.protoValuesFn (d.appFs pl.app) (some p)
          (some (resolverFlags flags name componentName)) →
      PrototypeUse.Run d { pl with protoValuesFn := pv2 } = pl.Run d) := by
  have hseen : (resolverFlags flags name componentName).GetString "name".toList =
      .ok (if name = [] then componentName else name) ∧
      ∀ key, key ≠ "name".toList →
        (resolverFlags flags name componentName).GetString key = flags.GetString key := by
    unfold resolverFlags
    by_cases hn : name = []
    · rw [if_pos hn, if_pos hn]
      cases hs : flags.Set "name".toList componentName with
      | error e =>
        exfalso
        unfold FlagSet.Set at hs
        unfold FlagSet.GetString at h9
        cases hf : flags.formal.find "name".toList with
        | none => rw [hf] at h9; cases h9
        | some v => rw [hf] at hs; cases hs
      | ok flags1 => exact Set_ok flags flags1 _ _ hs
    · rw [if_neg hn, if_neg hn]
      exact ⟨h9, fun _ _ => rfl⟩
  rw [h4] at h7
  refine ⟨hseen.1, ?_, hseen.2, ?_, ?_⟩
  · intro h
    rw [hseen.1] at h
    simp only [Except.ok.injEq] at h
    by_cases hn : name = []
    · rw [if_pos hn] at h; exact h
    · rw [if_neg hn] at h; exact absurd h hn
  · intro e he
    unfold resolverFlags at he
    simp only [PrototypeUse.Run, h1, h2, h3, h4, h5, h6, h7, h8, h9, he]
  · intro pv2 hpv
    unfold resolverFlags at hpv
    simp only [PrototypeUse.Run, h1, h2, h3, h4, h5, h6, h7, h8, h9, hpv]

/-- Witness of C26: without `--name` on the command line of
`TestPrototypeUse`, the resolver sees the component name `myDeployment` as
`name`. -/
theorem Run_name_fallback_witness :
    (resolverFlags
      ⟨[("containerPort".toList, "80".toList), ("image".toList, "nginx".toList),
        ("replicas".toList, "1".toList), ("name".toList, []),
        ("values-file".toList, [])]⟩ [] "myDeployment".toList).GetString "name".toList =
      .ok "myDeployment".toList :=
  (Run_name_fallback testDeps
    (testUse ["single-port-deployment", "myDeployment", "--image", "nginx",
      "--containerPort", "80"])
    [deploymentProto] [deploymentProto] [deploymentProto]
    "single-port-deployment".toList
    ["myDeployment".toList, "--image".toList, "nginx".toList, "--containerPort".toList,
      "80".toList]
    deploymentProto
    ⟨[("replicas".toList, "1".toList), ("containerPort".toList, []), ("image".toList, []),
      ("name".toList, []), ("values-file".toList, [])]⟩
    ⟨[("containerPort".toList, "80".toList), ("image".toList, "nginx".toList),
      ("replicas".toList, "1".toList), ("name".toList, []),
      ("values-file".toList, [])]⟩
    ["single-port-deployment".toList, "myDeployment".toList]
    "myDeployment".toList "jsonnet".toList []
    rfl rfl rfl rfl (by decide) (by decide) (by decide) (by decide) (by decide)).1

/-! ## String utilities -/

theorem IsASCIIIdentifier_false_iff (s : Str) :
    IsASCIIIdentifier s = false ↔ ∃ c ∈ s, c.toNat < 65 ∨ 122 < c.toNat := by
  unfold IsASCIIIdentifier
  have hA : 'A'.toNat = 65 := by decide
  have hz : 'z'.toNat = 122 := by decide
  simp only [hA, hz]
  by_cases h : (s.any fun r => decide (r.toNat < 65) || decide (r.toNat > 122)) = true
  · rw [if_pos h]
    obtain ⟨c, hc, hf⟩ := List.any_eq_true.mp h
    refine ⟨fun _ => ⟨c, hc, ?_⟩, fun _ => rfl⟩
    simpa using hf
  · rw [if_neg h]
    constructor
    · intro h0
      cases h0
    · rintro ⟨c, hc, hf⟩
      exact absurd (List.any_eq_true.mpr ⟨c, hc, by simpa using hf⟩) h

/-- C23 (the code accepts and rejects by the range `A` to `z`): the text
`abc1`, made of letters and a digit, is rejected, and the texts `a[b`, `a\b`,
`a]b`, `a^b` and the one with a backtick, which hold a special character
between `Z` and `a`, are accepted. -/
theorem IsASCIIIdentifier_range :
    IsASCIIIdentifier "abc1".toList = false ∧
    IsASCIIIdentifier "a[b".toList = true ∧
    IsASCIIIdentifier "a\\b".toList = true ∧
    IsASCIIIdentifier "a]b".toList = true ∧
    IsASCIIIdentifier "a^b".toList = true ∧
    IsASCIIIdentifier "a`b".toList = true := by
  decide

/-- C22 (counterexample): every character of `hello-world` is ASCII, and
`QuoteNonASCII` wraps the text in double quotes. -/
theorem QuoteNonASCII_ascii_counterexample :
    (∀ c ∈ "hello-world".toList, c.toNat < 128) ∧
    QuoteNonASCII "hello-world".toList = [dquote] ++ "hello-world".toList ++ [dquote] := by
  decide

/-- C22 (amended): `QuoteNonASCII` wraps the text in double quotes when the
text is not an ASCII identifier: when it holds a non-ASCII character, and
also when it holds an ASCII character that is below `A` and not a digit, or
above `z` (a space, a hyphen, a brace). It returns the text unchanged when
every character is an ASCII letter or an underscore. -/
theorem QuoteNonASCII_cases (s : Str) :
    ((∃ c ∈ s, 127 < c.toNat) → QuoteNonASCII s = dquote :: (s ++ [dquote])) ∧
    ((∃ c ∈ s, c.toNat < 48 ∨ (57 < c.toNat ∧ c.toNat < 65) ∨ 122 < c.toNat) →
      QuoteNonASCII s = dquote :: (s ++ [dquote])) ∧
    ((∀ c ∈ s, isLetter c = true ∨ c = '_') → QuoteNonASCII s = s) := by
  have hquote : (∃ c ∈ s, c.toNat < 65 ∨ 122 < c.toNat) →
      QuoteNonASCII s = dquote :: (s ++ [dquote]) := by
    intro h
    unfold QuoteNonASCII
    rw [(IsASCIIIdentifier_false_iff s).mpr h]
    rfl
  refine ⟨?_, ?_, ?_⟩
  · rintro ⟨c, hc, h⟩
    exact hquote ⟨c, hc, Or.inr (by omega)⟩
  · rintro ⟨c, hc, h⟩
    exact hquote ⟨c, hc, by omega⟩
  · intro h
    unfold QuoteNonASCII
    cases hi : IsASCIIIdentifier s with
    | true => rfl
    | false =>
      exfalso
      obtain ⟨c, hc, hr⟩ := (IsASCIIIdentifier_false_iff s).mp hi
      rcases h c hc with hl | hu
      · unfold isLetter at hl
        simp only [Bool.or_eq_true, Bool.and_eq_true, decide_eq_true_eq] at hl
        omega
      · subst hu
        have : '_'.toNat = 95 := by decide
        omega

/-- Witness of C22 (amended): a text with a non-ASCII character is quoted, a
text of letters and an underscore is not. -/
theorem QuoteNonASCII_cases_witness :
    QuoteNonASCII "hello世界".toList = dquote :: ("hello世界".toList ++ [dquote]) ∧
    QuoteNonASCII "Hello_World".toList = "Hello_World".toList :=
  ⟨(QuoteNonASCII_cases "hello世界".toList).1 ⟨'世', by decide, by decide⟩,
   (QuoteNonASCII_cases "Hello_World".toList).2.2 (by decide)⟩

/-! ## Line-ending normalisation of `Compare` -/

theorem rawLinesCRLF_no_cr (s : Str) (h : '\r' ∉ s) :
    rawLinesCRLF s = if s = [] then [] else [s] := by
  induction s with
  | nil => rfl
  | cons c cs ih =>
    have hc : c ≠ '\r' := fun e => h (by simp [e])
    have ih2 := ih (fun e => h (by simp [e]))
    cases cs with
    | nil => rfl
    | cons d rest =>
      have e : rawLinesCRLF (c :: d :: rest) =
          (match rawLinesCRLF (d :: rest) with
            | [] => [[c]]
            | line :: more => (c :: line) :: more) := by
        simp [rawLinesCRLF, hc]
      rw [e, ih2]
      simp

theorem rawLinesCRLF_toCRLF (s : Str) (h : '\r' ∉ s) :
    rawLinesCRLF (toCRLF s) = rawLines s := by
  induction s with
  | nil => rfl
  | cons c cs ih =>
    have hc : c ≠ '\r' := fun e => h (by simp [e])
    have ih2 := ih (fun e => h (by simp [e]))
    by_cases hn : c = '\n'
    · subst hn
      have e1 : toCRLF ('\n' :: cs) = '\r' :: '\n' :: toCRLF cs := by simp [toCRLF]
      have e2 : rawLinesCRLF ('\r' :: '\n' :: toCRLF cs) = [] :: rawLinesCRLF (toCRLF cs) := by
        simp [rawLinesCRLF]
      have e3 : rawLines ('\n' :: cs) = [] :: rawLines cs := by simp [rawLines]
      rw [e1, e2, e3, ih2]
    · have e1 : toCRLF (c :: cs) = c :: toCRLF cs := by simp [toCRLF, hn]
      have e3 : rawLines (c :: cs) =
          (match rawLines cs with
            | [] => [[c]]
            | line :: rest => (c :: line) :: rest) := by
        simp [rawLines, hn]
      rw [e1, e3, ← ih2]
      cases h1 : toCRLF cs with
      | nil => rfl
      | cons d rest =>
        simp [rawLinesCRLF, hc]

theorem rawLines_mem (s : Str) : ∀ l ∈ rawLines s, ∀ c ∈ l, c ∈ s := by
  induction s with
  | nil => intro l hl; cases hl
  | cons c cs ih =>
    intro l hl x hx
    by_cases hn : c = '\n'
    · have e3 : rawLines (c :: cs) = [] :: rawLines cs := by simp [rawLines, hn]
      rw [e3] at hl
      rcases List.mem_cons.mp hl with h0 | h0
      · subst h0
        cases hx
      · exact List.mem_cons_of_mem _ (ih l h0 x hx)
    · have e3 : rawLines (c :: cs) =
          (match rawLines cs with
            | [] => [[c]]
            | line :: rest => (c :: line) :: rest) := by
        simp [rawLines, hn]
      rw [e3] at hl
      cases h1 : rawLines cs with
      | nil =>
        rw [h1] at hl
        simp only [List.mem_singleton] at hl
        subst hl
        simp only [List.mem_singleton] at hx
        subst hx
        exact List.mem_cons_self _ _
      | cons line rest =>
        rw [h1] at hl ih
        simp only at hl
        rcases List.mem_cons.mp hl with h0 | h0
        · subst h0
          rcases List.mem_cons.mp hx with hx0 | hx0
          · subst hx0
            exact List.mem_cons_self _ _
          · exact List.mem_cons_of_mem _ (ih line (List.mem_cons_self _ _) x hx0)
        · exact List.mem_cons_of_mem _ (ih l (List.mem_cons_of_mem _ h0) x hx)

theorem rawLines_map_dropCR (s : Str) (h : '\r' ∉ s) :
    (rawLines s).map dropCR = rawLines s := by
  have : ∀ l ∈ rawLines s, dropCR l = l := fun l hl =>
    dropCR_no_cr l (fun hm => h (rawLines_mem s l hl _ hm))
  calc (rawLines s).map dropCR = (rawLines s).map id := List.map_congr_left this
    _ = rawLines s := List.map_id _

theorem rawLines_ne_nil (c : Char) (cs : Str) : rawLines (c :: cs) ≠ [] := by
  by_cases hn : c = '\n'
  · simp [rawLines, hn]
  · simp only [rawLines, hn, if_false]
    cases rawLines cs <;> simp

theorem Join_cons_line (c : Char) (l : Str) (r : List Str) (sep : Str) :
    Join ((c :: l) :: r) sep = c :: Join (l :: r) sep := by
  cases r with
  | nil => rfl
  | cons b rest => rfl

theorem Join_rawLines (s : Str) :
    Join (rawLines s) ['\n'] = if s.getLast? = some '\n' then s.dropLast else s := by
  induction s with
  | nil => rfl
  | cons c cs ih =>
    by_cases hn : c = '\n'
    · subst hn
      have e3 : rawLines ('\n' :: cs) = [] :: rawLines cs := by simp [rawLines]
      rw [e3]
      cases cs with
      | nil => rfl
      | cons d rest =>
        cases h1 : rawLines (d :: rest) with
        | nil => exact absurd h1 (rawLines_ne_nil d rest)
        | cons line more =>
          rw [h1] at ih
          have e4 : Join ([] :: line :: more) ['\n'] = '\n' :: Join (line :: more) ['\n'] := rfl
          rw [e4, ih, List.getLast?_cons_cons]
          by_cases hl : (d :: rest).getLast? = some '\n'
          · rw [if_pos hl, if_pos hl]
            rfl
          · rw [if_neg hl, if_neg hl]
    · have e3 : rawLines (c :: cs) =
          (match rawLines cs with
            | [] => [[c]]
            | line :: rest => (c :: line) :: rest) := by
        simp [rawLines, hn]
      rw [e3]
      cases cs with
      | nil =>
        have : ([c] : Str).getLast? ≠ some '\n' := by
          simp only [List.getLast?_singleton, ne_eq, Option.some.injEq]
          exact hn
        rw [if_neg this]
        rfl
      | cons d rest =>
        cases h1 : rawLines (d :: rest) with
        | nil => exact absurd h1 (rawLines_ne_nil d rest)
        | cons line more =>
          rw [h1] at ih
          simp only
          rw [Join_cons_line, ih, List.getLast?_cons_cons]
          by_cases hl : (d :: rest).getLast? = some '\n'
          · rw [if_pos hl, if_pos hl]
            rfl
          · rw [if_neg hl, if_neg hl]

theorem tooLongCRLF_no_cr (s : Str) (n : Nat) (h : '\r' ∉ s) :
    tooLongCRLF s n = decide (MaxScanTokenSize ≤ n + byteLen s) := by
  induction s generalizing n with
  | nil => simp [tooLongCRLF, byteLen]
  | cons c cs ih =>
    have hc : c ≠ '\r' := fun e => h (by simp [e])
    have ih2 := ih (n + RuneLen c) (fun e => h (by simp [e]))
    cases cs with
    | nil => simp [tooLongCRLF, byteLen]
    | cons d r =>
      have e : tooLongCRLF (c :: d :: r) n = tooLongCRLF (d :: r) (n + RuneLen c) := by
        simp [tooLongCRLF, hc]
      rw [e, ih2]
      have e2 : byteLen (c :: d :: r) = RuneLen c + byteLen (d :: r) := rfl
      rw [e2, Nat.add_assoc]

theorem tooLongCRLF_toCRLF (s : Str) (n : Nat) (h : '\r' ∉ s)
    (hfit : n + byteLen s < MaxScanTokenSize) : tooLongCRLF (toCRLF s) n = false := by
  induction s generalizing n with
  | nil =>
    have e : byteLen ([] : Str) = 0 := rfl
    rw [e] at hfit
    simp only [toCRLF, tooLongCRLF, decide_eq_false_iff_not]
    omega
  | cons c cs ih =>
    have hc : c ≠ '\r' := fun e => h (by simp [e])
    have hcs : '\r' ∉ cs := fun e => h (by simp [e])
    have e : byteLen (c :: cs) = RuneLen c + byteLen cs := rfl
    rw [e] at hfit
    by_cases hn : c = '\n'
    · subst hn
      have e1 : toCRLF ('\n' :: cs) = '\r' :: '\n' :: toCRLF cs := by simp [toCRLF]
      have e2 : RuneLen '\n' = 1 := by decide
      rw [e2] at hfit
      have e3 : tooLongCRLF ('\r' :: '\n' :: toCRLF cs) n =
          (decide (MaxScanTokenSize < n + 2) || tooLongCRLF (toCRLF cs) 0) := by
        simp [tooLongCRLF]
      rw [e1, e3, ih 0 hcs (by omega)]
      simp only [Bool.or_false, decide_eq_false_iff_not]
      omega
    · have e1 : toCRLF (c :: cs) = c :: toCRLF cs := by simp [toCRLF, hn]
      rw [e1]
      have ih2 := ih (n + RuneLen c) hcs (by omega)
      cases h1 : toCRLF cs with
      | nil =>
        simp only [tooLongCRLF, decide_eq_false_iff_not]
        omega
      | cons d r =>
        rw [h1] at ih2
        have e3 : tooLongCRLF (c :: d :: r) n = tooLongCRLF (d :: r) (n + RuneLen c) := by
          simp [tooLongCRLF, hc]
        rw [e3, ih2]

theorem byteLen_dropLast_le (s : Str) : byteLen s.dropLast ≤ byteLen s := by
  induction s with
  | nil => exact Nat.le_refl _
  | cons c cs ih =>
    cases cs with
    | nil => exact Nat.zero_le _
    | cons d r =>
      have e1 : (c :: d :: r).dropLast = c :: (d :: r).dropLast := rfl
      have e2 : byteLen (c :: (d :: r).dropLast) = RuneLen c + byteLen (d :: r).dropLast := rfl
      have e3 : byteLen (c :: d :: r) = RuneLen c + byteLen (d :: r) := rfl
      rw [e1, e2, e3]
      omega

theorem scanString_unix (s : Str) (h : '\r' ∉ s) (hfit : byteLen s < MaxScanTokenSize) :
    scanString ⟨s, false⟩ = .ok s := by
  have hf : Reader.failedCRLF ⟨s, false⟩ = false := by
    unfold Reader.failedCRLF
    simp only [Bool.or_false]
    rw [tooLongCRLF_no_cr s 0 h]
    simp only [decide_eq_false_iff_not]
    omega
  unfold scanString scanCRLFLines
  rw [hf]
  simp only [Bool.false_eq_true, if_false]
  rw [rawLinesCRLF_no_cr s h]
  cases s with
  | nil => rfl
  | cons c cs =>
    simp only [reduceCtorEq, if_false, List.map_cons, List.map_nil]
    rw [dropCR_no_cr _ h]
    rfl

theorem scanString_long (s : Str) (h : '\r' ∉ s) (hlong : MaxScanTokenSize ≤ byteLen s) :
    scanString ⟨s, false⟩ = .error .scannerError := by
  have hf : Reader.failedCRLF ⟨s, false⟩ = true := by
    unfold Reader.failedCRLF
    simp only [Bool.or_false]
    rw [tooLongCRLF_no_cr s 0 h]
    simp only [decide_eq_true_eq]
    omega
  unfold scanString
  rw [hf]
  rfl

theorem scanString_windows (s : Str) (h : '\r' ∉ s) (hfit : byteLen s < MaxScanTokenSize) :
    scanString ⟨toCRLF s, false⟩ =
      .ok (if s.getLast? = some '\n' then s.dropLast else s) := by
  have hf : Reader.failedCRLF ⟨toCRLF s, false⟩ = false := by
    unfold Reader.failedCRLF
    simp only [Bool.or_false]
    exact tooLongCRLF_toCRLF s 0 h (by omega)
  unfold scanString scanCRLFLines
  rw [hf]
  simp only [Bool.false_eq_true, if_false]
  rw [rawLinesCRLF_toCRLF s h, rawLines_map_dropCR s h, Join_rawLines]

/-- C27 (counterexamples): the text `a` followed by a line feed holds no
carriage return; the scan of its Windows form is `a`, the scan of the text
itself keeps the line feed, and `Compare` reports the two as different. The
scan of `a` followed by two carriage returns is `a` with one carriage return,
and the scan of that is `a`: the normalisation is not idempotent. -/
theorem scanString_counterexample :
    '\r' ∉ "a\n".toList ∧
    scanString ⟨toCRLF "a\n".toList, false⟩ = .ok "a".toList ∧
    scanString ⟨"a\n".toList, false⟩ = .ok "a\n".toList ∧
    Compare testDiff ⟨toCRLF "a\n".toList, false⟩ ⟨"a\n".toList, false⟩ =
      .error (.different "differ".toList) ∧
    scanString ⟨"a\r\r".toList, false⟩ = .ok "a\r".toList ∧
    scanString ⟨"a\r".toList, false⟩ = .ok "a".toList := by
  decide

/-- C27 (amended): for a text `s` without a carriage return and shorter than
the scanner's buffer (fewer than `MaxScanTokenSize` bytes), `scanString`
returns `s`; the scan of its Windows form is the scan of `s` when `s` does not
end in a line feed, and `s` without its final line feed when it does;
`Compare` treats the Windows form of a text that does not end in a line feed
as it treats the text; and scanning the result of either scan again returns
it unchanged. A text without a carriage return that is not shorter than the
buffer is one token too long for the scanner: `scanString` returns the
scanner's error. -/
theorem scanString_normalises (s : Str) (h : '\r' ∉ s) :
    (byteLen s < MaxScanTokenSize →
      scanString ⟨s, false⟩ = .ok s ∧
      (s.getLast? ≠ some '\n' →
        scanString ⟨toCRLF s, false⟩ = scanString ⟨s, false⟩) ∧
      (s.getLast? = some '\n' → scanString ⟨toCRLF s, false⟩ = .ok s.dropLast) ∧
      (s.getLast? ≠ some '\n' → ∀ (Diff : Str → Str → Except Str Str) (other : Reader),
        Compare Diff ⟨toCRLF s, false⟩ other = Compare Diff ⟨s, false⟩ other ∧
        Compare Diff other ⟨toCRLF s, false⟩ = Compare Diff other ⟨s, false⟩) ∧
      (∀ t, scanString ⟨s, false⟩ = .ok t → scanString ⟨t, false⟩ = .ok t) ∧
      (∀ t, scanString ⟨toCRLF s, false⟩ = .ok t → scanString ⟨t, false⟩ = .ok t)) ∧
    (MaxScanTokenSize ≤ byteLen s → scanString ⟨s, false⟩ = .error .scannerError) := by
  refine ⟨?_, scanString_long s h⟩
  intro hfit
  have hu := scanString_unix s h hfit
  have hw := scanString_windows s h hfit
  refine ⟨hu, ?_, ?_, ?_, ?_, ?_⟩
  · intro hl
    rw [hw, hu, if_neg hl]
  · intro hl
    rw [hw, if_pos hl]
  · intro hl Diff other
    have e : scanString ⟨toCRLF s, false⟩ = scanString ⟨s, false⟩ := by
      rw [hw, hu, if_neg hl]
    unfold Compare
    rw [e]
    exact ⟨rfl, rfl⟩
  · intro t ht
    rw [hu] at ht
    cases ht
    exact hu
  · intro t ht
    rw [hw] at ht
    cases ht
    by_cases hl : s.getLast? = some '\n'
    · rw [if_pos hl]
      exact scanString_unix _ (fun hm => h (List.mem_of_mem_dropLast hm))
        (Nat.lt_of_le_of_lt (byteLen_dropLast_le s) hfit)
    · rw [if_neg hl]
      exact hu

/-- Witness of C27 (amended): the two-line text `a`, line feed, `b`. -/
theorem scanString_normalises_witness :
    scanString ⟨"a\nb".toList, false⟩ = .ok "a\nb".toList ∧
    scanString ⟨toCRLF "a\nb".toList, false⟩ = scanString ⟨"a\nb".toList, false⟩ ∧
    Compare testDiff ⟨toCRLF "a\nb".toList, false⟩ ⟨"a\nb".toList, false⟩ = .ok true :=
  ⟨((scanString_normalises "a\nb".toList (by decide)).1 (by decide)).1,
   ((scanString_normalises "a\nb".toList (by decide)).1 (by decide)).2.1 (by decide),
   (((scanString_normalises "a\nb".toList (by decide)).1 (by decide)).2.2.2.1 (by decide) testDiff
      ⟨"a\nb".toList, false⟩).1.trans (by decide)⟩

end Ksonnet
